import Mathlib

/-!
# Tideways profiler extension (`tideways.c`): a shallow embedding

The C sources are embedded as pure functions over explicit state.

* A C string (`char *` read up to its terminating NUL) and a PHP string
  (pointer plus length) are both a `List Char`; one `Char` stands for one
  byte.
* A Zend `HashTable` is an insertion-ordered association list.
* The linked list of `hp_entry_t` frames (`prev_hprof`) is a `List`, the
  head being the top of the stack.
* Readings of clocks and of the memory manager are arguments of the
  function that takes them.
* A dereference of a NULL pointer is the result `none`.
* An extractor is a function on the span tree and the span cache; one that
  calls back into PHP code of the application is not covered.
* Timer differences are `uint64` differences; a difference is stored after
  its conversion to `double` and from there to `long`, which keeps every
  difference below `2 ^ 53`. The counters of the statistics table are
  integers without a bound.
-/

namespace Tideways

/-! ## Strings and hash tables -/

/-- Byte strings: the bytes of a C string before its NUL. -/
abbrev CStr := List Char

/-- The fictitious function name at the top of the call tree. -/
def ROOT_SYMBOL : CStr := "main()".toList

/-- Size of the scratch buffer of `hp_mode_hier_endfn_cb`. -/
def SCRATCH_BUF_LEN : Nat := 512

def TIDEWAYS_FLAGS_NO_BUILTINS : Nat := 0x0001
def TIDEWAYS_FLAGS_CPU : Nat := 0x0002
def TIDEWAYS_FLAGS_MEMORY : Nat := 0x0004
def TIDEWAYS_FLAGS_NO_USERLAND : Nat := 0x0008
def TIDEWAYS_FLAGS_NO_COMPILE : Nat := 0x0010
def TIDEWAYS_FLAGS_NO_SPANS : Nat := 0x0020
def TIDEWAYS_FLAGS_NO_HIERACHICAL : Nat := 0x0040

/-- Zend hash table: keys in insertion order, each key at most once. A string
key stands for the key as PHP sees it; that the `add_assoc_*` functions store
a key that is a decimal integer under that integer is not modelled. -/
abbrev HashTable (κ α : Type) := List (κ × α)

/-- Lookup of a key (`zend_hash_find`, `zend_hash_index_find`). -/
def zend_hash_find {κ α : Type} [DecidableEq κ] : HashTable κ α → κ → Option α
  | [], _ => none
  | (k1, v) :: t, k => if k1 = k then some v else zend_hash_find t k

/-- Insert or overwrite (`zend_hash_update`, `zend_hash_index_update`,
`add_assoc_*`): an existing key keeps its position, a new key is appended. -/
def zend_hash_update {κ α : Type} [DecidableEq κ] : HashTable κ α → κ → α → HashTable κ α
  | [], k, v => [(k, v)]
  | (k1, v1) :: t, k, v =>
    if k1 = k then (k, v) :: t else (k1, v1) :: zend_hash_update t k v

/-- Number of entries (`zend_hash_num_elements`). -/
def zend_hash_num_elements {κ α : Type} (h : HashTable κ α) : Nat := h.length

/-- Write through the pointer that a successful lookup returned: the value
stored under the key is replaced by its image, nothing else moves. -/
def zend_hash_modify {κ α : Type} [DecidableEq κ] : HashTable κ α → κ → (α → α) → HashTable κ α
  | [], _, _ => []
  | (k1, v) :: t, k, f =>
    if k1 = k then (k1, f v) :: t else (k1, v) :: zend_hash_modify t k f

/-- Merge with overwrite (`zend_hash_merge(target, source, ..., 1)`): every
entry of the source is written into the target, in the source order. -/
def zend_hash_merge {κ α : Type} [DecidableEq κ] : HashTable κ α → HashTable κ α → HashTable κ α
  | target, [] => target
  | target, (k, v) :: src => zend_hash_merge (zend_hash_update target k v) src

/-! ## PHP values -/

/-- Decimal rendering of a C integer (`%d`, `%ld`). -/
def decimal (n : Int) : CStr :=
  if n < 0 then '-' :: Nat.toDigits 10 n.natAbs else Nat.toDigits 10 n.natAbs

/-- The PHP values the extension inspects. An object carries its class name,
whether its class derives from the default exception class, and the string
the engine converts it to; `IS_OTHER` stands for the remaining types
(double, array, resource) with the string the engine converts them to. -/
inductive zval where
  | IS_NULL
  | IS_LONG (lval : Int)
  | IS_BOOL (b : Bool)
  | IS_STRING (s : CStr)
  | IS_OBJECT (class_name : CStr) (is_exception : Bool) (str : CStr)
  | IS_OTHER (str : CStr)
deriving DecidableEq, Repr

/-- String value after `convert_to_string_ex`. -/
def convert_to_string : zval → CStr
  | .IS_NULL => []
  | .IS_LONG v => decimal v
  | .IS_BOOL b => if b then "1".toList else []
  | .IS_STRING s => s
  | .IS_OBJECT _ _ s => s
  | .IS_OTHER s => s

/-! ## Timers -/

/-- Subtraction of two `uint64` values. -/
def u64_sub (a b : Nat) : Nat := (a % 2 ^ 64 + 2 ^ 64 - b % 2 ^ 64) % 2 ^ 64

/-- Distance between two neighbouring `double` values at the whole number
`count`: 1 below `2 ^ 53`, and twice as much for every further binary digit.
`digits` bounds the number of further digits; a `uint64` has at most 11. -/
def double_ulp : Nat → Nat → Nat
  | 0, _ => 1
  | digits + 1, count => if count < 2 ^ 53 then 1 else 2 * double_ulp digits (count / 2)

/-- Conversion of a `uint64` to `double` (the operand `count` of the division
in `get_us_from_tsc`): the nearest value with a significand of 53 bits, a tie
going to the even significand. The result is a whole number; a count below
`2 ^ 53` is kept as it is. -/
def u64_to_double (count : Nat) : Nat :=
  let ulp : Nat := double_ulp 11 count
  let q : Nat := count / ulp
  let r : Nat := count % ulp
  if 2 * r > ulp ∨ (2 * r = ulp ∧ q % 2 = 1) then (q + 1) * ulp else q * ulp

/-- Conversion of a `double` that holds the whole number `d` to the `long` of a
parameter (`add_next_index_long`, `hp_inc_count`, `tw_span_annotate_long`).
From `2 ^ 63` up the value does not fit in a `long` and C leaves the conversion
undefined; the value taken here is the one of x86-64 (`cvttsd2si`), `LONG_MIN`. -/
def double_to_long (d : Nat) : Int := if d < 2 ^ 63 then (d : Int) else -(2 ^ 63)

/-- Microseconds of a timer difference (`get_us_from_tsc`, the branch that is
not `__APPLE__`: `timebase_factor` is `1.0`, and the division by it changes
nothing), as the `long` that every caller stores: the `double` that the
function returns is passed to a parameter of type `long`, directly or through
the `double` parameters of `tw_span_record_duration`. For a count below
`2 ^ 53` this is the count itself. -/
def get_us_from_tsc (count : Nat) : Int := double_to_long (u64_to_double count)

/-! ## Span tree -/

/-- One span: the PHP array with keys `"n"`, `"b"`, `"e"` that
`tw_span_create` builds, with `"p"` and `"a"` when they have been added. -/
structure Span where
  n : CStr
  b : List Int
  e : List Int
  p : Option Int
  a : Option (HashTable CStr CStr)
deriving DecidableEq, Repr

/-- The array `hp_globals.spans`, indexed by span id. -/
abbrev SpanTree := HashTable Int Span

/-- Creation of a span (`tw_span_create`): the new tree and the returned id. -/
def tw_span_create (spans : SpanTree) (category : CStr) : SpanTree × Int :=
  let idx : Nat := zend_hash_num_elements spans
  let parent : Int := 0
  if idx ≥ 1500 then (spans, -1)
  else
    let span : Span :=
      { n := category, b := [], e := [],
        p := if parent > 0 then some parent else none, a := none }
    (zend_hash_update spans (idx : Int) span, (idx : Int))

/-- Start of a timer (`tw_span_timer_start`); `now` is the reading of
`cycle_timer()`. -/
def tw_span_timer_start (spans : SpanTree) (start_time now : Nat) (spanId : Int) : SpanTree :=
  match zend_hash_find spans spanId with
  | none => spans
  | some _ =>
    let wt := get_us_from_tsc (u64_sub now start_time)
    zend_hash_modify spans spanId (fun s => { s with b := s.b ++ [wt] })

/-- Recording of a known interval (`tw_span_record_duration`). -/
def tw_span_record_duration (spans : SpanTree) (spanId : Int) (start stop : Int) : SpanTree :=
  match zend_hash_find spans spanId with
  | none => spans
  | some _ =>
    zend_hash_modify spans spanId (fun s => { s with e := s.e ++ [stop], b := s.b ++ [start] })

/-- Stop of a timer (`tw_span_timer_stop`); `now` is the reading of
`cycle_timer()`. -/
def tw_span_timer_stop (spans : SpanTree) (start_time now : Nat) (spanId : Int) : SpanTree :=
  match zend_hash_find spans spanId with
  | none => spans
  | some _ =>
    let wt := get_us_from_tsc (u64_sub now start_time)
    zend_hash_modify spans spanId (fun s => { s with e := s.e ++ [wt] })

/-- The annotations array of a span, created empty when the key `"a"` is
missing. -/
def span_annotations (s : Span) : HashTable CStr CStr :=
  match s.a with
  | some a => a
  | none => []

/-- Merge of a PHP array into the annotations of a span (`tw_span_annotate`):
every value is converted to a string, then merged with overwrite. -/
def tw_span_annotate (spans : SpanTree) (spanId : Int) (annotations : HashTable CStr zval) : SpanTree :=
  match zend_hash_find spans spanId with
  | none => spans
  | some _ =>
    let converted : HashTable CStr CStr := annotations.map (fun kv => (kv.1, convert_to_string kv.2))
    zend_hash_modify spans spanId
      (fun s => { s with a := some (zend_hash_merge (span_annotations s) converted) })

/-- Numeric annotation (`tw_span_annotate_long`). -/
def tw_span_annotate_long (spans : SpanTree) (spanId : Int) (key : CStr) (value : Int) : SpanTree :=
  match zend_hash_find spans spanId with
  | none => spans
  | some _ =>
    zend_hash_modify spans spanId
      (fun s => { s with a := some (zend_hash_update (span_annotations s) key (decimal value)) })

/-- String annotation (`tw_span_annotate_string`). -/
def tw_span_annotate_string (spans : SpanTree) (spanId : Int) (key value : CStr) (copy : Int) : SpanTree :=
  match zend_hash_find spans spanId with
  | none => spans
  | some _ =>
    let len0 : Nat := value.length
    let len : Nat := if copy = 1 ∧ len0 > 1000 then 1000 else len0
    zend_hash_modify spans spanId
      (fun s => { s with a := some (zend_hash_update (span_annotations s) key (value.take len)) })

/-! ## Hash of a function name and the function filter -/

/-- One round of `hp_inline_hash`: `hash = ((hash << 5) + hash) + *arKey++`
in `uint8`. -/
def hash_step (hash : Nat) (c : Char) : Nat := ((hash <<< 5) + hash + c.toNat) % 256

/-- Body of `hp_inline_hash`: the loop unrolled eight times, then the
`switch` on the 0..7 bytes that remain, falling through. -/
def hp_inline_hash_from (hash : Nat) : CStr → Nat
  | c1 :: c2 :: c3 :: c4 :: c5 :: c6 :: c7 :: c8 :: rest =>
    hp_inline_hash_from
      (hash_step (hash_step (hash_step (hash_step (hash_step (hash_step (hash_step
        (hash_step hash c1) c2) c3) c4) c5) c6) c7) c8) rest
  | [c1, c2, c3, c4, c5, c6, c7] =>
    hash_step (hash_step (hash_step (hash_step (hash_step (hash_step
      (hash_step hash c1) c2) c3) c4) c5) c6) c7
  | [c1, c2, c3, c4, c5, c6] =>
    hash_step (hash_step (hash_step (hash_step (hash_step (hash_step hash c1) c2) c3) c4) c5) c6
  | [c1, c2, c3, c4, c5] =>
    hash_step (hash_step (hash_step (hash_step (hash_step hash c1) c2) c3) c4) c5
  | [c1, c2, c3, c4] => hash_step (hash_step (hash_step (hash_step hash c1) c2) c3) c4
  | [c1, c2, c3] => hash_step (hash_step (hash_step hash c1) c2) c3
  | [c1, c2] => hash_step (hash_step hash c1) c2
  | [c1] => hash_step hash c1
  | [] => hash

/-- The 8-bit hash of a function name (`hp_inline_hash`). -/
def hp_inline_hash (arKey : CStr) : Nat := hp_inline_hash_from 0 arKey

def TIDEWAYS_MAX_FILTERED_FUNCTIONS : Nat := 256
def TIDEWAYS_FILTERED_FUNCTION_SIZE : Nat := (TIDEWAYS_MAX_FILTERED_FUNCTIONS + 7) / 8

def INDEX_2_BYTE (index : Nat) : Nat := index >>> 3
def INDEX_2_BIT (index : Nat) : Nat := 1 <<< (index &&& 0x7)

/-- The filter: the NULL-terminated array of names and the bitmap. -/
structure hp_function_map where
  names : List CStr
  filter : List Nat
deriving DecidableEq, Repr

/-- The loop of `hp_function_map_create` that sets one bit per name. -/
def hp_function_map_fill (filter : List Nat) : List CStr → List Nat
  | [] => filter
  | str :: names =>
    let hash := hp_inline_hash str
    let idx := INDEX_2_BYTE hash
    hp_function_map_fill (filter.set idx ((filter.getD idx 0 ||| INDEX_2_BIT hash) % 256)) names

/-- Construction of the filter (`hp_function_map_create`); `none` is NULL. -/
def hp_function_map_create (names : Option (List CStr)) : Option hp_function_map :=
  match names with
  | none => none
  | some names =>
    some { names := names,
           filter := hp_function_map_fill (List.replicate TIDEWAYS_FILTERED_FUNCTION_SIZE 0) names }

def hp_function_map_filter_collision (map : hp_function_map) (hash : Nat) : Nat :=
  let mask := INDEX_2_BIT hash % 256
  map.filter.getD (INDEX_2_BYTE hash) 0 &&& mask

/-- Exact check after the bitmap check (`hp_function_map_exists`). -/
def hp_function_map_exists (map : hp_function_map) (hash_code : Nat) (curr_func : CStr) : Int :=
  if hp_function_map_filter_collision map hash_code ≠ 0 then
    (if map.names.any (fun name => decide (curr_func = name)) then 1 else 0)
  else 0

/-! ## Frames and the session state -/

/-- One profiled call (`hp_entry_t`); `prev_hprof` is the tail of the list
that holds the frame. -/
structure hp_entry_t where
  name_hprof : CStr
  rlvl_hprof : Int
  tsc_start : Nat
  cpu_start : Nat
  mu_start_hprof : Int
  pmu_start_hprof : Int
  hash_code : Nat
  span_id : Int
deriving DecidableEq, Repr

structure hp_string where
  value : CStr
  length : Nat
deriving DecidableEq, Repr

/-- The arguments and the receiver of a call (`zend_execute_data`). -/
structure zend_execute_data where
  args : List zval
  object : Option zval
deriving DecidableEq, Repr

/-- What an extractor reads and writes: the span tree and the cache of span
ids by title. -/
structure tw_span_state where
  spans : SpanTree
  span_cache : HashTable CStr Int

/-- An extractor (`tw_trace_callback`): from the symbol, the arguments, the
receiver, `hp_globals.start_time` and a reading of `cycle_timer()` it
computes a span id and updates the span tree and the span cache. An
extractor that runs PHP code of the application is outside of this type. -/
abbrev tw_trace_callback :=
  CStr → List zval → Option zval → Nat → Nat → tw_span_state → Int × tw_span_state

/-- The statistics array: qualified name to the array of counters. -/
abbrev StatsTable := HashTable CStr (HashTable CStr Int)

/-- The global state (`hp_global_t`). -/
structure hp_global_t where
  enabled : Int
  ever_enabled : Int
  stats_count : Option StatsTable
  spans : Option SpanTree
  start_time : Nat
  exception : Option zval
  entries : List hp_entry_t
  entry_free_list : List hp_entry_t
  transaction_function : Option hp_string
  transaction_name : Option hp_string
  root : Option CStr
  exception_function : Option hp_string
  tideways_flags : Nat
  func_hash_counters : Nat → Nat
  filtered_type : Int
  filtered_functions : Option hp_function_map
  trace_callbacks : Option (HashTable CStr tw_trace_callback)
  span_cache : Option (HashTable CStr Int)
  gc_runs : Int
  gc_collected : Int
  compile_count : Int
  compile_wt : Int
  cpu_start : Nat

/-- What the host returns when asked during one call of the profiler:
the clocks, the memory manager, the collector counters, and the content of
the memory that `malloc` hands out. -/
structure host_t where
  cycle_timer : Nat
  cycle_timer_cb : Nat
  cpu_timer : Nat
  memory_usage : Int
  memory_peak_usage : Int
  gc_runs : Int
  gc_collected : Int
  malloc_entry : hp_entry_t
deriving DecidableEq, Repr

/-- Decision of the filter (`hp_filter_entry`): non-zero drops the call. -/
def hp_filter_entry (g : hp_global_t) (hash_code : Nat) (curr_func : CStr) : Int :=
  match g.filtered_functions with
  | none => 0
  | some map =>
    if g.filtered_type = 0 then 0
    else
      let found := hp_function_map_exists map hash_code curr_func
      if g.filtered_type = 2 then
        (if curr_func = ROOT_SYMBOL then 0 else ((1 - found).natAbs : Int))
      else found

/-- Take a frame from the free list, or from `malloc` (`hp_fast_alloc_hprof_entry`);
the fields of the frame are whatever the memory holds. -/
def hp_fast_alloc_hprof_entry (g : hp_global_t) (malloc_entry : hp_entry_t) :
    hp_entry_t × hp_global_t :=
  match g.entry_free_list with
  | p :: rest => (p, { g with entry_free_list := rest })
  | [] => (malloc_entry, g)

/-- Return a frame to the free list (`hp_fast_free_hprof_entry`). -/
def hp_fast_free_hprof_entry (g : hp_global_t) (p : hp_entry_t) : hp_global_t :=
  { g with entry_free_list := p :: g.entry_free_list }

/-! ## Names of frames in the scratch buffer -/

def NUL : Char := Char.ofNat 0

/-- Store of one byte at an index of a memory region; a store past the end
of the region is kept, the region grows. -/
def poke (mem : List Char) (i : Nat) (c : Char) : List Char :=
  if i < mem.length then mem.set i c
  else mem ++ List.replicate (i - mem.length) NUL ++ [c]

/-- Store of consecutive bytes from an index on. -/
def poke_bytes (mem : List Char) (i : Nat) : List Char → List Char
  | [] => mem
  | c :: cs => poke_bytes (poke mem i c) (i + 1) cs

/-- The C string that starts at an offset of the region. -/
def c_string (mem : List Char) (off : Nat) : CStr :=
  (mem.drop off).takeWhile (fun c => decide (c ≠ NUL))

def c_strlen (mem : List Char) (off : Nat) : Nat := (c_string mem off).length

/-- Effect of `strncat(mem + off, src, n)`: at most `n` bytes of the source
are appended to the string at the offset, then a NUL. -/
def c_strncat (mem : List Char) (off : Nat) (src : CStr) (n : Nat) : List Char :=
  let d := off + c_strlen mem off
  poke (poke_bytes mem d (src.take n)) (d + (src.take n).length) NUL

/-- Effect of `snprintf(mem + off, size, ...)` whose formatted text is
`text`: at most `size - 1` bytes of it are stored, then a NUL. -/
def c_snprintf (mem : List Char) (off : Nat) (size : Nat) (text : CStr) : List Char :=
  if size = 0 then mem
  else poke (poke_bytes mem off (text.take (size - 1))) (off + (text.take (size - 1)).length) NUL

/-- Formatted name of a frame (`hp_get_entry_name`) written at `mem + off`:
the memory afterwards and the returned length. -/
def hp_get_entry_name (entry : hp_entry_t) (mem : List Char) (off : Nat) (result_len : Nat) :
    List Char × Nat :=
  if result_len ≤ 1 then (mem, 0)
  else
    let mem1 :=
      if entry.rlvl_hprof ≠ 0 then
        c_snprintf mem off result_len
          (entry.name_hprof ++ '@' :: decimal entry.rlvl_hprof)
      else c_strncat mem off entry.name_hprof result_len
    let mem2 := poke mem1 (off + (result_len - 1)) NUL
    (mem2, c_strlen mem2 off)

def HP_STACK_DELIM : CStr := "==>".toList
def HP_STACK_DELIM_LEN : Nat := 3

/-- Caller-qualified name (`hp_get_function_stack`) of the frame at the head
of the list, whose `prev_hprof` chain is the tail. -/
def hp_get_function_stack : List hp_entry_t → Int → List Char → Nat → List Char × Nat
  | [], _, mem, _ => (mem, 0)
  | [entry], _, mem, result_len => hp_get_entry_name entry mem 0 result_len
  | entry :: prev :: rest, level, mem, result_len =>
    if level ≤ 1 then hp_get_entry_name entry mem 0 result_len
    else
      let r := hp_get_function_stack (prev :: rest) (level - 1) mem result_len
      let len := r.2
      if result_len < len + HP_STACK_DELIM_LEN then (r.1, len)
      else
        let r2 : List Char × Nat :=
          if len ≠ 0 then (c_strncat r.1 len HP_STACK_DELIM (result_len - len), len + HP_STACK_DELIM_LEN)
          else (r.1, len)
        let r3 := hp_get_entry_name entry r2.1 r2.2 (result_len - r2.2)
        (r3.1, r2.2 + r3.2)

/-- The qualified name that `hp_mode_hier_endfn_cb` reads from its scratch
buffer `symbol[SCRATCH_BUF_LEN] = ""` after `hp_get_function_stack(top, 2, ...)`. -/
def hp_qualified_name (entries : List hp_entry_t) : CStr :=
  c_string (hp_get_function_stack entries 2 (List.replicate SCRATCH_BUF_LEN NUL) SCRATCH_BUF_LEN).1 0

/-! ## Statistics -/

/-- Add to a counter, or create it (`hp_inc_count`). -/
def hp_inc_count (counts : HashTable CStr Int) (name : CStr) (count : Int) : HashTable CStr Int :=
  match zend_hash_find counts name with
  | some v => zend_hash_modify counts name (fun _ => v + count)
  | none => zend_hash_update counts name count

/-- Make sure that a symbol has an array of counters (`hp_hash_lookup`): the
table in which the returned array lives, or `none` when the table is NULL. -/
def hp_hash_lookup (hash : Option StatsTable) (symbol : CStr) : Option StatsTable :=
  match hash with
  | none => none
  | some ht =>
    match zend_hash_find ht symbol with
    | some _ => some ht
    | none => some (zend_hash_update ht symbol [])

/-! ## Entering and leaving a call -/

/-- The scan of `hp_mode_hier_beginfn_cb` for the nearest frame of the same
name. -/
def hp_scan_recurse_level (name : CStr) : List hp_entry_t → Int
  | [] => 0
  | p :: rest =>
    if name = p.name_hprof then p.rlvl_hprof + 1 else hp_scan_recurse_level name rest

/-- First part of `hp_mode_hier_beginfn_cb`: the recursion level and the
bucket counter, an `uint8`. -/
def beginfn_recursion (g : hp_global_t) (current : hp_entry_t) : hp_entry_t × hp_global_t :=
  if g.tideways_flags &&& TIDEWAYS_FLAGS_NO_HIERACHICAL = 0 then
    let recurse_level : Int :=
      if g.func_hash_counters current.hash_code > 0 then
        hp_scan_recurse_level current.name_hprof g.entries
      else 0
    let counters := Function.update g.func_hash_counters current.hash_code
      ((g.func_hash_counters current.hash_code + 1) % 256)
    ({ current with rlvl_hprof := recurse_level }, { g with func_hash_counters := counters })
  else (current, g)

/-- Second part of `hp_mode_hier_beginfn_cb`: the extractor registered for the
symbol, if spans are enabled and the call has execute data. -/
def beginfn_spans (g : hp_global_t) (current : hp_entry_t) (data : Option zend_execute_data)
    (h : host_t) : Option (hp_entry_t × hp_global_t) :=
  if g.tideways_flags &&& TIDEWAYS_FLAGS_NO_SPANS = 0 then
    match data with
    | none => some (current, g)
    | some d =>
      match g.trace_callbacks with
      | none => none
      | some callbacks =>
        match zend_hash_find callbacks current.name_hprof with
        | none => some (current, g)
        | some callback =>
          match g.spans, g.span_cache with
          | some sp, some sc =>
            let r := callback current.name_hprof d.args d.object g.start_time h.cycle_timer_cb
              { spans := sp, span_cache := sc }
            some ({ current with span_id := r.1 },
                  { g with spans := some r.2.spans, span_cache := some r.2.span_cache })
          | _, _ => none
  else some (current, g)

/-- Last part of `hp_mode_hier_beginfn_cb`: CPU and memory readings. -/
def beginfn_usage (g : hp_global_t) (current : hp_entry_t) (h : host_t) : hp_entry_t :=
  let c1 :=
    if g.tideways_flags &&& TIDEWAYS_FLAGS_CPU ≠ 0 then { current with cpu_start := h.cpu_timer }
    else current
  if g.tideways_flags &&& TIDEWAYS_FLAGS_MEMORY ≠ 0 then
    { c1 with mu_start_hprof := h.memory_usage, pmu_start_hprof := h.memory_peak_usage }
  else c1

/-- The begin callback (`hp_mode_hier_beginfn_cb`): the frame as filled in and
the state afterwards. -/
def hp_mode_hier_beginfn_cb (g : hp_global_t) (current : hp_entry_t)
    (data : Option zend_execute_data) (h : host_t) : Option (hp_entry_t × hp_global_t) :=
  let r1 := beginfn_recursion g current
  let c2 : hp_entry_t := { r1.1 with tsc_start := h.cycle_timer }
  (beginfn_spans r1.2 c2 data h).map (fun r3 => (beginfn_usage r3.2 r3.1 h, r3.2))

/-- The macro `BEGIN_PROFILING`: the state afterwards and the profile flag. -/
def BEGIN_PROFILING (g : hp_global_t) (symbol : CStr) (data : Option zend_execute_data)
    (h : host_t) : Option (hp_global_t × Int) :=
  let hash_code := hp_inline_hash symbol
  let profile_curr : Int := if hp_filter_entry g hash_code symbol = 0 then 1 else 0
  if profile_curr ≠ 0 then
    let a := hp_fast_alloc_hprof_entry g h.malloc_entry
    let cur_entry : hp_entry_t :=
      { a.1 with hash_code := hash_code, name_hprof := symbol, span_id := -1 }
    (hp_mode_hier_beginfn_cb a.2 cur_entry data h).map
      (fun r => ({ r.2 with entries := r.1 :: r.2.entries }, profile_curr))
  else some (g, profile_curr)

/-- The counters of one completed frame, added to its array. -/
def endfn_bump (g : hp_global_t) (top : hp_entry_t) (h : host_t) (counts : HashTable CStr Int) :
    HashTable CStr Int :=
  let wt := get_us_from_tsc (u64_sub h.cycle_timer top.tsc_start)
  let c1 := hp_inc_count counts "ct".toList 1
  let c2 := hp_inc_count c1 "wt".toList wt
  let c3 :=
    if g.tideways_flags &&& TIDEWAYS_FLAGS_CPU ≠ 0 then
      hp_inc_count c2 "cpu".toList (get_us_from_tsc (u64_sub h.cpu_timer top.cpu_start))
    else c2
  if g.tideways_flags &&& TIDEWAYS_FLAGS_MEMORY ≠ 0 then
    hp_inc_count (hp_inc_count c3 "mu".toList (h.memory_usage - top.mu_start_hprof))
      "pmu".toList (h.memory_peak_usage - top.pmu_start_hprof)
  else c3

/-- The end callback (`hp_mode_hier_endfn_cb`). -/
def hp_mode_hier_endfn_cb (g : hp_global_t) (h : host_t) : Option hp_global_t :=
  match g.entries with
  | [] => none
  | top :: _ =>
    let g1 : Option hp_global_t :=
      if g.tideways_flags &&& TIDEWAYS_FLAGS_NO_SPANS = 0 ∧ top.span_id ≥ 0 then
        match g.spans with
        | none => none
        | some sp =>
          let start := get_us_from_tsc (u64_sub top.tsc_start g.start_time)
          let stop := get_us_from_tsc (u64_sub h.cycle_timer g.start_time)
          some { g with spans := some (tw_span_record_duration sp top.span_id start stop) }
      else some g
    g1.map (fun g1 =>
      if g1.tideways_flags &&& TIDEWAYS_FLAGS_NO_HIERACHICAL > 0 then g1
      else
        let symbol := hp_qualified_name g1.entries
        match hp_hash_lookup g1.stats_count symbol with
        | none => g1
        | some st =>
          let counters := Function.update g1.func_hash_counters top.hash_code
            ((g1.func_hash_counters top.hash_code + 255) % 256)
          { g1 with stats_count := some (zend_hash_modify st symbol (endfn_bump g1 top h)),
                    func_hash_counters := counters })

/-- The macro `END_PROFILING`. -/
def END_PROFILING (g : hp_global_t) (profile_curr : Int) (h : host_t) : Option hp_global_t :=
  if profile_curr ≠ 0 then
    (hp_mode_hier_endfn_cb g h).bind (fun g1 =>
      match g1.entries with
      | [] => none
      | cur_entry :: prev => some (hp_fast_free_hprof_entry { g1 with entries := prev } cur_entry))
  else some g

/-! ## Start and stop of a session -/

/-- Subtraction of two `zend_uint` values. -/
def u32_sub (a b : Nat) : Nat := (a % 2 ^ 32 + 2 ^ 32 - b % 2 ^ 32) % 2 ^ 32

/-- Registration of the extractors (`hp_init_trace_callbacks`); `registered`
is the table that the calls of `register_trace_callback` build. -/
def hp_init_trace_callbacks (g : hp_global_t) (registered : HashTable CStr tw_trace_callback)
    (h : host_t) : hp_global_t :=
  if g.tideways_flags &&& TIDEWAYS_FLAGS_NO_SPANS > 0 then g
  else
    { g with trace_callbacks := some registered, span_cache := some [],
             gc_runs := h.gc_runs, gc_collected := h.gc_collected,
             compile_count := 0, compile_wt := 0 }

/-- Fresh tables of a session (`hp_init_profiler_state`). -/
def hp_init_profiler_state (g : hp_global_t) (registered : HashTable CStr tw_trace_callback)
    (h : host_t) : hp_global_t :=
  let g1 := if g.ever_enabled = 0 then { g with ever_enabled := 1, entries := [] } else g
  let g2 := { g1 with stats_count := some [], spans := some [], transaction_name := none }
  hp_init_trace_callbacks g2 registered h

/-- Start of a session (`hp_begin`); `clock 0`, `clock 1`, `clock 2` are the
readings at `start_time`, in `tw_span_timer_start` and in `BEGIN_PROFILING`. -/
def hp_begin (g : hp_global_t) (tideways_flags : Int)
    (registered : HashTable CStr tw_trace_callback) (clock : Nat → host_t) : Option hp_global_t :=
  if g.enabled = 0 then
    let g1 := { g with enabled := 1, tideways_flags := (tideways_flags % 2 ^ 32).toNat }
    let g2 := hp_init_profiler_state g1 registered (clock 0)
    let g3 := { g2 with root := some ROOT_SYMBOL, start_time := (clock 0).cycle_timer }
    let g4 :=
      if g3.tideways_flags &&& TIDEWAYS_FLAGS_NO_SPANS = 0 then
        { g3 with cpu_start := (clock 0).cpu_timer }
      else g3
    match g4.spans with
    | none => none
    | some sp =>
      let sp1 := (tw_span_create sp "app".toList).1
      let sp2 := tw_span_timer_start sp1 g4.start_time (clock 1).cycle_timer 0
      (BEGIN_PROFILING { g4 with spans := some sp2 } ROOT_SYMBOL none (clock 2)).map Prod.fst
  else some g

/-- The loop `while (hp_globals.entries) END_PROFILING(...)` of `hp_stop`; the
`i`-th forced close reads `clock i`. The result is the state and the number
of closes; `none` also when the fuel runs out. -/
def hp_stop_loop (clock : Nat → host_t) : Nat → Nat → hp_global_t → Option (hp_global_t × Nat)
  | 0, i, g => if g.entries = [] then some (g, i) else none
  | fuel + 1, i, g =>
    if g.entries = [] then some (g, i)
    else (END_PROFILING g 1 (clock i)).bind (fun g1 => hp_stop_loop clock fuel (i + 1) g1)

/-- The annotations that `hp_stop` puts on span 0. -/
def hp_stop_annotate (g : hp_global_t) (sp : SpanTree) (h : host_t) : SpanTree :=
  if g.tideways_flags &&& TIDEWAYS_FLAGS_NO_SPANS = 0 then
    let sp1 :=
      if u32_sub h.gc_runs.toNat g.gc_runs.toNat > 0 then
        tw_span_annotate_long
          (tw_span_annotate_long sp 0 "gc".toList (u32_sub h.gc_runs.toNat g.gc_runs.toNat))
          0 "gcc".toList (u32_sub h.gc_collected.toNat g.gc_collected.toNat)
      else sp
    let sp2 := if g.compile_count > 0 then tw_span_annotate_long sp1 0 "cct".toList g.compile_count
      else sp1
    let sp3 := if g.compile_wt > 0 then tw_span_annotate_long sp2 0 "cwt".toList g.compile_wt
      else sp2
    tw_span_annotate_long sp3 0 "cpu".toList (get_us_from_tsc (u64_sub h.cpu_timer g.cpu_start))
  else sp

/-- Stop of a session (`hp_stop`). -/
def hp_stop (g : hp_global_t) (clock : Nat → host_t) : Option hp_global_t :=
  (hp_stop_loop clock g.entries.length 0 g).bind (fun r =>
    match r.1.spans with
    | none => none
    | some sp =>
      let sp1 := tw_span_timer_stop sp r.1.start_time (clock r.2).cycle_timer 0
      some { r.1 with spans := some (hp_stop_annotate r.1 sp1 (clock r.2)),
                      root := none, enabled := 0 })

/-! ## Sequences of calls -/

/-- What the host does at a call boundary: it enters a call of a symbol, or
leaves the innermost call. -/
inductive hp_call where
  | enter (symbol : CStr) (data : Option zend_execute_data) (h : host_t)
  | leave (h : host_t)

/-- One call boundary as the wrappers `hp_execute_ex` and
`hp_execute_internal` handle it. The list of flags holds the local
`hp_profile_flag` of every wrapper that is active, innermost first. On
entry the wrapper runs `BEGIN_PROFILING` and keeps the flag; on exit it runs
`END_PROFILING` with its flag if `hp_globals.entries` is not NULL. A leave
while no wrapper is active is `none`. -/
def hp_step (g : hp_global_t) (flags : List Int) : hp_call → Option (hp_global_t × List Int)
  | .enter symbol data h =>
    (BEGIN_PROFILING g symbol data h).map (fun r => (r.1, r.2 :: flags))
  | .leave h =>
    match flags with
    | [] => none
    | flag :: rest =>
      if g.entries = [] then some (g, rest)
      else (END_PROFILING g flag h).map (fun g1 => (g1, rest))

/-- A sequence of call boundaries. -/
def hp_run : hp_global_t → List Int → List hp_call → Option (hp_global_t × List Int)
  | g, flags, [] => some (g, flags)
  | g, flags, c :: cs => (hp_step g flags c).bind (fun r => hp_run r.1 r.2 cs)

/-- Number of calls that are open after a sequence that starts with `d` open
calls; `none` when a leave has no open call. -/
def hp_depth : Nat → List hp_call → Option Nat
  | d, [] => some d
  | d, .enter _ _ _ :: cs => hp_depth (d + 1) cs
  | 0, .leave _ :: _ => none
  | d + 1, .leave _ :: cs => hp_depth d cs

/-- The symbols that a sequence enters. -/
def hp_entered : List hp_call → List CStr
  | [] => []
  | .enter symbol _ _ :: cs => symbol :: hp_entered cs
  | .leave _ :: cs => hp_entered cs

/-- What happens to the call stack at a call boundary. -/
inductive hp_event where
  | pushed (frame : hp_entry_t)
  | released (frame : hp_entry_t)
deriving DecidableEq, Repr

/-- The event of one call boundary, read off the state after it: the frame
that `BEGIN_PROFILING` made the top of the stack, or the frame that
`END_PROFILING` gave to `hp_fast_free_hprof_entry`. -/
def hp_events (g : hp_global_t) (flags : List Int) : hp_call → List hp_event
  | .enter symbol data h =>
    match BEGIN_PROFILING g symbol data h with
    | some (g1, flag) =>
      if flag ≠ 0 then (match g1.entries with | f :: _ => [.pushed f] | [] => []) else []
    | none => []
  | .leave h =>
    match flags with
    | [] => []
    | flag :: _ =>
      if g.entries = [] ∨ flag = 0 then []
      else
        match END_PROFILING g flag h with
        | some g1 => (match g1.entry_free_list with | f :: _ => [.released f] | [] => [])
        | none => []

/-- The events of a sequence of call boundaries, in order. -/
def hp_trace : hp_global_t → List Int → List hp_call → List hp_event
  | _, _, [] => []
  | g, flags, c :: cs =>
    match hp_step g flags c with
    | none => []
    | some r => hp_events g flags c ++ hp_trace r.1 r.2 cs

/-- The LIFO law of the specification, as a check of a sequence of events
against a stack of frames: a pushed frame goes on top, a released frame must
be the frame on top and is taken off. The result is the stack at the end,
or `none` when some release is not of the top frame. -/
def lifo_replay : List hp_entry_t → List hp_event → Option (List hp_entry_t)
  | stack, [] => some stack
  | stack, .pushed f :: evs => lifo_replay (f :: stack) evs
  | [], .released _ :: _ => none
  | top :: stack, .released f :: evs => if f = top then lifo_replay stack evs else none

/-- The tables that an enabled session with spans has allocated. -/
def hp_tables_ok (g : hp_global_t) : Prop :=
  g.spans.isSome = true ∧
  (g.tideways_flags &&& TIDEWAYS_FLAGS_NO_SPANS = 0 →
    g.trace_callbacks.isSome = true ∧ g.span_cache.isSome = true)

/-- Recursion level that `hp_mode_hier_beginfn_cb` gives to a call of a
symbol in a session with hierarchical statistics. -/
def hp_enter_level (g : hp_global_t) (symbol : CStr) : Int :=
  if g.func_hash_counters (hp_inline_hash symbol) > 0 then
    hp_scan_recurse_level symbol g.entries
  else 0

/-- The bucket counters after `hp_mode_hier_beginfn_cb` for a frame with the
given hash code. -/
def hp_enter_counters (g : hp_global_t) (hash_code : Nat) : Nat → Nat :=
  if g.tideways_flags &&& TIDEWAYS_FLAGS_NO_HIERACHICAL = 0 then
    Function.update g.func_hash_counters hash_code ((g.func_hash_counters hash_code + 1) % 256)
  else g.func_hash_counters

/-- The statistics table after `hp_mode_hier_endfn_cb` has closed the top
frame. -/
def hp_leave_stats (g : hp_global_t) (h : host_t) : Option StatsTable :=
  match g.entries with
  | [] => g.stats_count
  | top :: _ =>
    if g.tideways_flags &&& TIDEWAYS_FLAGS_NO_HIERACHICAL > 0 then g.stats_count
    else
      match hp_hash_lookup g.stats_count (hp_qualified_name g.entries) with
      | none => g.stats_count
      | some st =>
        some (zend_hash_modify st (hp_qualified_name g.entries) (endfn_bump g top h))

/-- The bucket counters after `hp_mode_hier_endfn_cb` has closed the top
frame. -/
def hp_leave_counters (g : hp_global_t) : Nat → Nat :=
  match g.entries with
  | [] => g.func_hash_counters
  | top :: _ =>
    if g.tideways_flags &&& TIDEWAYS_FLAGS_NO_HIERACHICAL > 0 then g.func_hash_counters
    else
      match g.stats_count with
      | none => g.func_hash_counters
      | some _ =>
        Function.update g.func_hash_counters top.hash_code
          ((g.func_hash_counters top.hash_code + 255) % 256)

/-- The name of one frame as the specification writes it: the symbol, and
for a recursion level other than 0 the symbol, `@` and the level in decimal. -/
def hp_entry_label (e : hp_entry_t) : CStr :=
  if e.rlvl_hprof ≠ 0 then e.name_hprof ++ '@' :: decimal e.rlvl_hprof else e.name_hprof

/-- A byte string without NUL byte, as every C string is. -/
def nul_free (s : CStr) : Prop := ∀ c ∈ s, c ≠ NUL

instance (s : CStr) : Decidable (nul_free s) := by
  unfold nul_free; infer_instance

/-- The counter `ct` stored in a statistics table under a qualified name. -/
def hp_stats_ct (stats : Option StatsTable) (name : CStr) : Option Int :=
  stats.bind (fun st => (zend_hash_find st name).bind (fun counts => zend_hash_find counts "ct".toList))

/-- The qualified name of the frame that a call boundary completes, if it
completes one: a leave whose wrapper holds a non-zero flag, on a stack that
is not empty. -/
def hp_closed (g : hp_global_t) (flags : List Int) : hp_call → List CStr
  | .enter _ _ _ => []
  | .leave _ =>
    match flags with
    | [] => []
    | flag :: _ => if g.entries = [] ∨ flag = 0 then [] else [hp_qualified_name g.entries]

/-- The qualified names of the frames that the leaves of a sequence
complete, in order. -/
def hp_completed : hp_global_t → List Int → List hp_call → List CStr
  | _, _, [] => []
  | g, flags, c :: cs =>
    match hp_step g flags c with
    | none => []
    | some r => hp_closed g flags c ++ hp_completed r.1 r.2 cs

/-- The qualified names of the frames of a stack, top first: the names under
which `hp_stop` closes the frames that are still open. -/
def hp_stack_names : List hp_entry_t → List CStr
  | [] => []
  | e :: rest => hp_qualified_name (e :: rest) :: hp_stack_names rest

/-- A counter after `c` more increments by one: absent as before if there was
none, else the old value (0 if absent) plus `c`. -/
def ct_add (before : Option Int) (c : Nat) : Option Int :=
  if c = 0 then before else some (before.getD 0 + (c : Int))

/-- A session with hierarchical statistics whose tables are allocated. -/
def hp_session_inv (g : hp_global_t) : Prop :=
  hp_tables_ok g ∧ g.tideways_flags &&& TIDEWAYS_FLAGS_NO_HIERACHICAL = 0 ∧
  ∃ st, g.stats_count = some st

/-- The span tree after `hp_mode_hier_endfn_cb` has closed the top frame: a
frame that carries a span id records its interval on that span. -/
def hp_leave_spans (g : hp_global_t) (h : host_t) (sp : SpanTree) : SpanTree :=
  match g.entries with
  | [] => sp
  | top :: _ =>
    if g.tideways_flags &&& TIDEWAYS_FLAGS_NO_SPANS = 0 ∧ top.span_id ≥ 0 then
      tw_span_record_duration sp top.span_id
        (get_us_from_tsc (u64_sub top.tsc_start g.start_time))
        (get_us_from_tsc (u64_sub h.cycle_timer g.start_time))
    else sp

/-- The counter `ct` of one array of counters, 0 if it has none. -/
def hp_counts_ct (counts : HashTable CStr Int) : Int :=
  (zend_hash_find counts "ct".toList).getD 0

/-- The sum of the counters `ct` over all entries of the statistics table. -/
def hp_stats_ct_sum (stats : Option StatsTable) : Int :=
  match stats with
  | none => 0
  | some st => (st.map (fun kv => hp_counts_ct kv.2)).sum

/-- Number of starts minus number of stops of the span with the given id. -/
def span_balance (spans : SpanTree) (id : Int) : Option Int :=
  (zend_hash_find spans id).map (fun s => (s.b.length : Int) - (s.e.length : Int))

/-- Number of frames of a stack whose hash code is `k`: the frames that the
bucket `k` of `func_hash_counters` counts. -/
def hp_bucket_frames (entries : List hp_entry_t) (k : Nat) : Nat :=
  entries.countP (fun f => decide (f.hash_code = k))

/-- Number of frames of a stack whose symbol is `s`. -/
def hp_symbol_frames (entries : List hp_entry_t) (s : CStr) : Nat :=
  entries.countP (fun f => decide (f.name_hprof = s))

/-- Every frame that was pushed while its bucket held at most 255 frames
has as recursion level the number of frames of its symbol below it. -/
def hp_levels_ok : List hp_entry_t → Prop
  | [] => True
  | f :: rest =>
    (hp_bucket_frames rest f.hash_code ≤ 255 →
      f.rlvl_hprof = (hp_symbol_frames rest f.name_hprof : Int)) ∧
    hp_levels_ok rest

/-- What holds of the call stack and the bucket counters in a session with
hierarchical statistics: the hash code of a frame is the hash of its symbol,
a bucket counter is the number of frames of its bucket modulo 256, and the
recursion levels are as `hp_levels_ok` says. -/
def hp_stack_inv (g : hp_global_t) : Prop :=
  (∀ f ∈ g.entries, f.hash_code = hp_inline_hash f.name_hprof) ∧
  (∀ k, g.func_hash_counters k = hp_bucket_frames g.entries k % 256) ∧
  hp_levels_ok g.entries

/-! ## Transaction name and exception -/

/-- A fresh `hp_string` (`hp_create_string`): `estrdup` copies the value up to
its first NUL byte, the length is stored as given. -/
def hp_create_string (value : CStr) (length : Nat) : hp_string :=
  { value := c_string value 0, length := length }

/-- The `hp_string` of a string value, NULL for other values
(`hp_zval_to_string`). -/
def hp_zval_to_string : zval → Option hp_string
  | .IS_STRING s => some (hp_create_string s s.length)
  | _ => none

def hp_transaction_function_clear (g : hp_global_t) : hp_global_t :=
  { g with transaction_function := none }

/-- The symbols for which `hp_detect_transaction_name` builds the name from
the class of the receiver and the first argument. -/
def hp_dispatch_symbols : List CStr :=
  ["Zend_Controller_Action::dispatch".toList,
   "Enlight_Controller_Action::dispatch".toList,
   "Mage_Core_Controller_Varien_Action::dispatch".toList,
   "Illuminate\\Routing\\Controller::callAction".toList]

/-- Detection of the transaction name at a call of the symbol `ret`
(`hp_detect_transaction_name`). Past the guard the code reads the first
argument slot and, for a dispatch symbol, the class of the receiver; a call
without execute data, without argument or, for a dispatch symbol, without
receiver object is `none`. -/
def hp_detect_transaction_name (g : hp_global_t) (ret : CStr)
    (data : Option zend_execute_data) : Option hp_global_t :=
  match g.transaction_function with
  | none => some g
  | some tf =>
    if g.transaction_name.isSome = true ∨ ret ≠ tf.value then some g
    else
      match data with
      | none => none
      | some d =>
        match d.args.head? with
        | none => none
        | some argument_element =>
          if ret ∈ hp_dispatch_symbols then
            match d.object with
            | some (.IS_OBJECT class_name _ _) =>
              let g1 :=
                match argument_element with
                | .IS_STRING s =>
                  let len := class_name.length + s.length + 3
                  let ret1 := class_name ++ "::".toList ++ c_string s 0
                  { g with transaction_name := some (hp_create_string ret1 len) }
                | _ => g
              some (hp_transaction_function_clear g1)
            | _ => none
          else
            let g1 :=
              match argument_element with
              | .IS_STRING _ => { g with transaction_name := hp_zval_to_string argument_element }
              | _ => g
            some (hp_transaction_function_clear g1)

/-- A sequence of calls of `hp_detect_transaction_name`, each with the symbol
and the execute data of the call that the wrapper sees. -/
def hp_detect_transaction_names (g : hp_global_t) :
    List (CStr × Option zend_execute_data) → Option hp_global_t
  | [] => some g
  | c :: cs => (hp_detect_transaction_name g c.1 c.2).bind (fun g1 =>
      hp_detect_transaction_names g1 cs)

/-- An object whose class derives from the default exception class. -/
def zval_instanceof_exception : zval → Bool
  | .IS_OBJECT _ is_exception _ => is_exception
  | _ => false

/-- The loop of `hp_detect_exception` over the arguments, first to last. -/
def hp_detect_exception_loop (g : hp_global_t) : List zval → hp_global_t
  | [] => g
  | argument_element :: rest =>
    if zval_instanceof_exception argument_element = true then
      { g with exception := some argument_element }
    else hp_detect_exception_loop g rest

/-- Detection of an exception among the arguments of a call
(`hp_detect_exception`). -/
def hp_detect_exception (g : hp_global_t) (data : Option zend_execute_data) :
    Option hp_global_t :=
  match data with
  | none => none
  | some d => some (hp_detect_exception_loop g d.args)

/-- The part of `hp_execute_ex` and `hp_execute_internal` that looks for an
exception at a call of the symbol `func`. -/
def hp_execute_detect_exception (g : hp_global_t) (func : CStr)
    (data : Option zend_execute_data) : Option hp_global_t :=
  match g.exception_function with
  | none => some g
  | some ef => if func = ef.value then hp_detect_exception g data else some g

/-- A sequence of calls as the exception detection of the wrappers sees
them. -/
def hp_execute_detect_exceptions (g : hp_global_t) :
    List (CStr × zend_execute_data) → Option hp_global_t
  | [] => some g
  | c :: cs => (hp_execute_detect_exception g c.1 (some c.2)).bind (fun g1 =>
      hp_execute_detect_exceptions g1 cs)

/-- The first argument of a call that is an exception object, if any. -/
def first_exception (args : List zval) : Option zval :=
  args.find? zval_instanceof_exception

/-- The exception that the last call of the marker symbol carrying one
brings, or the exception held before when there is no such call. -/
def last_marker_exception (marker : CStr) (old : Option zval) :
    List (CStr × zend_execute_data) → Option zval
  | [] => old
  | c :: cs =>
    last_marker_exception marker
      (if c.1 = marker then
        (match first_exception c.2.args with
         | some e => some e
         | none => old)
       else old) cs

/-! ## Extractors -/

/-- Span of a call that is recorded once per title
(`tw_trace_callback_record_with_cache`): the span id cached under the
summary is used if there is one; otherwise a span is created and its id,
also the sentinel, is cached. The summary becomes the annotation `title`. -/
def tw_trace_callback_record_with_cache (st : tw_span_state) (category summary : CStr)
    (copy : Int) : Int × tw_span_state :=
  match zend_hash_find st.span_cache summary with
  | some idx =>
    (idx, { st with spans := tw_span_annotate_string st.spans idx "title".toList summary copy })
  | none =>
    let r := tw_span_create st.spans category
    (r.2, { spans := tw_span_annotate_string r.1 r.2 "title".toList summary copy,
            span_cache := zend_hash_update st.span_cache summary r.2 })

/-- Extractor of the memcache functions (`tw_trace_callback_memcache`). -/
def tw_trace_callback_memcache : tw_trace_callback :=
  fun symbol _ _ _ _ st =>
    tw_trace_callback_record_with_cache st "memcache".toList symbol 1

/-- Extractor of the SQL functions (`tw_trace_callback_sql_functions`): the
statement is the second argument of `mysqli_query` and `mysqli_prepare` and
the first argument of the other functions. `Z_STRVAL_P` hands the bytes of
the PHP string to a function that reads a C string, which ends at the first
NUL byte. A call that has no argument at that position makes the code read
a slot that is not an argument; here it declines. -/
def tw_trace_callback_sql_functions : tw_trace_callback :=
  fun symbol args _ _ _ st =>
    let i : Nat :=
      if symbol = "mysqli_query".toList ∨ symbol = "mysqli_prepare".toList then 1 else 0
    match args.get? i with
    | some (.IS_STRING q) =>
      let r := tw_span_create st.spans "sql".toList
      (r.2, { st with spans := tw_span_annotate_string r.1 r.2 "sql".toList (c_string q 0) 1 })
    | _ => (-1, st)

/-- Calls of one symbol, each entered and left before the next: every call
has its own execute data and its own readings at entry and at exit. -/
def hp_call_pairs (symbol : CStr) : List (zend_execute_data × host_t × host_t) → List hp_call
  | [] => []
  | p :: ps => .enter symbol (some p.1) p.2.1 :: .leave p.2.2 :: hp_call_pairs symbol ps

/-- The span ids of the frames that a sequence of events pushes, in order. -/
def hp_pushed_span_ids : List hp_event → List Int
  | [] => []
  | .pushed f :: evs => f.span_id :: hp_pushed_span_ids evs
  | .released _ :: evs => hp_pushed_span_ids evs

/-- The hash as a fold, in the words of the specification: from 0, every
byte `b` takes `h` to `(33 * h + b) mod 256`. -/
def hash_fold_spec (s : CStr) : Nat :=
  s.foldl (fun h b => (33 * h + b.toNat) % 256) 0

/-- Plain membership of a symbol in a name list, as 1 or 0. -/
def member_spec (names : List CStr) (s : CStr) : Int :=
  if s ∈ names then 1 else 0

/-- A counter stored in a statistics table under a qualified name and a key
(`ct`, `wt`, ...). -/
def hp_stats_value (stats : Option StatsTable) (name key : CStr) : Option Int :=
  stats.bind (fun st => (zend_hash_find st name).bind (fun counts => zend_hash_find counts key))

/-! ## Options of a session -/

/-- The key of an entry of a PHP array: `HASH_KEY_IS_LONG` or
`HASH_KEY_IS_STRING`. -/
inductive hash_key where
  | HASH_KEY_IS_LONG (idx : Int)
  | HASH_KEY_IS_STRING (str : CStr)
deriving DecidableEq, Repr

/-- The value given for one option: a PHP array, in its order, or a value
that is not an array. -/
inductive option_zval where
  | IS_ARRAY (ht : List (hash_key × zval))
  | scalar (z : zval)
deriving DecidableEq, Repr

/-- The options argument of `tideways_enable`: a PHP array, of which the
entries with string keys are looked at, or a value that is not an array. -/
inductive args_zval where
  | IS_ARRAY (ht : HashTable CStr option_zval)
  | scalar (z : zval)
deriving DecidableEq, Repr

/-- The loop of `hp_strings_in_zval` over the entries of the array: under an
integer key a string value other than the root symbol is copied, under a
string key the key is copied. `estrdup` and `strcmp` read C strings, which
end at the first NUL byte. -/
def hp_strings_in_zval_loop : List (hash_key × zval) → List CStr
  | [] => []
  | (.HASH_KEY_IS_LONG _, .IS_STRING s) :: rest =>
    if c_string s 0 ≠ ROOT_SYMBOL then c_string s 0 :: hp_strings_in_zval_loop rest
    else hp_strings_in_zval_loop rest
  | (.HASH_KEY_IS_LONG _, _) :: rest => hp_strings_in_zval_loop rest
  | (.HASH_KEY_IS_STRING str, _) :: rest => c_string str 0 :: hp_strings_in_zval_loop rest

/-- The NULL-terminated array of names of an option value
(`hp_strings_in_zval`); `none` is NULL. -/
def hp_strings_in_zval : Option option_zval → Option (List CStr)
  | none => none
  | some (.IS_ARRAY ht) => some (hp_strings_in_zval_loop ht)
  | some (.scalar (.IS_STRING s)) => some [c_string s 0]
  | some (.scalar _) => none

/-- The value under a key of the options array (`hp_zval_at_key`). -/
def hp_zval_at_key (key : CStr) (values : args_zval) : Option option_zval :=
  match values with
  | .IS_ARRAY ht => zend_hash_find ht key
  | .scalar _ => none

/-- Reset of the options (`hp_clean_profiler_options_state`). -/
def hp_clean_profiler_options_state (g : hp_global_t) : hp_global_t :=
  { g with filtered_functions := none, exception_function := none,
           transaction_function := none, transaction_name := none,
           trace_callbacks := none, span_cache := none }

/-- The `hp_string` of an option value (`hp_zval_to_string` on the value of
an option). -/
def hp_option_to_string : option_zval → Option hp_string
  | .scalar z => hp_zval_to_string z
  | .IS_ARRAY _ => none

/-- Parsing of the options (`hp_parse_options_from_arg`); `none` is the NULL
argument. -/
def hp_parse_options_from_arg (g : hp_global_t) (args : Option args_zval) : hp_global_t :=
  let g0 := hp_clean_profiler_options_state g
  match args with
  | none => g0
  | some a =>
    let g1 : hp_global_t × Option option_zval :=
      match hp_zval_at_key "ignored_functions".toList a with
      | some z => ({ g0 with filtered_type := 1 }, some z)
      | none =>
        match hp_zval_at_key "functions".toList a with
        | some z => ({ g0 with filtered_type := 2 }, some z)
        | none => (g0, none)
    let g2 : hp_global_t :=
      { g1.1 with filtered_functions := hp_function_map_create (hp_strings_in_zval g1.2) }
    let g3 : hp_global_t :=
      match hp_zval_at_key "transaction_function".toList a with
      | some z => { g2 with transaction_function := hp_option_to_string z }
      | none => g2
    match hp_zval_at_key "exception_function".toList a with
    | some z => { g3 with exception_function := hp_option_to_string z }
    | none => g3

/-- The PHP function `tideways_enable`: `params` is what
`zend_parse_parameters` reads, `none` when it fails. The stop of a running
session reads `clock_stop`, the start reads `clock_begin`. -/
def tideways_enable (g : hp_global_t) (params : Option (Int × Option args_zval))
    (registered : HashTable CStr tw_trace_callback) (clock_stop clock_begin : Nat → host_t) :
    Option hp_global_t :=
  (if g.enabled ≠ 0 then hp_stop g clock_stop else some g).bind (fun g1 =>
    match params with
    | none => some g1
    | some p => hp_begin (hp_parse_options_from_arg g1 p.2) p.1 registered clock_begin)

/-- The wrapper of a call of a builtin function (`hp_execute_internal`):
`func` is the result of `hp_get_function_name`, `body` the effect of the
call itself on the state of the profiler. -/
def hp_execute_internal (g : hp_global_t) (func : Option CStr)
    (data : Option zend_execute_data) (h1 h2 : host_t)
    (body : hp_global_t → Option hp_global_t) : Option hp_global_t :=
  match func with
  | none => body g
  | some f =>
    (BEGIN_PROFILING g f data h1).bind (fun r =>
      (body r.1).bind (fun g2 =>
        if g2.entries = [] then some g2 else END_PROFILING g2 r.2 h2))

/-- The PHP value of an `hp_string` (`hp_string_to_zval`): `ZVAL_STRINGL`
copies `length` bytes of the buffer that `estrdup` made, which holds the
value and its NUL byte; a length past that buffer is `none`. -/
def hp_string_to_zval (str : Option hp_string) : Option zval :=
  match str with
  | none => some .IS_NULL
  | some s =>
    if s.length ≤ s.value.length + 1 then some (.IS_STRING ((s.value ++ [NUL]).take s.length))
    else none

/-- The PHP function `tideways_transaction_name`: the return value, `none`
when nothing is returned. -/
def tideways_transaction_name (g : hp_global_t) : Option zval :=
  match g.transaction_name with
  | some name => hp_string_to_zval (some name)
  | none => none

/-- The string values of a PHP array, in order. -/
def zval_string_values : List (hash_key × zval) → List CStr
  | [] => []
  | (_, .IS_STRING s) :: rest => s :: zval_string_values rest
  | _ :: rest => zval_string_values rest

/-- The string keys of a PHP array, in order. -/
def hash_string_keys : List (hash_key × zval) → List CStr
  | [] => []
  | (.HASH_KEY_IS_STRING str, _) :: rest => str :: hash_string_keys rest
  | _ :: rest => hash_string_keys rest

/-- A string value with a NUL byte inside. -/
def name_with_nul : CStr := "foo".toList ++ [NUL] ++ "bar".toList

/-! ## What is read of a frame -/

/-- The fields of a frame that the enter of a session with the given flags
writes: symbol, hash code, span id and wall start always, the recursion
level without NO_HIERACHICAL, the CPU start with TIDEWAYS_FLAGS_CPU, the
memory starts with TIDEWAYS_FLAGS_MEMORY. The other fields, which hold what
the memory of the frame held before, are put to 0. -/
def hp_entry_written (flags : Nat) (f : hp_entry_t) : hp_entry_t :=
  { name_hprof := f.name_hprof,
    rlvl_hprof := if flags &&& TIDEWAYS_FLAGS_NO_HIERACHICAL = 0 then f.rlvl_hprof else 0,
    tsc_start := f.tsc_start,
    cpu_start := if flags &&& TIDEWAYS_FLAGS_CPU ≠ 0 then f.cpu_start else 0,
    mu_start_hprof := if flags &&& TIDEWAYS_FLAGS_MEMORY ≠ 0 then f.mu_start_hprof else 0,
    pmu_start_hprof := if flags &&& TIDEWAYS_FLAGS_MEMORY ≠ 0 then f.pmu_start_hprof else 0,
    hash_code := f.hash_code,
    span_id := f.span_id }

/-- The state without what was left over from earlier uses of the frames:
of every frame on the stack only the written fields, and no content of the
frame pool. -/
def hp_globals_written (g : hp_global_t) : hp_global_t :=
  { g with entries := g.entries.map (hp_entry_written g.tideways_flags),
           entry_free_list := [] }

/-- Two call boundaries that differ at most in the content of the memory
that `malloc` hands out for a frame. -/
def hp_call_same : hp_call → hp_call → Prop
  | .enter s d h, .enter s1 d1 h1 =>
    s1 = s ∧ d1 = d ∧ h1.cycle_timer = h.cycle_timer ∧ h1.cycle_timer_cb = h.cycle_timer_cb ∧
    h1.cpu_timer = h.cpu_timer ∧ h1.memory_usage = h.memory_usage ∧
    h1.memory_peak_usage = h.memory_peak_usage ∧ h1.gc_runs = h.gc_runs ∧
    h1.gc_collected = h.gc_collected
  | .leave h, .leave h1 => h1 = h
  | _, _ => False

/-- Pairwise `hp_call_same`. -/
def hp_calls_same : List hp_call → List hp_call → Prop
  | [], [] => True
  | c :: cs, c1 :: cs1 => hp_call_same c c1 ∧ hp_calls_same cs cs1
  | _, _ => False

/-! ## Concrete states and readings -/

/-- Content of freshly allocated memory used in the examples: no field has
a meaningful value. -/
def malloc_garbage : hp_entry_t :=
  { name_hprof := "garbage".toList, rlvl_hprof := 77, tsc_start := 5, cpu_start := 6,
    mu_start_hprof := 7, pmu_start_hprof := 8, hash_code := 9, span_id := 10 }

/-- Readings of a host whose clocks show `t`. -/
def host_at (t : Nat) : host_t :=
  { cycle_timer := t, cycle_timer_cb := t, cpu_timer := t, memory_usage := 0,
    memory_peak_usage := 0, gc_runs := 0, gc_collected := 0, malloc_entry := malloc_garbage }

/-- The global state after `PHP_MINIT_FUNCTION(tideways)`, before any
session. -/
def hp_globals_minit : hp_global_t :=
  { enabled := 0, ever_enabled := 0, stats_count := none, spans := none, start_time := 0,
    exception := none, entries := [], entry_free_list := [], transaction_function := none,
    transaction_name := none, root := none, exception_function := none, tideways_flags := 0,
    func_hash_counters := fun _ => 0, filtered_type := 0, filtered_functions := none,
    trace_callbacks := none, span_cache := none, gc_runs := 0, gc_collected := 0,
    compile_count := 0, compile_wt := 0, cpu_start := 0 }

/-- Execute data of a call without arguments and without receiver. -/
def no_args : zend_execute_data := { args := [], object := none }

/-- The names of the frames that a sequence of events pushes, in order. -/
def hp_pushed_names : List hp_event → List CStr
  | [] => []
  | .pushed f :: evs => f.name_hprof :: hp_pushed_names evs
  | .released _ :: evs => hp_pushed_names evs

/-- The state of a session right after `hp_begin` with flags 0, no filter and
no registered extractor, the clocks showing 0: the root frame is on the
stack and span 0 is started. -/
def hp_session0 : hp_global_t :=
  { hp_globals_minit with
    enabled := 1, ever_enabled := 1, stats_count := some [],
    spans := some [(0, { n := "app".toList, b := [0], e := [], p := none, a := none })],
    entries := [{ malloc_garbage with name_hprof := ROOT_SYMBOL, rlvl_hprof := 0,
                                      tsc_start := 0, hash_code := 118, span_id := -1 }],
    root := some ROOT_SYMBOL, trace_callbacks := some [], span_cache := some [],
    func_hash_counters := Function.update (fun _ => 0) 118 1 }

/-- A frame of a call of `foo` at recursion level 0. -/
def frame_foo : hp_entry_t := { malloc_garbage with name_hprof := "foo".toList, rlvl_hprof := 0 }

/-- A frame of the root symbol. -/
def frame_root : hp_entry_t := { malloc_garbage with name_hprof := ROOT_SYMBOL, rlvl_hprof := 0 }

/-- A frame of a function made by `create_function`: its name starts with a
NUL byte, so the symbol that `hp_get_function_name` builds is empty. -/
def frame_lambda : hp_entry_t := { malloc_garbage with name_hprof := [], rlvl_hprof := 0 }

/-- A session state whose filter is built from a list of names, with the
given mode. -/
def hp_session_filtered (names : List CStr) (filtered_type : Int) : hp_global_t :=
  { hp_session0 with filtered_type := filtered_type,
                     filtered_functions := hp_function_map_create (some names) }

/-- The session `hp_session0` inside a call of `foo`: two frames are open. -/
def hp_session_in_foo : hp_global_t :=
  { hp_session0 with entries := frame_foo :: hp_session0.entries }

/-- The session `hp_session0` after the application has created a span of
category `php` (`tideways_span_create`) and started its timer at time 3
(`tideways_span_timer_start`) without stopping it. -/
def hp_session_open_span : hp_global_t :=
  { hp_session0 with
    spans := hp_session0.spans.map
      (fun sp => tw_span_timer_start (tw_span_create sp "php".toList).1 0 3 1) }

/-- The calls `foo`, `bar`, `foo`, each entered inside the one before, none
left. -/
def calls_foo_bar_foo : List hp_call :=
  [.enter "foo".toList (some no_args) (host_at 10),
   .enter "bar".toList (some no_args) (host_at 20),
   .enter "foo".toList (some no_args) (host_at 30)]

/-- The session `hp_session0` inside the calls `foo`, `bar`, `foo`. -/
def hp_session_foo_bar_foo : hp_global_t :=
  ((hp_run hp_session0 [] calls_foo_bar_foo).map Prod.fst).getD hp_session0

/-- The session `hp_session0` after the transaction name `home` has been
captured. -/
def hp_session_named : hp_global_t :=
  { hp_session0 with transaction_name := some (hp_create_string "home".toList 4) }

/-- The session `hp_session0` with `handle_exception` configured as the
exception marker. -/
def hp_session_marker : hp_global_t :=
  { hp_session0 with
    exception_function := some (hp_create_string "handle_exception".toList 16) }

/-- Two exception objects. -/
def exception_one : zval := .IS_OBJECT "RuntimeException".toList true "first".toList

def exception_two : zval := .IS_OBJECT "LogicException".toList true "second".toList

/-- The session `hp_session0` with the extractors of `PDO::query` and
`Memcache::get` registered, as `hp_init_trace_callbacks` registers them. -/
def hp_session_extractors : hp_global_t :=
  { hp_session0 with
    trace_callbacks := some [("PDO::query".toList, tw_trace_callback_sql_functions),
                             ("Memcache::get".toList, tw_trace_callback_memcache)] }

/-- A PHP string of 10 bytes with a NUL byte inside. -/
def sql_with_nul : CStr := "SELECT 1".toList ++ [NUL] ++ "x".toList

/-- The session `hp_session0` with `start_tx` configured as the transaction
marker. -/
def hp_session_tx : hp_global_t :=
  { hp_session0 with transaction_function := some (hp_create_string "start_tx".toList 8) }

/-- The session `hp_session0` with the dispatcher of Zend Framework
configured as the transaction marker. -/
def hp_session_dispatch : hp_global_t :=
  { hp_session0 with
    transaction_function := some (hp_create_string "Zend_Controller_Action::dispatch".toList 32) }

/-- The session `hp_session0` with a frame of an earlier call in the frame
pool: the frame still holds the recursion level 7 and the starts 99. -/
def hp_session_pool : hp_global_t :=
  { hp_session0 with
    entry_free_list :=
      [{ name_hprof := "old".toList, rlvl_hprof := 7, tsc_start := 99, cpu_start := 99,
         mu_start_hprof := 99, pmu_start_hprof := 99, hash_code := 1, span_id := 5 }] }

/-- Ids of the spans of a tree, in table order. -/
def span_ids (spans : SpanTree) : List Int := spans.map Prod.fst

/-- The ids of the tree are `0, 1, ..., n-1`, in this order. -/
def span_ids_dense (spans : SpanTree) : Prop :=
  span_ids spans = (List.range spans.length).map Int.ofNat

instance (spans : SpanTree) : Decidable (span_ids_dense spans) := by
  unfold span_ids_dense; infer_instance

/-- One call of a function of the span API. -/
inductive span_op where
  | create (category : CStr)
  | timer_start (start_time now : Nat) (spanId : Int)
  | timer_stop (start_time now : Nat) (spanId : Int)
  | record_duration (spanId : Int) (start stop : Int)
  | annotate (spanId : Int) (annotations : HashTable CStr zval)
  | annotate_long (spanId : Int) (key : CStr) (value : Int)
  | annotate_string (spanId : Int) (key value : CStr) (copy : Int)

/-- Effect of one call on the tree, with the id a creation returned. -/
def span_step (spans : SpanTree) : span_op → SpanTree × Option Int
  | .create c => ((tw_span_create spans c).1, some (tw_span_create spans c).2)
  | .timer_start st now id => (tw_span_timer_start spans st now id, none)
  | .timer_stop st now id => (tw_span_timer_stop spans st now id, none)
  | .record_duration id s e => (tw_span_record_duration spans id s e, none)
  | .annotate id m => (tw_span_annotate spans id m, none)
  | .annotate_long id k v => (tw_span_annotate_long spans id k v, none)
  | .annotate_string id k v c => (tw_span_annotate_string spans id k v c, none)

/-- A sequence of calls: the final tree and the ids returned by the
creations, in call order. -/
def span_run : SpanTree → List span_op → SpanTree × List Int
  | spans, [] => (spans, [])
  | spans, op :: ops =>
    let r := span_step spans op
    let rest := span_run r.1 ops
    (rest.1, (match r.2 with | some id => [id] | none => []) ++ rest.2)

/-- A span has as many stops as starts, or one start more. -/
def span_open_at_most_one (s : Span) : Prop :=
  s.e.length ≤ s.b.length ∧ s.b.length ≤ s.e.length + 1

instance (s : Span) : Decidable (span_open_at_most_one s) := by
  unfold span_open_at_most_one; infer_instance

/-- A call of the span API respects the order of the timers: a timer is
started only on a span without open timer, and stopped only on a span with
an open timer. -/
def span_op_in_order (spans : SpanTree) : span_op → Prop
  | .timer_start _ _ id =>
    match zend_hash_find spans id with
    | some s => s.b.length = s.e.length
    | none => True
  | .timer_stop _ _ id =>
    match zend_hash_find spans id with
    | some s => s.b.length = s.e.length + 1
    | none => True
  | _ => True

/-- Every call of a sequence respects the order of the timers, in the tree
that the calls before it have built. -/
def span_run_in_order : SpanTree → List span_op → Prop
  | _, [] => True
  | spans, op :: ops => span_op_in_order spans op ∧ span_run_in_order (span_step spans op).1 ops

/-- A symbol of 503 bytes. -/
def bytes_503 : CStr := List.replicate 503 'a'

/-- A frame at recursion level 0 whose symbol has 503 bytes. -/
def frame_503 : hp_entry_t := { malloc_garbage with name_hprof := bytes_503, rlvl_hprof := 0 }

/-- The annotation stored on a span under a key, if any. -/
def span_annotation_at (spans : SpanTree) (spanId : Int) (key : CStr) : Option CStr :=
  (zend_hash_find spans spanId).bind (fun s => zend_hash_find (span_annotations s) key)

/-- A freshly created span of the given category. -/
def span_new (category : CStr) : Span :=
  { n := category, b := [], e := [], p := none, a := none }

/-- A tree of `n` freshly created spans of category `app`. -/
def span_tree_of_size (n : Nat) : SpanTree :=
  (List.range n).map (fun i => (Int.ofNat i, span_new "app".toList))

/-- A value of 1001 bytes. -/
def bytes_1001 : CStr := List.replicate 1001 'a'

/-! # Theorems -/

/-! ## Hash tables -/

theorem zend_hash_find_none_iff {κ α : Type} [DecidableEq κ] (h : HashTable κ α) (k : κ) :
    zend_hash_find h k = none ↔ k ∉ h.map Prod.fst := by
  induction h with
  | nil => simp [zend_hash_find]
  | cons x t ih =>
    obtain ⟨k1, v⟩ := x
    by_cases hk : k1 = k
    · simp [zend_hash_find, hk]
    · have hk2 : ¬ k = k1 := fun h1 => hk h1.symm
      simp [zend_hash_find, hk, hk2, ih]

theorem zend_hash_update_absent {κ α : Type} [DecidableEq κ] (h : HashTable κ α) (k : κ) (v : α)
    (hk : zend_hash_find h k = none) : zend_hash_update h k v = h ++ [(k, v)] := by
  induction h with
  | nil => simp [zend_hash_update]
  | cons x t ih =>
    obtain ⟨k1, v1⟩ := x
    by_cases hk1 : k1 = k
    · simp [zend_hash_find, hk1] at hk
    · simp [zend_hash_find, hk1] at hk
      simp [zend_hash_update, hk1, ih hk]

theorem zend_hash_find_update_self {κ α : Type} [DecidableEq κ] (h : HashTable κ α) (k : κ) (v : α) :
    zend_hash_find (zend_hash_update h k v) k = some v := by
  induction h with
  | nil => simp [zend_hash_update, zend_hash_find]
  | cons x t ih =>
    obtain ⟨k1, v1⟩ := x
    by_cases hk1 : k1 = k
    · simp [zend_hash_update, zend_hash_find, hk1]
    · simp [zend_hash_update, zend_hash_find, hk1, ih]

theorem zend_hash_find_update_other {κ α : Type} [DecidableEq κ] (h : HashTable κ α) (k k2 : κ) (v : α)
    (hne : k2 ≠ k) : zend_hash_find (zend_hash_update h k v) k2 = zend_hash_find h k2 := by
  induction h with
  | nil =>
    simp [zend_hash_update, zend_hash_find]
    exact fun h1 => hne h1.symm
  | cons x t ih =>
    obtain ⟨k1, v1⟩ := x
    by_cases hk1 : k1 = k
    · subst hk1
      have : ¬ k1 = k2 := fun h1 => hne h1.symm
      simp [zend_hash_update, zend_hash_find, this]
    · by_cases hk2 : k1 = k2
      · subst hk2
        simp [zend_hash_update, zend_hash_find, hk1]
      · simp [zend_hash_update, zend_hash_find, hk1, hk2, ih]

theorem zend_hash_modify_keys {κ α : Type} [DecidableEq κ] (h : HashTable κ α) (k : κ) (f : α → α) :
    (zend_hash_modify h k f).map Prod.fst = h.map Prod.fst := by
  induction h with
  | nil => simp [zend_hash_modify]
  | cons x t ih =>
    obtain ⟨k1, v1⟩ := x
    by_cases hk1 : k1 = k
    · simp [zend_hash_modify, hk1]
    · simp [zend_hash_modify, hk1, ih]

theorem zend_hash_modify_length {κ α : Type} [DecidableEq κ] (h : HashTable κ α) (k : κ) (f : α → α) :
    (zend_hash_modify h k f).length = h.length := by
  have := congrArg List.length (zend_hash_modify_keys h k f)
  simpa using this

theorem zend_hash_find_modify_self {κ α : Type} [DecidableEq κ] (h : HashTable κ α) (k : κ) (f : α → α) :
    zend_hash_find (zend_hash_modify h k f) k = (zend_hash_find h k).map f := by
  induction h with
  | nil => simp [zend_hash_modify, zend_hash_find]
  | cons x t ih =>
    obtain ⟨k1, v1⟩ := x
    by_cases hk1 : k1 = k
    · simp [zend_hash_modify, zend_hash_find, hk1]
    · simp [zend_hash_modify, zend_hash_find, hk1, ih]

theorem zend_hash_find_modify_other {κ α : Type} [DecidableEq κ] (h : HashTable κ α) (k k2 : κ) (f : α → α)
    (hne : k2 ≠ k) : zend_hash_find (zend_hash_modify h k f) k2 = zend_hash_find h k2 := by
  induction h with
  | nil => simp [zend_hash_modify, zend_hash_find]
  | cons x t ih =>
    obtain ⟨k1, v1⟩ := x
    by_cases hk1 : k1 = k
    · subst hk1
      have : ¬ k1 = k2 := fun h1 => hne h1.symm
      simp [zend_hash_modify, zend_hash_find, this]
    · by_cases hk2 : k1 = k2
      · subst hk2
        simp [zend_hash_modify, zend_hash_find, hk1]
      · simp [zend_hash_modify, zend_hash_find, hk1, hk2, ih]

/-! ## Span tree -/

theorem span_tree_of_size_dense (n : Nat) : span_ids_dense (span_tree_of_size n) := by
  simp [span_ids_dense, span_ids, span_tree_of_size, List.map_map, Function.comp_def]

theorem span_find_next_none (spans : SpanTree) (hd : span_ids_dense spans) :
    zend_hash_find spans (spans.length : Int) = none := by
  rw [zend_hash_find_none_iff]
  have hd2 : spans.map Prod.fst = (List.range spans.length).map Int.ofNat := hd
  rw [hd2]
  simp

theorem tw_span_create_full (spans : SpanTree) (category : CStr)
    (h : 1500 ≤ zend_hash_num_elements spans) : tw_span_create spans category = (spans, -1) := by
  simp [tw_span_create, h]

theorem tw_span_create_room (spans : SpanTree) (category : CStr) (hd : span_ids_dense spans)
    (h : zend_hash_num_elements spans < 1500) :
    tw_span_create spans category
      = (spans ++ [((spans.length : Int), span_new category)], (spans.length : Int)) := by
  have h2 : ¬ 1500 ≤ spans.length := by
    simp only [zend_hash_num_elements] at h; omega
  have h3 : spans.length < 1500 := by omega
  simp [tw_span_create, h3, zend_hash_num_elements,
    zend_hash_update_absent spans _ _ (span_find_next_none spans hd), span_new]

theorem span_ids_dense_snoc (spans : SpanTree) (s : Span) (hd : span_ids_dense spans) :
    span_ids_dense (spans ++ [((spans.length : Int), s)]) := by
  have hd2 : spans.map Prod.fst = (List.range spans.length).map Int.ofNat := hd
  simp [span_ids_dense, span_ids, hd2, List.range_succ]

/-- C5: on a tree that already holds 1500 spans `tw_span_create` returns the
sentinel -1 and leaves the tree as it is; on a tree with fewer than 1500
spans it returns a non-negative id and appends exactly one new span. -/
theorem tw_span_create_cap (spans : SpanTree) (category : CStr) (hd : span_ids_dense spans) :
    (zend_hash_num_elements spans = 1500 →
      tw_span_create spans category = (spans, -1) ∧
      zend_hash_num_elements (tw_span_create spans category).1 = 1500) ∧
    (zend_hash_num_elements spans < 1500 →
      0 ≤ (tw_span_create spans category).2 ∧
      zend_hash_num_elements (tw_span_create spans category).1
        = zend_hash_num_elements spans + 1 ∧
      (tw_span_create spans category).1
        = spans ++ [((tw_span_create spans category).2, span_new category)]) := by
  constructor
  · intro h
    rw [tw_span_create_full spans category (by omega)]
    exact ⟨rfl, h⟩
  · intro h
    rw [tw_span_create_room spans category hd h]
    simp [zend_hash_num_elements]

theorem tw_span_create_cap_witness :
    tw_span_create (span_tree_of_size 1500) "x".toList = (span_tree_of_size 1500, -1) ∧
    (tw_span_create (span_tree_of_size 3) "x".toList).2 = 3 :=
  ⟨((tw_span_create_cap (span_tree_of_size 1500) "x".toList
      (span_tree_of_size_dense 1500)).1 (by simp [zend_hash_num_elements, span_tree_of_size])).1,
   by
    rw [tw_span_create_room _ _ (span_tree_of_size_dense 3)
      (by simp [zend_hash_num_elements, span_tree_of_size])]
    simp [span_tree_of_size]⟩

theorem span_step_ids (spans : SpanTree) (op : span_op) (hc : ∀ c, op ≠ span_op.create c) :
    span_ids (span_step spans op).1 = span_ids spans ∧ (span_step spans op).2 = none := by
  cases op with
  | create c => exact absurd rfl (hc c)
  | timer_start st now id =>
    simp only [span_step, tw_span_timer_start, span_ids]
    cases zend_hash_find spans id <;> simp [zend_hash_modify_keys]
  | timer_stop st now id =>
    simp only [span_step, tw_span_timer_stop, span_ids]
    cases zend_hash_find spans id <;> simp [zend_hash_modify_keys]
  | record_duration id a b =>
    simp only [span_step, tw_span_record_duration, span_ids]
    cases zend_hash_find spans id <;> simp [zend_hash_modify_keys]
  | annotate id m =>
    simp only [span_step, tw_span_annotate, span_ids]
    cases zend_hash_find spans id <;> simp [zend_hash_modify_keys]
  | annotate_long id k v =>
    simp only [span_step, tw_span_annotate_long, span_ids]
    cases zend_hash_find spans id <;> simp [zend_hash_modify_keys]
  | annotate_string id k v c =>
    simp only [span_step, tw_span_annotate_string, span_ids]
    cases zend_hash_find spans id <;> simp [zend_hash_modify_keys]

theorem span_ids_length (spans : SpanTree) : (span_ids spans).length = spans.length := by
  simp [span_ids]

theorem span_ids_dense_congr (s1 s2 : SpanTree) (h : span_ids s1 = span_ids s2)
    (hd : span_ids_dense s2) : span_ids_dense s1 := by
  have hl : s1.length = s2.length := by
    rw [← span_ids_length s1, ← span_ids_length s2, h]
  unfold span_ids_dense at *
  rw [h, hl]
  exact hd

theorem span_run_invariant (ops : List span_op) :
    ∀ spans : SpanTree, span_ids_dense spans → spans.length ≤ 1500 →
      span_ids_dense (span_run spans ops).1 ∧ (span_run spans ops).1.length ≤ 1500 ∧
      spans.length ≤ (span_run spans ops).1.length ∧
      (span_run spans ops).2.filter (fun id => decide (0 ≤ id))
        = (List.range' spans.length ((span_run spans ops).1.length - spans.length)).map
            Int.ofNat := by
  induction ops with
  | nil => intro spans hd hl; simp [span_run, hd, hl]
  | cons op ops ih =>
    intro spans hd hl
    by_cases hc : ∃ c, op = span_op.create c
    · obtain ⟨c, rfl⟩ := hc
      by_cases hfull : zend_hash_num_elements spans < 1500
      · have hr := tw_span_create_room spans c hd hfull
        have hd2 := span_ids_dense_snoc spans (span_new c) hd
        have hl2 : (spans ++ [((spans.length : Int), span_new c)]).length ≤ 1500 := by
          simp [zend_hash_num_elements] at hfull ⊢; omega
        obtain ⟨i1, i2, i3, i4⟩ := ih _ hd2 hl2
        simp only [span_run, span_step, hr]
        simp only [List.length_append, List.length_singleton] at i3 i4
        refine ⟨i1, i2, by omega, ?_⟩
        have hlen : (span_run (spans ++ [((spans.length : Int), span_new c)]) ops).1.length
            - spans.length
            = ((span_run (spans ++ [((spans.length : Int), span_new c)]) ops).1.length
              - (spans.length + 1)) + 1 := by omega
        rw [hlen, List.range'_succ]
        simp [List.filter_cons, i4]
      · have hr := tw_span_create_full spans c (by omega)
        obtain ⟨i1, i2, i3, i4⟩ := ih _ hd hl
        simp only [span_run, span_step, hr]
        refine ⟨i1, i2, i3, ?_⟩
        simp [List.filter_cons, i4]
    · have hc2 : ∀ c, op ≠ span_op.create c := fun c h => hc ⟨c, h⟩
      obtain ⟨k1, k2⟩ := span_step_ids spans op hc2
      have hd2 := span_ids_dense_congr _ _ k1 hd
      have hlen : (span_step spans op).1.length = spans.length := by
        rw [← span_ids_length, k1, span_ids_length]
      obtain ⟨i1, i2, i3, i4⟩ := ih _ hd2 (by omega)
      simp only [span_run, k2]
      rw [hlen] at i3 i4
      exact ⟨i1, i2, i3, by simpa using i4⟩

/-- C6: after any sequence of calls of the span API on the empty tree of a
new session, the span ids are exactly `0, ..., n-1` with `n ≤ 1500`, and the
successful creations returned `0, 1, ..., n-1` in this order. -/
theorem span_ids_dense_from_empty (ops : List span_op) :
    span_ids (span_run [] ops).1
      = (List.range (span_run [] ops).1.length).map Int.ofNat ∧
    (span_run [] ops).1.length ≤ 1500 ∧
    (span_run [] ops).2.filter (fun id => decide (0 ≤ id))
      = (List.range (span_run [] ops).1.length).map Int.ofNat := by
  have hd0 : span_ids_dense ([] : SpanTree) := by simp [span_ids_dense, span_ids]
  obtain ⟨i1, i2, _, i4⟩ := span_run_invariant ops [] hd0 (by simp)
  refine ⟨i1, i2, ?_⟩
  rw [i4]
  simp [List.range_eq_range']

theorem u64_sub_exact (a b : Nat) (hba : b ≤ a) (ha : a < 2 ^ 64) : u64_sub a b = a - b := by
  unfold u64_sub
  have hb : b < 2 ^ 64 := by omega
  rw [Nat.mod_eq_of_lt ha, Nat.mod_eq_of_lt hb]
  have : a + 2 ^ 64 - b = (a - b) + 2 ^ 64 := by omega
  rw [this, Nat.add_mod_right, Nat.mod_eq_of_lt (by omega)]

theorem u64_to_double_exact (count : Nat) (h : count < 2 ^ 53) : u64_to_double count = count := by
  have hu : double_ulp 11 count = 1 := by
    show (if count < 2 ^ 53 then 1 else 2 * double_ulp 10 (count / 2)) = 1
    rw [if_pos h]
  unfold u64_to_double
  simp only [hu]
  simp [Nat.mod_one]

theorem get_us_from_tsc_exact (count : Nat) (h : count < 2 ^ 53) :
    get_us_from_tsc count = (count : Int) := by
  unfold get_us_from_tsc double_to_long
  rw [u64_to_double_exact count h, if_pos (show count < 2 ^ 63 by omega)]

/-- Above `2 ^ 53` the conversion to `double` rounds: an odd count next to
`2 ^ 53` goes to the even significand. -/
theorem u64_to_double_rounds :
    u64_to_double (2 ^ 53 + 1) = 2 ^ 53 ∧ u64_to_double (2 ^ 53 + 3) = 2 ^ 53 + 4 ∧
      u64_to_double (2 ^ 64 - 1) = 2 ^ 64 := by decide

/-- A difference of `2 ^ 63` or more, such as the one of a clock that went
back by one, is stored as `LONG_MIN`. -/
theorem get_us_from_tsc_out_of_range :
    get_us_from_tsc (2 ^ 63) = -(2 ^ 63) ∧ get_us_from_tsc (u64_sub 0 1) = -(2 ^ 63) := by decide

theorem zend_hash_find_snoc_self {κ α : Type} [DecidableEq κ] (h : HashTable κ α) (k : κ) (v : α)
    (hk : zend_hash_find h k = none) : zend_hash_find (h ++ [(k, v)]) k = some v := by
  rw [← zend_hash_update_absent h k v hk]
  exact zend_hash_find_update_self h k v

/-- C7: on a tree with fewer than 1500 spans, with clock readings that do not
go backwards and lie less than `2 ^ 53` microseconds after the start of the
session (the range in which the `double` of `get_us_from_tsc` is exact),
`tw_span_create` followed by `tw_span_timer_start` and `tw_span_timer_stop` on
the returned id yields a span of the given category, without parent, with
exactly one start and one stop, the stop not before the start. -/
theorem tw_span_create_start_stop (spans : SpanTree) (category : CStr)
    (start_time t1 t2 : Nat) (hd : span_ids_dense spans)
    (hroom : zend_hash_num_elements spans < 1500)
    (h01 : start_time ≤ t1) (h12 : t1 ≤ t2) (h64 : t2 < 2 ^ 64)
    (h53 : t2 - start_time < 2 ^ 53) :
    ∃ w1 w2 : Int,
      zend_hash_find
        (tw_span_timer_stop
          (tw_span_timer_start (tw_span_create spans category).1 start_time t1
            (tw_span_create spans category).2)
          start_time t2 (tw_span_create spans category).2)
        (tw_span_create spans category).2
        = some { n := category, b := [w1], e := [w2], p := none, a := none } ∧
      w1 ≤ w2 := by
  refine ⟨get_us_from_tsc (u64_sub t1 start_time), get_us_from_tsc (u64_sub t2 start_time), ?_, ?_⟩
  · rw [tw_span_create_room spans category hd hroom]
    have hnone := span_find_next_none spans hd
    have hf := zend_hash_find_snoc_self spans (spans.length : Int) (span_new category) hnone
    have h1 : zend_hash_find
        (tw_span_timer_start (spans ++ [((spans.length : Int), span_new category)])
          start_time t1 (spans.length : Int)) (spans.length : Int)
        = some { span_new category with b := [get_us_from_tsc (u64_sub t1 start_time)] } := by
      simp only [tw_span_timer_start, hf]
      rw [zend_hash_find_modify_self, hf]
      simp [span_new]
    simp only [tw_span_timer_stop, h1]
    rw [zend_hash_find_modify_self, h1]
    simp [span_new]
  · rw [u64_sub_exact t1 start_time h01 (by omega), u64_sub_exact t2 start_time (by omega) h64,
      get_us_from_tsc_exact _ (show t1 - start_time < 2 ^ 53 by omega),
      get_us_from_tsc_exact _ h53]
    have : t1 - start_time ≤ t2 - start_time := by omega
    exact_mod_cast this

theorem tw_span_create_start_stop_witness :
    ∃ w1 w2 : Int,
      zend_hash_find
        (tw_span_timer_stop
          (tw_span_timer_start (tw_span_create (span_tree_of_size 1) "x".toList).1 100 150
            (tw_span_create (span_tree_of_size 1) "x".toList).2)
          100 175 (tw_span_create (span_tree_of_size 1) "x".toList).2)
        (tw_span_create (span_tree_of_size 1) "x".toList).2
        = some { n := "x".toList, b := [w1], e := [w2], p := none, a := none } ∧
      w1 ≤ w2 :=
  tw_span_create_start_stop (span_tree_of_size 1) "x".toList 100 150 175
    (span_tree_of_size_dense 1) (by simp [zend_hash_num_elements, span_tree_of_size])
    (by decide) (by decide) (by decide) (by decide)

theorem bytes_1001_length : bytes_1001.length = 1001 := List.length_replicate _ _

theorem bytes_1001_take : bytes_1001.take 1000 ≠ bytes_1001 := by
  intro h
  have h2 := congrArg List.length h
  rw [List.length_take, bytes_1001_length] at h2
  omega

theorem tw_span_annotate_string_stored (spans : SpanTree) (spanId : Int) (key value : CStr)
    (copy : Int) (s : Span) (hs : zend_hash_find spans spanId = some s) :
    span_annotation_at (tw_span_annotate_string spans spanId key value copy) spanId key
      = some (if copy = 1 ∧ value.length > 1000 then value.take 1000 else value) := by
  simp only [span_annotation_at, tw_span_annotate_string, hs]
  rw [zend_hash_find_modify_self, hs]
  simp only [Option.map_some', Option.some_bind, span_annotations]
  rw [zend_hash_find_update_self]
  by_cases hc : copy = 1 ∧ value.length > 1000
  · simp [hc]
  · simp [hc]

/-- C8 (as stated, refuted): with `copy = 0` a value of 1001 bytes is stored
whole, not cut to its first 1000 bytes. -/
theorem tw_span_annotate_string_copy0_not_truncated :
    span_annotation_at
        (tw_span_annotate_string (span_tree_of_size 1) 0 "title".toList
          bytes_1001 0) 0 "title".toList
      = some bytes_1001 ∧
    bytes_1001.take 1000 ≠ bytes_1001 := by
  constructor
  · rw [tw_span_annotate_string_stored _ _ _ _ _ (span_new "app".toList) (by rfl)]
    rw [if_neg (fun h => absurd h.1 (by decide))]
  · exact bytes_1001_take

/-- C8 (amended): for every existing span id, key and value, after
`tw_span_annotate_string` the annotation stored under the key is the first
1000 bytes of the value when `copy = 1` and the value is longer than 1000
bytes, and the whole value otherwise (at most 1000 bytes, or `copy ≠ 1`). -/
theorem tw_span_annotate_string_truncates_copies (spans : SpanTree) (spanId : Int)
    (key value : CStr) (copy : Int) (s : Span) (hs : zend_hash_find spans spanId = some s) :
    (copy = 1 → value.length > 1000 →
      span_annotation_at (tw_span_annotate_string spans spanId key value copy) spanId key
        = some (value.take 1000)) ∧
    (value.length ≤ 1000 →
      span_annotation_at (tw_span_annotate_string spans spanId key value copy) spanId key
        = some value) ∧
    (copy ≠ 1 →
      span_annotation_at (tw_span_annotate_string spans spanId key value copy) spanId key
        = some value) := by
  rw [tw_span_annotate_string_stored spans spanId key value copy s hs]
  refine ⟨?_, ?_, ?_⟩
  · intro h1 h2; simp [h1, h2]
  · intro h1
    have : ¬ value.length > 1000 := by omega
    simp [this]
  · intro h1; simp [h1]

theorem tw_span_annotate_string_truncates_copies_witness :
    span_annotation_at
        (tw_span_annotate_string (span_tree_of_size 1) 0 "sql".toList
          bytes_1001 1) 0 "sql".toList
      = some (bytes_1001.take 1000) :=
  (tw_span_annotate_string_truncates_copies (span_tree_of_size 1) 0 "sql".toList
    bytes_1001 1 (span_new "app".toList) (by rfl)).1 rfl
    (by rw [bytes_1001_length]; decide)

theorem tw_span_annotate_stored_single (spans : SpanTree) (spanId : Int) (key : CStr) (v : zval)
    (s : Span) (hs : zend_hash_find spans spanId = some s) :
    span_annotation_at (tw_span_annotate spans spanId [(key, v)]) spanId key
      = some (convert_to_string v) := by
  simp only [span_annotation_at, tw_span_annotate, hs]
  rw [zend_hash_find_modify_self, hs]
  simp only [Option.map_some', Option.some_bind, span_annotations, List.map, zend_hash_merge]
  rw [zend_hash_find_update_self]

/-- C9 (the code at the failing input): `tw_span_annotate` stores a string
value of 1001 bytes whole; no cut to 1000 bytes takes place. -/
theorem tw_span_annotate_not_truncated :
    span_annotation_at
        (tw_span_annotate (span_tree_of_size 1) 0
          [("k".toList, zval.IS_STRING bytes_1001)]) 0 "k".toList
      = some bytes_1001 ∧
    bytes_1001.length = 1001 := by
  constructor
  · rw [tw_span_annotate_stored_single _ _ _ _ (span_new "app".toList) (by rfl)]
    rfl
  · exact bytes_1001_length

/-- C10: on an id that is not the id of a span of the tree, each of the
timer, duration and annotation functions returns the tree unchanged. -/
theorem tw_span_missing_id_noop (spans : SpanTree) (spanId : Int)
    (hmiss : zend_hash_find spans spanId = none)
    (start_time now : Nat) (start stop : Int) (annotations : HashTable CStr zval)
    (key value : CStr) (lval copy : Int) :
    tw_span_timer_start spans start_time now spanId = spans ∧
    tw_span_timer_stop spans start_time now spanId = spans ∧
    tw_span_record_duration spans spanId start stop = spans ∧
    tw_span_annotate spans spanId annotations = spans ∧
    tw_span_annotate_long spans spanId key lval = spans ∧
    tw_span_annotate_string spans spanId key value copy = spans := by
  simp [tw_span_timer_start, tw_span_timer_stop, tw_span_record_duration, tw_span_annotate,
    tw_span_annotate_long, tw_span_annotate_string, hmiss]

theorem tw_span_missing_id_noop_witness :
    tw_span_timer_start (span_tree_of_size 2) 0 5 (-1) = span_tree_of_size 2 ∧
    tw_span_timer_stop (span_tree_of_size 2) 0 5 (-1) = span_tree_of_size 2 ∧
    tw_span_record_duration (span_tree_of_size 2) (-1) 1 2 = span_tree_of_size 2 ∧
    tw_span_annotate (span_tree_of_size 2) (-1) [("k".toList, zval.IS_LONG 7)]
      = span_tree_of_size 2 ∧
    tw_span_annotate_long (span_tree_of_size 2) (-1) "gc".toList 3 = span_tree_of_size 2 ∧
    tw_span_annotate_string (span_tree_of_size 2) (-1) "title".toList "t".toList 1
      = span_tree_of_size 2 :=
  tw_span_missing_id_noop (span_tree_of_size 2) (-1) (by rfl) 0 5 1 2
    [("k".toList, zval.IS_LONG 7)] "gc".toList "t".toList 3 1

/-! ## Call stack -/

theorem hp_fast_alloc_state (g : hp_global_t) (m : hp_entry_t) :
    (hp_fast_alloc_hprof_entry g m).2 = { g with entry_free_list := g.entry_free_list.tail } := by
  cases g with
  | mk enabled ever stats spans st exc entries fl tf tn root ef flags counters ft ff tcb scache
      gr gc cc cw cs =>
  cases fl <;> rfl

theorem beginfn_recursion_state (g : hp_global_t) (c : hp_entry_t) :
    (beginfn_recursion g c).2
      = { g with func_hash_counters := hp_enter_counters g c.hash_code } := by
  unfold beginfn_recursion hp_enter_counters
  by_cases hh : g.tideways_flags &&& TIDEWAYS_FLAGS_NO_HIERACHICAL = 0
  · simp only [if_pos hh]
  · simp only [if_neg hh]

theorem beginfn_recursion_frame (g : hp_global_t) (c : hp_entry_t) :
    (beginfn_recursion g c).1
      = { c with rlvl_hprof :=
            if g.tideways_flags &&& TIDEWAYS_FLAGS_NO_HIERACHICAL = 0 then
              (if g.func_hash_counters c.hash_code > 0 then
                hp_scan_recurse_level c.name_hprof g.entries else 0)
            else c.rlvl_hprof } := by
  unfold beginfn_recursion
  by_cases hh : g.tideways_flags &&& TIDEWAYS_FLAGS_NO_HIERACHICAL = 0
  · simp only [if_pos hh]
  · simp only [if_neg hh]

theorem beginfn_usage_fields (g : hp_global_t) (c : hp_entry_t) (h : host_t) :
    (beginfn_usage g c h).name_hprof = c.name_hprof ∧
    (beginfn_usage g c h).rlvl_hprof = c.rlvl_hprof ∧
    (beginfn_usage g c h).tsc_start = c.tsc_start ∧
    (beginfn_usage g c h).hash_code = c.hash_code ∧
    (beginfn_usage g c h).span_id = c.span_id := by
  unfold beginfn_usage
  by_cases h1 : g.tideways_flags &&& TIDEWAYS_FLAGS_CPU ≠ 0 <;>
  by_cases h2 : g.tideways_flags &&& TIDEWAYS_FLAGS_MEMORY ≠ 0 <;>
  simp [h1, h2]

theorem beginfn_spans_spec (g : hp_global_t) (c : hp_entry_t) (d : Option zend_execute_data)
    (h : host_t) (hok : hp_tables_ok g) :
    ∃ (id : Int) (sp : SpanTree) (sc : Option (HashTable CStr Int)),
      beginfn_spans g c d h
        = some ({ c with span_id := id }, { g with spans := some sp, span_cache := sc }) ∧
      (g.span_cache.isSome = true → sc.isSome = true) := by
  obtain ⟨hsp, hcb⟩ := hok
  cases g with
  | mk enabled ever stats spans st exc entries fl tf tn root ef flags counters ft ff tcb scache
      gr gc cc cw cs =>
  simp only at hsp hcb
  obtain ⟨sp0, rfl⟩ := Option.isSome_iff_exists.mp hsp
  unfold beginfn_spans
  simp only
  by_cases hns : flags &&& TIDEWAYS_FLAGS_NO_SPANS = 0
  · obtain ⟨hcb1, hcb2⟩ := hcb hns
    obtain ⟨cbs, rfl⟩ := Option.isSome_iff_exists.mp hcb1
    obtain ⟨sc0, rfl⟩ := Option.isSome_iff_exists.mp hcb2
    rw [if_pos hns]
    cases d with
    | none => exact ⟨c.span_id, sp0, some sc0, rfl, fun x => x⟩
    | some dd =>
      simp only
      cases hfind : zend_hash_find cbs c.name_hprof with
      | none => exact ⟨c.span_id, sp0, some sc0, rfl, fun x => x⟩
      | some cb => exact ⟨_, _, _, rfl, fun _ => rfl⟩
  · rw [if_neg hns]
    exact ⟨c.span_id, sp0, scache, rfl, fun x => x⟩

/-- What `BEGIN_PROFILING` does for a symbol that the filter keeps. -/
theorem BEGIN_PROFILING_spec (g : hp_global_t) (s : CStr) (d : Option zend_execute_data)
    (h : host_t) (hok : hp_tables_ok g)
    (hf : hp_filter_entry g (hp_inline_hash s) s = 0) :
    ∃ (f : hp_entry_t) (sp : SpanTree) (sc : Option (HashTable CStr Int)),
      BEGIN_PROFILING g s d h
        = some ({ g with entries := f :: g.entries,
                         entry_free_list := g.entry_free_list.tail,
                         func_hash_counters := hp_enter_counters g (hp_inline_hash s),
                         spans := some sp, span_cache := sc }, 1) ∧
      f.name_hprof = s ∧ f.hash_code = hp_inline_hash s ∧ f.tsc_start = h.cycle_timer ∧
      (g.tideways_flags &&& TIDEWAYS_FLAGS_NO_HIERACHICAL = 0 →
        f.rlvl_hprof = hp_enter_level g s) ∧
      (g.span_cache.isSome = true → sc.isSome = true) := by
  unfold BEGIN_PROFILING
  simp only [hf, if_true, ne_eq, one_ne_zero, not_false_eq_true]
  unfold hp_mode_hier_beginfn_cb
  simp only [hp_fast_alloc_state, beginfn_recursion_state, beginfn_recursion_frame]
  have hok2 : hp_tables_ok
      { g with entry_free_list := g.entry_free_list.tail,
               func_hash_counters := hp_enter_counters
                 { g with entry_free_list := g.entry_free_list.tail } (hp_inline_hash s) } := hok
  obtain ⟨id, sp, sc, hs, hsc⟩ := beginfn_spans_spec _
    { name_hprof := s,
      rlvl_hprof :=
        if g.tideways_flags &&& TIDEWAYS_FLAGS_NO_HIERACHICAL = 0 then
          (if g.func_hash_counters (hp_inline_hash s) > 0 then
            hp_scan_recurse_level s g.entries else 0)
        else (hp_fast_alloc_hprof_entry g h.malloc_entry).1.rlvl_hprof,
      tsc_start := h.cycle_timer,
      cpu_start := (hp_fast_alloc_hprof_entry g h.malloc_entry).1.cpu_start,
      mu_start_hprof := (hp_fast_alloc_hprof_entry g h.malloc_entry).1.mu_start_hprof,
      pmu_start_hprof := (hp_fast_alloc_hprof_entry g h.malloc_entry).1.pmu_start_hprof,
      hash_code := hp_inline_hash s, span_id := -1 } d h hok2
  simp only at hs
  rw [hs]
  simp only [Option.map_some']
  obtain ⟨u1, u2, u3, u4, u5⟩ := beginfn_usage_fields
    { g with entry_free_list := g.entry_free_list.tail,
             func_hash_counters := hp_enter_counters
               { g with entry_free_list := g.entry_free_list.tail } (hp_inline_hash s),
             spans := some sp, span_cache := sc }
    { name_hprof := s,
      rlvl_hprof :=
        if g.tideways_flags &&& TIDEWAYS_FLAGS_NO_HIERACHICAL = 0 then
          (if g.func_hash_counters (hp_inline_hash s) > 0 then
            hp_scan_recurse_level s g.entries else 0)
        else (hp_fast_alloc_hprof_entry g h.malloc_entry).1.rlvl_hprof,
      tsc_start := h.cycle_timer,
      cpu_start := (hp_fast_alloc_hprof_entry g h.malloc_entry).1.cpu_start,
      mu_start_hprof := (hp_fast_alloc_hprof_entry g h.malloc_entry).1.mu_start_hprof,
      pmu_start_hprof := (hp_fast_alloc_hprof_entry g h.malloc_entry).1.pmu_start_hprof,
      hash_code := hp_inline_hash s, span_id := id } h
  refine ⟨_, sp, sc, rfl, u1, u4, u3, ?_, hsc⟩
  intro hh
  rw [u2]
  simp only [hh, if_true, hp_enter_level]

/-- What `END_PROFILING` does with flag 1 on a stack that is not empty. -/
theorem END_PROFILING_spec (g : hp_global_t) (h : host_t) (top : hp_entry_t)
    (rest : List hp_entry_t) (hok : hp_tables_ok g) (he : g.entries = top :: rest) :
    ∃ sp : SpanTree,
      END_PROFILING g 1 h
        = some { g with entries := rest,
                        entry_free_list := top :: g.entry_free_list,
                        spans := some sp,
                        stats_count := hp_leave_stats g h,
                        func_hash_counters := hp_leave_counters g } := by
  obtain ⟨hsp, _⟩ := hok
  cases g with
  | mk enabled ever stats spans st exc entries fl tf tn root ef flags counters ft ff tcb scache
      gr gc cc cw cs =>
  simp only at hsp he
  subst he
  obtain ⟨sp0, rfl⟩ := Option.isSome_iff_exists.mp hsp
  unfold END_PROFILING hp_mode_hier_endfn_cb hp_leave_stats hp_leave_counters
    hp_fast_free_hprof_entry
  simp only [ne_eq, one_ne_zero, not_false_eq_true, if_true]
  by_cases hns : flags &&& TIDEWAYS_FLAGS_NO_SPANS = 0 ∧ top.span_id ≥ 0
  · rw [if_pos hns]
    simp only [Option.map_some', Option.some_bind]
    by_cases hh : flags &&& TIDEWAYS_FLAGS_NO_HIERACHICAL > 0
    · simp only [if_pos hh]
      exact ⟨_, rfl⟩
    · simp only [if_neg hh]
      cases stats with
      | none => exact ⟨_, rfl⟩
      | some stt =>
        simp only [hp_hash_lookup]
        cases zend_hash_find stt (hp_qualified_name (top :: rest)) <;> exact ⟨_, rfl⟩
  · rw [if_neg hns]
    simp only [Option.map_some', Option.some_bind]
    by_cases hh : flags &&& TIDEWAYS_FLAGS_NO_HIERACHICAL > 0
    · simp only [if_pos hh]
      exact ⟨_, rfl⟩
    · simp only [if_neg hh]
      cases stats with
      | none => exact ⟨_, rfl⟩
      | some stt =>
        simp only [hp_hash_lookup]
        cases zend_hash_find stt (hp_qualified_name (top :: rest)) <;> exact ⟨_, rfl⟩

theorem hp_depth_leave_pos (d n : Nat) (h : host_t) (cs : List hp_call)
    (hd : hp_depth d (hp_call.leave h :: cs) = some n) :
    ∃ d1, d = d1 + 1 ∧ hp_depth d1 cs = some n := by
  cases d with
  | zero => simp [hp_depth] at hd
  | succ d1 => exact ⟨d1, rfl, by simpa [hp_depth] using hd⟩

theorem hp_run_lifo_gen (ops : List hp_call) :
    ∀ (g : hp_global_t) (fl : List Int) (A S : List hp_entry_t) (n : Nat),
      hp_tables_ok g →
      (∀ s ∈ hp_entered ops, hp_filter_entry g (hp_inline_hash s) s = 0) →
      (∀ x ∈ fl, x = 1) → g.entries = A ++ S → A.length = fl.length →
      hp_depth fl.length ops = some n →
      ∃ (g1 : hp_global_t) (fl1 : List Int) (A1 : List hp_entry_t),
        hp_run g fl ops = some (g1, fl1) ∧ (∀ x ∈ fl1, x = 1) ∧
        g1.entries = A1 ++ S ∧ A1.length = n ∧ fl1.length = n ∧
        lifo_replay g.entries (hp_trace g fl ops) = some g1.entries ∧
        (hp_trace g fl ops).length = ops.length ∧
        hp_pushed_names (hp_trace g fl ops) = hp_entered ops := by
  induction ops with
  | nil =>
    intro g fl A S n _ _ hfl hA hlen hd
    simp only [hp_depth, Option.some.injEq] at hd
    exact ⟨g, fl, A, rfl, hfl, hA, by omega, hd, by simp [hp_trace, lifo_replay],
      by simp [hp_trace], by simp [hp_trace, hp_pushed_names, hp_entered]⟩
  | cons c cs ih =>
    intro g fl A S n hok hfilter hfl hA hlen hd
    cases c with
    | enter s d h =>
      have hf : hp_filter_entry g (hp_inline_hash s) s = 0 :=
        hfilter s (by simp [hp_entered])
      obtain ⟨f, sp, sc, hb, hname, _, _, _, hsc⟩ := BEGIN_PROFILING_spec g s d h hok hf
      have hok1 : hp_tables_ok
          { g with entries := f :: g.entries, entry_free_list := g.entry_free_list.tail,
                   func_hash_counters := hp_enter_counters g (hp_inline_hash s),
                   spans := some sp, span_cache := sc } :=
        ⟨rfl, fun hns => ⟨(hok.2 hns).1, hsc (hok.2 hns).2⟩⟩
      have hfilter1 : ∀ s1 ∈ hp_entered cs,
          hp_filter_entry
            { g with entries := f :: g.entries, entry_free_list := g.entry_free_list.tail,
                     func_hash_counters := hp_enter_counters g (hp_inline_hash s),
                     spans := some sp, span_cache := sc } (hp_inline_hash s1) s1 = 0 :=
        fun s1 hs1 => hfilter s1 (by simp [hp_entered, hs1])
      have hfl1 : ∀ x ∈ (1 : Int) :: fl, x = 1 := by
        intro x hx
        rcases List.mem_cons.mp hx with rfl | hx
        · rfl
        · exact hfl x hx
      obtain ⟨g1, fl1, A1, r1, r2, r3, r4, r5, r6, r7, r8⟩ :=
        ih _ ((1 : Int) :: fl) (f :: A) S n hok1 hfilter1 hfl1
          (by simp [hA]) (by simp [hlen]) (by simpa [hp_depth] using hd)
      refine ⟨g1, fl1, A1, ?_, r2, r3, r4, r5, ?_, ?_, ?_⟩
      · simp only [hp_run, hp_step, hb, Option.map_some', Option.some_bind]
        exact r1
      · simp only [hp_trace, hp_step, hp_events, hb, Option.map_some', ne_eq, one_ne_zero,
          not_false_eq_true, if_true, List.singleton_append, lifo_replay]
        exact r6
      · simp only [hp_trace, hp_step, hp_events, hb, Option.map_some', ne_eq, one_ne_zero,
          not_false_eq_true, if_true, List.singleton_append, List.length_cons, r7]
      · simp only [hp_trace, hp_step, hp_events, hb, Option.map_some', ne_eq, one_ne_zero,
          not_false_eq_true, if_true, List.singleton_append, hp_pushed_names, hp_entered, r8,
          hname]
    | leave h =>
      obtain ⟨d1, hd1, hd2⟩ := hp_depth_leave_pos _ _ _ _ hd
      cases fl with
      | nil => simp at hd1
      | cons flag fl0 =>
        have hflag : flag = 1 := hfl flag (by simp)
        subst hflag
        cases A with
        | nil => simp at hlen
        | cons top A0 =>
          have he : g.entries = top :: (A0 ++ S) := by simpa using hA
          obtain ⟨sp, hend⟩ := END_PROFILING_spec g h top (A0 ++ S) hok he
          have hok1 : hp_tables_ok
              { g with entries := A0 ++ S, entry_free_list := top :: g.entry_free_list,
                       spans := some sp, stats_count := hp_leave_stats g h,
                       func_hash_counters := hp_leave_counters g } :=
            ⟨rfl, fun hns => hok.2 hns⟩
          have hlen0 : fl0.length = d1 := by simp at hd1; omega
          obtain ⟨g1, fl1, A1, r1, r2, r3, r4, r5, r6, r7, r8⟩ :=
            ih _ fl0 A0 S n hok1 (fun s1 hs1 => hfilter s1 (by simpa [hp_entered] using hs1))
              (fun x hx => hfl x (by simp [hx])) rfl (by simp at hlen; omega)
              (by rw [hlen0]; exact hd2)
          have hne : ¬ g.entries = [] := by rw [he]; simp
          refine ⟨g1, fl1, A1, ?_, r2, r3, r4, r5, ?_, ?_, ?_⟩
          · simp only [hp_run, hp_step, hne, if_false, hend, Option.map_some', Option.some_bind]
            exact r1
          · simp only [hp_trace, hp_step, hp_events, hne, if_false, hend, Option.map_some',
              one_ne_zero, or_self, List.singleton_append]
            rw [he]
            simp only [lifo_replay, if_true]
            exact r6
          · simp only [hp_trace, hp_step, hp_events, hne, if_false, hend, Option.map_some',
              one_ne_zero, or_self, List.singleton_append, List.length_cons, r7]
          · simp only [hp_trace, hp_step, hp_events, hne, if_false, hend, Option.map_some',
              one_ne_zero, or_self, List.singleton_append, hp_pushed_names, hp_entered, r8]

/-- C1: for a sequence of enters and leaves in which no leave comes without
an open call, on symbols that pass the filter, run on a session whose call
stack is `S`: the run succeeds, every call pushes or releases one frame, the
pushed frames carry the entered symbols, every released frame is the frame
on top at that moment (the LIFO replay of the events accepts and ends in the
final stack), the final stack is `S` under one frame per open call; it is
`S` again when the sequence is well nested, and from the empty stack it is
empty exactly when no call is open. -/
theorem hp_call_stack_lifo (g : hp_global_t) (ops : List hp_call) (n : Nat)
    (hok : hp_tables_ok g)
    (hfilter : ∀ s ∈ hp_entered ops, hp_filter_entry g (hp_inline_hash s) s = 0)
    (hd : hp_depth 0 ops = some n) :
    ∃ (g1 : hp_global_t) (fl1 : List Int) (A : List hp_entry_t),
      hp_run g [] ops = some (g1, fl1) ∧
      (hp_trace g [] ops).length = ops.length ∧
      hp_pushed_names (hp_trace g [] ops) = hp_entered ops ∧
      lifo_replay g.entries (hp_trace g [] ops) = some g1.entries ∧
      g1.entries = A ++ g.entries ∧ A.length = n ∧
      (n = 0 → g1.entries = g.entries) ∧
      (g.entries = [] → (g1.entries = [] ↔ n = 0)) := by
  obtain ⟨g1, fl1, A1, r1, _, r3, r4, _, r6, r7, r8⟩ :=
    hp_run_lifo_gen ops g [] [] g.entries n hok hfilter (by simp) rfl rfl hd
  refine ⟨g1, fl1, A1, r1, r7, r8, r6, r3, r4, ?_, ?_⟩
  · intro hn
    have : A1 = [] := List.length_eq_zero.mp (by omega)
    rw [r3, this]; rfl
  · intro hS
    rw [r3, hS, List.append_nil]
    constructor
    · intro hA; rw [← r4, hA]; rfl
    · intro hn; exact List.length_eq_zero.mp (by omega)

theorem hp_begin_session0 :
    hp_begin hp_globals_minit 0 [] (fun _ => host_at 0) = some hp_session0 := by
  rfl

theorem hp_session0_tables_ok : hp_tables_ok hp_session0 :=
  ⟨rfl, fun _ => ⟨rfl, rfl⟩⟩

theorem hp_session0_no_filter (s : CStr) : hp_filter_entry hp_session0 (hp_inline_hash s) s = 0 := by
  rfl

theorem hp_call_stack_lifo_witness :
    ∃ (g1 : hp_global_t) (fl1 : List Int) (A : List hp_entry_t),
      hp_run hp_session0 []
          [.enter "foo".toList (some no_args) (host_at 10),
           .enter "bar".toList (some no_args) (host_at 20),
           .leave (host_at 30), .leave (host_at 40)] = some (g1, fl1) ∧
      (hp_trace hp_session0 []
          [.enter "foo".toList (some no_args) (host_at 10),
           .enter "bar".toList (some no_args) (host_at 20),
           .leave (host_at 30), .leave (host_at 40)]).length = 4 ∧
      hp_pushed_names (hp_trace hp_session0 []
          [.enter "foo".toList (some no_args) (host_at 10),
           .enter "bar".toList (some no_args) (host_at 20),
           .leave (host_at 30), .leave (host_at 40)]) = ["foo".toList, "bar".toList] ∧
      lifo_replay hp_session0.entries (hp_trace hp_session0 []
          [.enter "foo".toList (some no_args) (host_at 10),
           .enter "bar".toList (some no_args) (host_at 20),
           .leave (host_at 30), .leave (host_at 40)]) = some g1.entries ∧
      g1.entries = A ++ hp_session0.entries ∧ A.length = 0 ∧
      (0 = 0 → g1.entries = hp_session0.entries) ∧
      (hp_session0.entries = [] → (g1.entries = [] ↔ 0 = 0)) :=
  hp_call_stack_lifo hp_session0
    [.enter "foo".toList (some no_args) (host_at 10),
     .enter "bar".toList (some no_args) (host_at 20),
     .leave (host_at 30), .leave (host_at 40)] 0
    hp_session0_tables_ok (fun s _ => hp_session0_no_filter s) rfl

theorem hp_enter_counters_self (g : hp_global_t) (hc : Nat)
    (hh : g.tideways_flags &&& TIDEWAYS_FLAGS_NO_HIERACHICAL = 0) :
    hp_enter_counters g hc hc = (g.func_hash_counters hc + 1) % 256 := by
  simp [hp_enter_counters, hh]

theorem hp_run_append (a b : List hp_call) :
    ∀ (g : hp_global_t) (fl : List Int),
      hp_run g fl (a ++ b) = (hp_run g fl a).bind (fun r => hp_run r.1 r.2 b) := by
  induction a with
  | nil => intro g fl; rfl
  | cons c cs ih =>
    intro g fl
    show (hp_step g fl c).bind (fun r => hp_run r.1 r.2 (cs ++ b))
      = ((hp_step g fl c).bind (fun r => hp_run r.1 r.2 cs)).bind (fun r => hp_run r.1 r.2 b)
    cases hp_step g fl c with
    | none => rfl
    | some r => exact ih r.1 r.2

/-- Nested calls of one symbol, while the `uint8` bucket counter is not zero
before a call: each call gets the level of the call around it plus one. -/
theorem hp_run_nested_same (s : CStr) (d : Option zend_execute_data) (h : host_t) (k : Nat) :
    ∀ (g : hp_global_t) (fl : List Int) (f : hp_entry_t) (rest : List hp_entry_t),
      hp_tables_ok g → g.tideways_flags &&& TIDEWAYS_FLAGS_NO_HIERACHICAL = 0 →
      hp_filter_entry g (hp_inline_hash s) s = 0 →
      g.entries = f :: rest → f.name_hprof = s →
      0 < g.func_hash_counters (hp_inline_hash s) →
      g.func_hash_counters (hp_inline_hash s) < 256 →
      g.func_hash_counters (hp_inline_hash s) + k ≤ 256 →
      ∃ (g1 : hp_global_t) (fl1 : List Int) (f1 : hp_entry_t) (rest1 : List hp_entry_t),
        hp_run g fl (List.replicate k (hp_call.enter s d h)) = some (g1, fl1) ∧
        g1.entries = f1 :: rest1 ∧ f1.name_hprof = s ∧
        f1.rlvl_hprof = f.rlvl_hprof + (k : Int) ∧
        g1.func_hash_counters (hp_inline_hash s)
          = (g.func_hash_counters (hp_inline_hash s) + k) % 256 ∧
        hp_tables_ok g1 ∧ g1.tideways_flags = g.tideways_flags ∧
        hp_filter_entry g1 (hp_inline_hash s) s = 0 := by
  induction k with
  | zero =>
    intro g fl f rest hok hh hf he hn _ hlt hle
    exact ⟨g, fl, f, rest, rfl, he, hn, by simp,
      by rw [Nat.add_zero, Nat.mod_eq_of_lt (by omega)], hok, rfl, hf⟩
  | succ k ih =>
    intro g fl f rest hok hh hf he hn hpos hlt hle
    obtain ⟨f1, sp, sc, hb, hname, _, _, hlvl, hsc⟩ := BEGIN_PROFILING_spec g s d h hok hf
    have hcnt := hp_enter_counters_self g (hp_inline_hash s) hh
    have hlvl1 : f1.rlvl_hprof = f.rlvl_hprof + 1 := by
      rw [hlvl hh]
      simp [hp_enter_level, hpos, he, hp_scan_recurse_level, hn]
    have hok1 : hp_tables_ok
        { g with entries := f1 :: g.entries, entry_free_list := g.entry_free_list.tail,
                 func_hash_counters := hp_enter_counters g (hp_inline_hash s),
                 spans := some sp, span_cache := sc } :=
      ⟨rfl, fun hns => ⟨(hok.2 hns).1, hsc (hok.2 hns).2⟩⟩
    cases k with
    | zero =>
      refine ⟨_, (1 : Int) :: fl, f1, g.entries, ?_, rfl, hname, ?_, ?_, hok1, rfl, hf⟩
      · simp only [List.replicate_succ, List.replicate_zero, hp_run, hp_step, hb,
          Option.map_some', Option.some_bind]
      · rw [hlvl1]; simp
      · simp only [hcnt]
    | succ k0 =>
      rw [Nat.mod_eq_of_lt (by omega)] at hcnt
      obtain ⟨g2, fl2, f2, rest2, r1, r2, r3, r4, r5, r6, r7, r8⟩ :=
        ih { g with entries := f1 :: g.entries, entry_free_list := g.entry_free_list.tail,
                    func_hash_counters := hp_enter_counters g (hp_inline_hash s),
                    spans := some sp, span_cache := sc }
          ((1 : Int) :: fl) f1 g.entries hok1 hh hf rfl hname
          (by simp only [hcnt]; omega) (by simp only [hcnt]; omega)
          (by simp only [hcnt]; omega)
      refine ⟨g2, fl2, f2, rest2, ?_, r2, r3, ?_, ?_, r6, r7, r8⟩
      · rw [List.replicate_succ]
        simp only [hp_run, hp_step, hb, Option.map_some', Option.some_bind]
        exact r1
      · rw [r4, hlvl1]; push_cast; ring
      · rw [r5]; simp only [hcnt]
        congr 1; omega

/-- From a bucket counter of zero, the `k`-th of `k ≤ 256` directly nested
calls of one symbol gets recursion level `k - 1`; the counter is then
`k mod 256`. -/
theorem hp_run_nested_level (s : CStr) (d : Option zend_execute_data) (h : host_t)
    (g : hp_global_t) (fl : List Int) (k : Nat)
    (hok : hp_tables_ok g) (hh : g.tideways_flags &&& TIDEWAYS_FLAGS_NO_HIERACHICAL = 0)
    (hf : hp_filter_entry g (hp_inline_hash s) s = 0)
    (hzero : g.func_hash_counters (hp_inline_hash s) = 0) (hk1 : 1 ≤ k) (hk : k ≤ 256) :
    ∃ (g1 : hp_global_t) (fl1 : List Int) (f1 : hp_entry_t) (rest1 : List hp_entry_t),
      hp_run g fl (List.replicate k (hp_call.enter s d h)) = some (g1, fl1) ∧
      g1.entries = f1 :: rest1 ∧ f1.name_hprof = s ∧
      f1.rlvl_hprof = (k : Int) - 1 ∧
      g1.func_hash_counters (hp_inline_hash s) = k % 256 ∧
      hp_tables_ok g1 ∧ g1.tideways_flags = g.tideways_flags ∧
      hp_filter_entry g1 (hp_inline_hash s) s = 0 := by
  obtain ⟨k0, rfl⟩ : ∃ k0, k = k0 + 1 := ⟨k - 1, by omega⟩
  obtain ⟨f1, sp, sc, hb, hname, _, _, hlvl, hsc⟩ := BEGIN_PROFILING_spec g s d h hok hf
  have hcnt := hp_enter_counters_self g (hp_inline_hash s) hh
  rw [hzero] at hcnt
  have hlvl1 : f1.rlvl_hprof = 0 := by
    rw [hlvl hh]
    simp [hp_enter_level, hzero]
  obtain ⟨g2, fl2, f2, rest2, r1, r2, r3, r4, r5, r6, r7, r8⟩ :=
    hp_run_nested_same s d h k0
      { g with entries := f1 :: g.entries, entry_free_list := g.entry_free_list.tail,
               func_hash_counters := hp_enter_counters g (hp_inline_hash s),
               spans := some sp, span_cache := sc }
      ((1 : Int) :: fl) f1 g.entries
      ⟨rfl, fun hns => ⟨(hok.2 hns).1, hsc (hok.2 hns).2⟩⟩ hh hf rfl hname
      (by simp only [hcnt]; decide) (by simp only [hcnt]; decide)
      (by simp only [hcnt]; omega)
  refine ⟨g2, fl2, f2, rest2, ?_, r2, r3, ?_, ?_, r6, r7, r8⟩
  · rw [List.replicate_succ]
    simp only [hp_run, hp_step, hb, Option.map_some', Option.some_bind]
    exact r1
  · rw [r4, hlvl1]; push_cast; ring
  · rw [r5]; simp only [hcnt]
    congr 1; omega

/-- C2 (the code at the failing input): in the session right after
`hp_begin` with flags 0, after 257 directly nested calls of `foo` the frame
of the 257th call has recursion level 0, not 256; the frame of the 256th
call below it has level 255. -/
theorem hp_nested_257_level_zero :
    ∃ (g1 : hp_global_t) (fl1 : List Int) (f1 f2 : hp_entry_t) (rest : List hp_entry_t),
      hp_run hp_session0 []
          (List.replicate 257 (hp_call.enter "foo".toList (some no_args) (host_at 1)))
        = some (g1, fl1) ∧
      g1.entries = f1 :: f2 :: rest ∧
      f1.name_hprof = "foo".toList ∧ f1.rlvl_hprof = 0 ∧
      f2.name_hprof = "foo".toList ∧ f2.rlvl_hprof = 255 := by
  obtain ⟨g2, fl2, f2, rest2, r1, r2, r3, r4, r5, r6, r7, r8⟩ :=
    hp_run_nested_level "foo".toList (some no_args) (host_at 1) hp_session0 [] 256
      hp_session0_tables_ok rfl (hp_session0_no_filter _) rfl (by decide) (by decide)
  have hh : g2.tideways_flags &&& TIDEWAYS_FLAGS_NO_HIERACHICAL = 0 := by rw [r7]; rfl
  obtain ⟨f1, sp, sc, hb, hname, _, _, hlvl, _⟩ :=
    BEGIN_PROFILING_spec g2 "foo".toList (some no_args) (host_at 1) r6 r8
  have hrun : hp_run hp_session0 []
        (List.replicate 257 (hp_call.enter "foo".toList (some no_args) (host_at 1)))
      = some ({ g2 with entries := f1 :: g2.entries,
                        entry_free_list := g2.entry_free_list.tail,
                        func_hash_counters := hp_enter_counters g2 (hp_inline_hash "foo".toList),
                        spans := some sp, span_cache := sc }, (1 : Int) :: fl2) := by
    have h257 : List.replicate 257 (hp_call.enter "foo".toList (some no_args) (host_at 1))
        = List.replicate 256 (hp_call.enter "foo".toList (some no_args) (host_at 1))
          ++ [hp_call.enter "foo".toList (some no_args) (host_at 1)] := by
      rw [← List.replicate_succ']
    rw [h257, hp_run_append, r1]
    simp only [Option.some_bind, hp_run, hp_step, hb, Option.map_some']
  refine ⟨_, _, f1, f2, rest2, hrun, ?_, hname, ?_, r3, ?_⟩
  · simp only [r2]
  · rw [hlvl hh]
    unfold hp_enter_level
    rw [r5]
    exact if_neg (by decide)
  · rw [r4]; norm_num

/-! ## Names in the scratch buffer -/

theorem poke_append_cons (s t : List Char) (c0 c : Char) :
    poke (s ++ c0 :: t) s.length c = s ++ c :: t := by
  unfold poke
  have hlt : s.length < (s ++ c0 :: t).length := by simp
  rw [if_pos hlt, List.set_append_right _ _ (Nat.le_refl _)]
  simp

theorem poke_bytes_zero (t : List Char) :
    ∀ (s : List Char) (k : Nat), t.length ≤ k →
      poke_bytes (s ++ List.replicate k NUL) s.length t
        = s ++ t ++ List.replicate (k - t.length) NUL := by
  induction t with
  | nil => intro s k _; simp [poke_bytes]
  | cons c cs ih =>
    intro s k hk
    obtain ⟨k0, rfl⟩ : ∃ k0, k = k0 + 1 := ⟨k - 1, by simp at hk; omega⟩
    simp only [poke_bytes, List.replicate_succ, poke_append_cons]
    have h1 : s ++ c :: List.replicate k0 NUL = (s ++ [c]) ++ List.replicate k0 NUL := by simp
    have h2 : s.length + 1 = (s ++ [c]).length := by simp
    rw [h1, h2, ih (s ++ [c]) k0 (by simp at hk; omega)]
    simp

theorem poke_zero_tail (s : List Char) (k j : Nat) (hj : j < k) :
    poke (s ++ List.replicate k NUL) (s.length + j) NUL = s ++ List.replicate k NUL := by
  have hk : List.replicate k NUL
      = List.replicate j NUL ++ NUL :: List.replicate (k - j - 1) NUL := by
    rw [← List.replicate_succ, ← List.replicate_add]
    congr 1; omega
  have h1 : s ++ List.replicate k NUL
      = (s ++ List.replicate j NUL) ++ NUL :: List.replicate (k - j - 1) NUL := by
    rw [List.append_assoc, ← hk]
  have h2 : s.length + j = (s ++ List.replicate j NUL).length := by simp
  rw [h1, h2, poke_append_cons]

theorem c_string_at_end (s t : List Char) (k : Nat) (ht : nul_free t) :
    c_string (s ++ t ++ List.replicate k NUL) s.length = t := by
  unfold c_string
  rw [List.append_assoc, List.drop_left]
  rw [List.takeWhile_append_of_pos (fun a ha => by simpa using ht a ha)]
  cases k with
  | zero => simp
  | succ k0 => simp [List.replicate_succ]

theorem c_string_at_zero (t : List Char) (k : Nat) (ht : nul_free t) :
    c_string (t ++ List.replicate k NUL) 0 = t := by
  have := c_string_at_end [] t k ht
  simpa using this

theorem c_strncat_zero (s src : List Char) (k n : Nat) (hn : src.length ≤ n)
    (hk : src.length + 1 ≤ k) :
    c_strncat (s ++ List.replicate k NUL) s.length src n
      = s ++ src ++ List.replicate (k - src.length) NUL := by
  unfold c_strncat c_strlen
  have h0 : c_string (s ++ List.replicate k NUL) s.length = [] := by
    have := c_string_at_end s [] k (by intro c hc; simp at hc)
    simpa using this
  simp only [h0, List.length_nil, Nat.add_zero, List.take_of_length_le hn]
  rw [poke_bytes_zero src s k (by omega)]
  have h2 : s.length + src.length = (s ++ src).length + 0 := by simp
  rw [h2, poke_zero_tail (s ++ src) (k - src.length) 0 (by omega)]

theorem c_snprintf_zero (s text : List Char) (k size : Nat) (hsize : text.length + 1 ≤ size)
    (hk : text.length + 1 ≤ k) :
    c_snprintf (s ++ List.replicate k NUL) s.length size text
      = s ++ text ++ List.replicate (k - text.length) NUL := by
  unfold c_snprintf
  have hs : ¬ size = 0 := by omega
  rw [if_neg hs, List.take_of_length_le (by omega)]
  rw [poke_bytes_zero text s k (by omega)]
  have h2 : s.length + text.length = (s ++ text).length + 0 := by simp
  rw [h2, poke_zero_tail (s ++ text) (k - text.length) 0 (by omega)]

theorem digitChar_ne_nul : ∀ n : Nat, n < 10 → Nat.digitChar n ≠ NUL := by
  decide

theorem toDigitsCore_nul_free (fuel : Nat) :
    ∀ (n : Nat) (acc : List Char), nul_free acc → nul_free (Nat.toDigitsCore 10 fuel n acc) := by
  induction fuel with
  | zero => intro n acc h; simpa [Nat.toDigitsCore] using h
  | succ fuel ih =>
    intro n acc h
    have hcons : nul_free (Nat.digitChar (n % 10) :: acc) := by
      intro c hc
      rcases List.mem_cons.mp hc with rfl | hc
      · exact digitChar_ne_nul _ (Nat.mod_lt _ (by decide))
      · exact h c hc
    unfold Nat.toDigitsCore
    simp only
    split
    · exact hcons
    · exact ih _ _ hcons

theorem decimal_nul_free (n : Int) : nul_free (decimal n) := by
  have h : nul_free (Nat.toDigits 10 n.natAbs) :=
    toDigitsCore_nul_free _ _ [] (by intro c hc; simp at hc)
  unfold decimal
  split
  · intro c hc
    rcases List.mem_cons.mp hc with rfl | hc
    · decide
    · exact h c hc
  · exact h

theorem hp_entry_label_nul_free (e : hp_entry_t) (hn : nul_free e.name_hprof) :
    nul_free (hp_entry_label e) := by
  unfold hp_entry_label
  split
  · intro c hc
    rcases List.mem_append.mp hc with hc | hc
    · exact hn c hc
    · rcases List.mem_cons.mp hc with rfl | hc
      · decide
      · exact decimal_nul_free _ c hc
  · exact hn

theorem hp_get_entry_name_zero (e : hp_entry_t) (s : List Char) (k : Nat)
    (hn : nul_free e.name_hprof) (hk : (hp_entry_label e).length + 1 ≤ k) :
    hp_get_entry_name e (s ++ List.replicate k NUL) s.length k
      = (s ++ hp_entry_label e ++ List.replicate (k - (hp_entry_label e).length) NUL,
         (hp_entry_label e).length) := by
  have hlab := hp_entry_label_nul_free e hn
  unfold hp_get_entry_name
  by_cases hk1 : k ≤ 1
  · have h0 : hp_entry_label e = [] := List.length_eq_zero.mp (by omega)
    rw [if_pos hk1, h0]
    simp
  · rw [if_neg hk1]
    have hmem1 : (if e.rlvl_hprof ≠ 0 then
          c_snprintf (s ++ List.replicate k NUL) s.length k
            (e.name_hprof ++ '@' :: decimal e.rlvl_hprof)
        else c_strncat (s ++ List.replicate k NUL) s.length e.name_hprof k)
        = s ++ hp_entry_label e ++ List.replicate (k - (hp_entry_label e).length) NUL := by
      by_cases hr : e.rlvl_hprof ≠ 0
      · have hl : hp_entry_label e = e.name_hprof ++ '@' :: decimal e.rlvl_hprof := by
          simp [hp_entry_label, hr]
        rw [if_pos hr, ← hl]
        exact c_snprintf_zero s _ k k hk hk
      · have hl : hp_entry_label e = e.name_hprof := by
          simp only [hp_entry_label, if_neg hr]
        rw [if_neg hr, ← hl]
        exact c_strncat_zero s _ k k (by omega) hk
    simp only [hmem1]
    have hidx : s.length + (k - 1)
        = (s ++ hp_entry_label e).length + (k - 1 - (hp_entry_label e).length) := by
      simp; omega
    rw [hidx, poke_zero_tail (s ++ hp_entry_label e) _ _ (by omega)]
    unfold c_strlen
    rw [c_string_at_end s _ _ hlab]

theorem hp_get_function_stack_level_one (p : hp_entry_t) (rest : List hp_entry_t)
    (mem : List Char) (n : Nat) :
    hp_get_function_stack (p :: rest) 1 mem n = hp_get_entry_name p mem 0 n := by
  cases rest with
  | nil => rfl
  | cons q rest => simp [hp_get_function_stack]

theorem hp_qualified_name_bottom (e : hp_entry_t) (hn : nul_free e.name_hprof)
    (hfit : (hp_entry_label e).length ≤ 511) :
    hp_qualified_name [e] = hp_entry_label e := by
  unfold hp_qualified_name
  simp only [hp_get_function_stack, SCRATCH_BUF_LEN]
  have h := hp_get_entry_name_zero e [] 512 hn (by omega)
  simp only [List.nil_append, List.length_nil] at h
  rw [h]
  exact c_string_at_zero _ _ (hp_entry_label_nul_free e hn)

theorem hp_stack_delim_nul_free : nul_free HP_STACK_DELIM := by decide

theorem hp_qualified_name_parent (e p : hp_entry_t) (rest : List hp_entry_t)
    (hne : nul_free e.name_hprof) (hnp : nul_free p.name_hprof)
    (hp0 : hp_entry_label p ≠ [])
    (hfit : (hp_entry_label p).length + 3 + (hp_entry_label e).length ≤ 511) :
    hp_qualified_name (e :: p :: rest)
      = hp_entry_label p ++ HP_STACK_DELIM ++ hp_entry_label e := by
  unfold hp_qualified_name
  simp only [hp_get_function_stack, SCRATCH_BUF_LEN, HP_STACK_DELIM_LEN]
  have hlev : ¬ ((2 : Int) ≤ 1) := by decide
  rw [if_neg hlev]
  have h21 : (2 : Int) - 1 = 1 := by decide
  rw [h21, hp_get_function_stack_level_one]
  have hpn := hp_get_entry_name_zero p [] 512 hnp (by omega)
  simp only [List.nil_append, List.length_nil] at hpn
  rw [hpn]
  simp only
  have hlt : ¬ (512 < (hp_entry_label p).length + 3) := by omega
  rw [if_neg hlt]
  have hlen0 : (hp_entry_label p).length ≠ 0 := by
    intro h0; exact hp0 (List.length_eq_zero.mp h0)
  rw [if_pos hlen0]
  simp only
  have hcat := c_strncat_zero (hp_entry_label p) HP_STACK_DELIM
    (512 - (hp_entry_label p).length) (512 - (hp_entry_label p).length)
    (by simp [HP_STACK_DELIM]; omega) (by simp [HP_STACK_DELIM]; omega)
  rw [hcat]
  have hdl : HP_STACK_DELIM.length = 3 := rfl
  have hk : 512 - (hp_entry_label p).length - HP_STACK_DELIM.length
      = 512 - ((hp_entry_label p).length + 3) := by rw [hdl]; omega
  have hoff : (hp_entry_label p).length + 3 = (hp_entry_label p ++ HP_STACK_DELIM).length := by
    simp [hdl]
  rw [hk]
  have hen := hp_get_entry_name_zero e (hp_entry_label p ++ HP_STACK_DELIM)
    (512 - ((hp_entry_label p).length + 3)) hne (by omega)
  rw [← hoff] at hen
  rw [hen]
  simp only
  apply c_string_at_zero
  intro c hc
  rcases List.mem_append.mp hc with hc | hc
  · rcases List.mem_append.mp hc with hc | hc
    · exact hp_entry_label_nul_free p hnp c hc
    · exact hp_stack_delim_nul_free c hc
  · exact hp_entry_label_nul_free e hne c hc

theorem hp_qualified_name_parent_empty (e p : hp_entry_t) (rest : List hp_entry_t)
    (hne : nul_free e.name_hprof)
    (hp0 : hp_entry_label p = [])
    (hfit : (hp_entry_label e).length ≤ 511) :
    hp_qualified_name (e :: p :: rest) = hp_entry_label e := by
  have hnp : nul_free p.name_hprof := by
    have hname : p.name_hprof = [] := by
      unfold hp_entry_label at hp0
      split at hp0
      · simp at hp0
      · exact hp0
    rw [hname]; intro c hc; simp at hc
  unfold hp_qualified_name
  simp only [hp_get_function_stack, SCRATCH_BUF_LEN, HP_STACK_DELIM_LEN]
  have hlev : ¬ ((2 : Int) ≤ 1) := by decide
  rw [if_neg hlev]
  have h21 : (2 : Int) - 1 = 1 := by decide
  rw [h21, hp_get_function_stack_level_one]
  have hpn := hp_get_entry_name_zero p [] 512 hnp (by rw [hp0]; simp)
  simp only [List.nil_append, List.length_nil, hp0, Nat.sub_zero] at hpn
  rw [hpn]
  simp only [Nat.zero_add, ne_eq, not_true_eq_false, if_false, Nat.sub_zero]
  have hlt : ¬ (512 < 3) := by decide
  rw [if_neg hlt]
  have hen := hp_get_entry_name_zero e [] 512 hne (by omega)
  simp only [List.nil_append, List.length_nil] at hen
  rw [hen]
  exact c_string_at_zero _ _ (hp_entry_label_nul_free e hne)

/-! ## Statistics -/

theorem hp_inc_count_find_self (counts : HashTable CStr Int) (name : CStr) (v : Int) :
    zend_hash_find (hp_inc_count counts name v) name
      = some ((zend_hash_find counts name).getD 0 + v) := by
  unfold hp_inc_count
  cases hf : zend_hash_find counts name with
  | none => simp [zend_hash_find_update_self]
  | some v0 => simp [zend_hash_find_modify_self, hf]

theorem hp_inc_count_find_other (counts : HashTable CStr Int) (name name2 : CStr) (v : Int)
    (hne : name2 ≠ name) :
    zend_hash_find (hp_inc_count counts name v) name2 = zend_hash_find counts name2 := by
  unfold hp_inc_count
  cases hf : zend_hash_find counts name with
  | none => simp [zend_hash_find_update_other _ _ _ _ hne]
  | some v0 => simp [zend_hash_find_modify_other _ _ _ _ hne]

theorem endfn_bump_ct (g : hp_global_t) (top : hp_entry_t) (h : host_t)
    (counts : HashTable CStr Int) :
    zend_hash_find (endfn_bump g top h counts) "ct".toList
      = some ((zend_hash_find counts "ct".toList).getD 0 + 1) := by
  have hwt : "ct".toList ≠ "wt".toList := by decide
  have hcpu : "ct".toList ≠ "cpu".toList := by decide
  have hmu : "ct".toList ≠ "mu".toList := by decide
  have hpmu : "ct".toList ≠ "pmu".toList := by decide
  unfold endfn_bump
  simp only
  split <;> split <;>
    simp only [hp_inc_count_find_other _ _ _ _ hwt, hp_inc_count_find_other _ _ _ _ hcpu,
      hp_inc_count_find_other _ _ _ _ hmu, hp_inc_count_find_other _ _ _ _ hpmu,
      hp_inc_count_find_self]

theorem ct_add_zero (b : Option Int) : ct_add b 0 = b := by simp [ct_add]

theorem ct_add_add (b : Option Int) (c1 c2 : Nat) :
    ct_add (ct_add b c1) c2 = ct_add b (c1 + c2) := by
  unfold ct_add
  by_cases h1 : c1 = 0 <;> by_cases h2 : c2 = 0 <;> simp [h1, h2]
  all_goals omega

/-- The counter `ct` of every name after one frame has been folded into the
statistics. -/
theorem hp_leave_stats_ct (g : hp_global_t) (h : host_t) (top : hp_entry_t)
    (rest : List hp_entry_t) (st : StatsTable) (q : CStr)
    (he : g.entries = top :: rest)
    (hh : g.tideways_flags &&& TIDEWAYS_FLAGS_NO_HIERACHICAL = 0)
    (hst : g.stats_count = some st) :
    (∃ st1, hp_leave_stats g h = some st1) ∧
    hp_stats_ct (hp_leave_stats g h) q
      = ct_add (hp_stats_ct g.stats_count q)
          (if q = hp_qualified_name g.entries then 1 else 0) := by
  have hh2 : ¬ (g.tideways_flags &&& TIDEWAYS_FLAGS_NO_HIERACHICAL > 0) := by omega
  unfold hp_leave_stats
  rw [he] at *
  simp only [if_neg hh2, hst, hp_hash_lookup]
  cases hf : zend_hash_find st (hp_qualified_name (top :: rest)) with
  | some counts =>
    refine ⟨⟨_, rfl⟩, ?_⟩
    simp only [hp_stats_ct, Option.some_bind]
    by_cases hq : q = hp_qualified_name (top :: rest)
    · subst hq
      rw [zend_hash_find_modify_self, hf]
      simp only [Option.map_some', Option.some_bind, endfn_bump_ct, if_true, ct_add,
        one_ne_zero, if_false, Option.getD_some, Nat.cast_one]
    · rw [zend_hash_find_modify_other _ _ _ _ hq]
      simp [hq, ct_add]
  | none =>
    refine ⟨⟨_, rfl⟩, ?_⟩
    simp only [hp_stats_ct, Option.some_bind]
    by_cases hq : q = hp_qualified_name (top :: rest)
    · subst hq
      rw [zend_hash_find_modify_self, zend_hash_find_update_self, hf]
      simp only [Option.map_some', Option.some_bind, endfn_bump_ct, if_true, ct_add,
        one_ne_zero, if_false, Option.none_bind, Option.getD_none, Nat.cast_one]
      rfl
    · rw [zend_hash_find_modify_other _ _ _ _ hq, zend_hash_find_update_other _ _ _ _ hq]
      simp [hq, ct_add]

theorem BEGIN_PROFILING_filtered (g : hp_global_t) (s : CStr) (d : Option zend_execute_data)
    (h : host_t) (hf : hp_filter_entry g (hp_inline_hash s) s ≠ 0) :
    BEGIN_PROFILING g s d h = some (g, 0) := by
  unfold BEGIN_PROFILING
  simp [hf]

theorem END_PROFILING_flag (g : hp_global_t) (flag : Int) (h : host_t) (hflag : flag ≠ 0) :
    END_PROFILING g flag h = END_PROFILING g 1 h := by
  unfold END_PROFILING
  simp [hflag]

theorem END_PROFILING_zero (g : hp_global_t) (h : host_t) : END_PROFILING g 0 h = some g := by
  unfold END_PROFILING
  simp

theorem count_singleton_if (q name : CStr) :
    List.count q [name] = if q = name then 1 else 0 := by
  by_cases hq : q = name
  · subst hq; simp
  · have : ¬ name = q := fun h => hq h.symm
    simp [hq, List.count_cons, this]

theorem hp_run_ct_gen (ops : List hp_call) :
    ∀ (g : hp_global_t) (fl : List Int) (n : Nat),
      hp_session_inv g → hp_depth fl.length ops = some n →
      ∃ (g1 : hp_global_t) (fl1 : List Int),
        hp_run g fl ops = some (g1, fl1) ∧ hp_session_inv g1 ∧
        ∀ q, hp_stats_ct g1.stats_count q
          = ct_add (hp_stats_ct g.stats_count q) ((hp_completed g fl ops).count q) := by
  induction ops with
  | nil =>
    intro g fl n hinv _
    exact ⟨g, fl, rfl, hinv, fun q => by simp [hp_completed, ct_add]⟩
  | cons c cs ih =>
    intro g fl n hinv hd
    obtain ⟨hok, hh, st, hst⟩ := hinv
    cases c with
    | enter s d h =>
      have hd1 : hp_depth ((0 : Int) :: fl).length cs = some n := by
        simpa [hp_depth] using hd
      by_cases hf : hp_filter_entry g (hp_inline_hash s) s = 0
      · obtain ⟨f, sp, sc, hb, _, _, _, _, hsc⟩ := BEGIN_PROFILING_spec g s d h hok hf
        obtain ⟨g1, fl1, r1, r2, r3⟩ :=
          ih { g with entries := f :: g.entries, entry_free_list := g.entry_free_list.tail,
                      func_hash_counters := hp_enter_counters g (hp_inline_hash s),
                      spans := some sp, span_cache := sc }
            ((1 : Int) :: fl) n
            ⟨⟨rfl, fun hns => ⟨(hok.2 hns).1, hsc (hok.2 hns).2⟩⟩, hh, st, hst⟩ hd1
        refine ⟨g1, fl1, ?_, r2, ?_⟩
        · simp only [hp_run, hp_step, hb, Option.map_some', Option.some_bind]
          exact r1
        · intro q
          rw [r3 q]
          simp only [hp_completed, hp_step, hb, Option.map_some', hp_closed, List.nil_append]
      · have hb := BEGIN_PROFILING_filtered g s d h hf
        obtain ⟨g1, fl1, r1, r2, r3⟩ := ih g ((0 : Int) :: fl) n ⟨hok, hh, st, hst⟩ hd1
        refine ⟨g1, fl1, ?_, r2, ?_⟩
        · simp only [hp_run, hp_step, hb, Option.map_some', Option.some_bind]
          exact r1
        · intro q
          rw [r3 q]
          simp only [hp_completed, hp_step, hb, Option.map_some', hp_closed, List.nil_append]
    | leave h =>
      obtain ⟨d1, hd1, hd2⟩ := hp_depth_leave_pos _ _ _ _ hd
      cases fl with
      | nil => simp at hd1
      | cons flag fl0 =>
        have hlen0 : fl0.length = d1 := by simp at hd1; omega
        rw [← hlen0] at hd2
        by_cases hempty : g.entries = []
        · obtain ⟨g1, fl1, r1, r2, r3⟩ := ih g fl0 n ⟨hok, hh, st, hst⟩ hd2
          refine ⟨g1, fl1, ?_, r2, ?_⟩
          · simp only [hp_run, hp_step, hempty, if_true, Option.some_bind]
            exact r1
          · intro q
            rw [r3 q]
            simp only [hp_completed, hp_step, hempty, if_true, hp_closed, true_or,
              List.nil_append]
        · by_cases hflag : flag = 0
          · subst hflag
            obtain ⟨g1, fl1, r1, r2, r3⟩ := ih g fl0 n ⟨hok, hh, st, hst⟩ hd2
            refine ⟨g1, fl1, ?_, r2, ?_⟩
            · simp only [hp_run, hp_step, hempty, if_false, END_PROFILING_zero,
                Option.map_some', Option.some_bind]
              exact r1
            · intro q
              rw [r3 q]
              simp only [hp_completed, hp_step, hempty, if_false, END_PROFILING_zero,
                Option.map_some', hp_closed, or_true, if_true, List.nil_append]
          · obtain ⟨top, rest, he⟩ : ∃ top rest, g.entries = top :: rest := by
              cases hg : g.entries with
              | nil => exact absurd hg hempty
              | cons top rest => exact ⟨top, rest, rfl⟩
            obtain ⟨sp, hend⟩ := END_PROFILING_spec g h top rest hok he
            rw [← END_PROFILING_flag g flag h hflag] at hend
            obtain ⟨⟨st1, hst1⟩, hct⟩ := hp_leave_stats_ct g h top rest st
              (hp_qualified_name g.entries) he hh hst
            obtain ⟨g1, fl1, r1, r2, r3⟩ :=
              ih { g with entries := rest, entry_free_list := top :: g.entry_free_list,
                          spans := some sp, stats_count := hp_leave_stats g h,
                          func_hash_counters := hp_leave_counters g }
                fl0 n ⟨⟨rfl, fun hns => hok.2 hns⟩, hh, st1, hst1⟩ hd2
            refine ⟨g1, fl1, ?_, r2, ?_⟩
            · simp only [hp_run, hp_step, hempty, if_false, hend, Option.map_some',
                Option.some_bind]
              exact r1
            · intro q
              rw [r3 q]
              simp only [hp_completed, hp_step, hempty, if_false, hend, Option.map_some',
                hp_closed, hflag, or_self, List.count_append]
              rw [(hp_leave_stats_ct g h top rest st q he hh hst).2, ct_add_add,
                count_singleton_if]

theorem hp_stop_loop_ct (clock : Nat → host_t) (fuel : Nat) :
    ∀ (g : hp_global_t) (i : Nat), g.entries.length ≤ fuel → hp_session_inv g →
      ∃ g1 : hp_global_t,
        hp_stop_loop clock fuel i g = some (g1, i + g.entries.length) ∧
        g1.entries = [] ∧ hp_session_inv g1 ∧
        ∀ q, hp_stats_ct g1.stats_count q
          = ct_add (hp_stats_ct g.stats_count q) ((hp_stack_names g.entries).count q) := by
  induction fuel with
  | zero =>
    intro g i hlen hinv
    have he : g.entries = [] := List.length_eq_zero.mp (by omega)
    exact ⟨g, by simp [hp_stop_loop, he], he, hinv,
      fun q => by simp [he, hp_stack_names, ct_add]⟩
  | succ fuel ih =>
    intro g i hlen hinv
    cases he : g.entries with
    | nil =>
      exact ⟨g, by simp [hp_stop_loop, he], he, hinv,
        fun q => by simp [hp_stack_names, ct_add]⟩
    | cons top rest =>
      obtain ⟨hok, hh, st, hst⟩ := hinv
      obtain ⟨sp, hend⟩ := END_PROFILING_spec g (clock i) top rest hok he
      obtain ⟨⟨st1, hst1⟩, _⟩ := hp_leave_stats_ct g (clock i) top rest st
        (hp_qualified_name g.entries) he hh hst
      obtain ⟨g1, r1, r2, r3, r4⟩ :=
        ih { g with entries := rest, entry_free_list := top :: g.entry_free_list,
                    spans := some sp, stats_count := hp_leave_stats g (clock i),
                    func_hash_counters := hp_leave_counters g }
          (i + 1) (by rw [he] at hlen; simp at hlen ⊢; omega)
          ⟨⟨rfl, fun hns => hok.2 hns⟩, hh, st1, hst1⟩
      refine ⟨g1, ?_, r2, r3, ?_⟩
      · have hne : ¬ g.entries = [] := by rw [he]; simp
        simp only [hp_stop_loop, hne, if_false, hend, Option.some_bind]
        rw [r1]
        simp only [List.length_cons]
        congr 2; omega
      · intro q
        rw [r4 q]
        simp only [hp_stack_names, List.count_cons]
        rw [(hp_leave_stats_ct g (clock i) top rest st q he hh hst).2, ct_add_add, he]
        congr 1
        by_cases hq : q = hp_qualified_name (top :: rest)
        · subst hq; simp; omega
        · have : ¬ hp_qualified_name (top :: rest) = q := fun h => hq h.symm
          simp [hq, this]

theorem ct_add_none (c : Nat) :
    ct_add none c = if c = 0 then none else some (c : Int) := by
  simp [ct_add]

/-- C3: in a session with hierarchical statistics that starts with an empty
statistics table, after any sequence of enters and leaves in which no leave
comes without an open call, ended by `hp_stop`, the `ct` stored under a
qualified name is the number of frames completed under this name, by a
leave or by the forced close of `hp_stop`; a name under which no frame was
completed has no entry. -/
theorem hp_stats_ct_counts (g : hp_global_t) (ops : List hp_call) (n : Nat)
    (clock : Nat → host_t) (q : CStr)
    (hok : hp_tables_ok g)
    (hh : g.tideways_flags &&& TIDEWAYS_FLAGS_NO_HIERACHICAL = 0)
    (hst : g.stats_count = some [])
    (hd : hp_depth 0 ops = some n) :
    ∃ (g1 : hp_global_t) (fl1 : List Int) (g2 : hp_global_t),
      hp_run g [] ops = some (g1, fl1) ∧ hp_stop g1 clock = some g2 ∧ g2.entries = [] ∧
      hp_stats_ct g2.stats_count q
        = (if (hp_completed g [] ops ++ hp_stack_names g1.entries).count q = 0 then none
           else some (((hp_completed g [] ops ++ hp_stack_names g1.entries).count q : Nat) : Int))
      := by
  obtain ⟨g1, fl1, r1, r2, r3⟩ := hp_run_ct_gen ops g [] n ⟨hok, hh, [], hst⟩ hd
  obtain ⟨g2, s1, s2, s3, s4⟩ := hp_stop_loop_ct clock g1.entries.length g1 0 (Nat.le_refl _) r2
  obtain ⟨sp2, hsp2⟩ := Option.isSome_iff_exists.mp s3.1.1
  have hstop : hp_stop g1 clock
      = some { g2 with
          spans := some (hp_stop_annotate g2
            (tw_span_timer_stop sp2 g2.start_time (clock (0 + g1.entries.length)).cycle_timer 0)
            (clock (0 + g1.entries.length))),
          root := none, enabled := 0 } := by
    unfold hp_stop
    rw [s1]
    simp only [Option.some_bind, hsp2]
  refine ⟨g1, fl1, _, r1, hstop, s2, ?_⟩
  · show hp_stats_ct g2.stats_count q = _
    rw [s4 q, r3 q, ct_add_add, ← List.count_append]
    have h0 : hp_stats_ct g.stats_count q = none := by
      simp [hp_stats_ct, hst, zend_hash_find]
    rw [h0, ct_add_none]

theorem hp_stats_ct_counts_witness :
    ∃ (g1 : hp_global_t) (fl1 : List Int) (g2 : hp_global_t),
      hp_run hp_session0 []
          [.enter "foo".toList (some no_args) (host_at 10), .leave (host_at 20)]
        = some (g1, fl1) ∧
      hp_stop g1 host_at = some g2 ∧ g2.entries = [] ∧
      hp_stats_ct g2.stats_count "main()==>foo".toList
        = (if (hp_completed hp_session0 []
                [.enter "foo".toList (some no_args) (host_at 10), .leave (host_at 20)]
              ++ hp_stack_names g1.entries).count "main()==>foo".toList = 0 then none
           else some (((hp_completed hp_session0 []
                [.enter "foo".toList (some no_args) (host_at 10), .leave (host_at 20)]
              ++ hp_stack_names g1.entries).count "main()==>foo".toList : Nat) : Int)) :=
  hp_stats_ct_counts hp_session0
    [.enter "foo".toList (some no_args) (host_at 10), .leave (host_at 20)] 0 host_at
    "main()==>foo".toList hp_session0_tables_ok rfl rfl rfl

theorem hp_scenario_foo (g : hp_global_t) (d : Option zend_execute_data) (h1 h2 : host_t)
    (root : hp_entry_t) (hok : hp_tables_ok g) (hflags : g.tideways_flags = 0)
    (hnofilter : g.filtered_functions = none) (he : g.entries = [root])
    (hroot : root.name_hprof = ROOT_SYMBOL) (hlvl : root.rlvl_hprof = 0)
    (hst : g.stats_count = some []) :
    ∃ (g1 : hp_global_t) (fl1 : List Int),
      hp_run g [] [.enter "foo".toList d h1, .leave h2] = some (g1, fl1) ∧
      hp_stats_ct g1.stats_count "main()==>foo".toList = some 1 := by
  have hh : g.tideways_flags &&& TIDEWAYS_FLAGS_NO_HIERACHICAL = 0 := by rw [hflags]; rfl
  have hf : hp_filter_entry g (hp_inline_hash "foo".toList) "foo".toList = 0 := by
    simp only [hp_filter_entry, hnofilter]
  obtain ⟨g1, fl1, r1, _, r3⟩ :=
    hp_run_ct_gen [.enter "foo".toList d h1, .leave h2] g [] 0 ⟨hok, hh, [], hst⟩ rfl
  refine ⟨g1, fl1, r1, ?_⟩
  rw [r3]
  obtain ⟨f, sp, sc, hb, hname, _, _, hflvl, hsc⟩ :=
    BEGIN_PROFILING_spec g "foo".toList d h1 hok hf
  have hf0 : f.rlvl_hprof = 0 := by
    rw [hflvl hh]
    unfold hp_enter_level
    rw [he]
    have hneq : ¬ ("foo".toList = root.name_hprof) := by rw [hroot]; decide
    simp only [hp_scan_recurse_level, if_neg hneq, ite_self]
  have hlabf : hp_entry_label f = "foo".toList := by
    simp only [hp_entry_label, hf0, ne_eq, not_true_eq_false, if_false, hname]
  have hlabr : hp_entry_label root = ROOT_SYMBOL := by
    simp only [hp_entry_label, hlvl, ne_eq, not_true_eq_false, if_false, hroot]
  have hq : hp_qualified_name (f :: g.entries) = "main()==>foo".toList := by
    rw [he, hp_qualified_name_parent f root [] (by rw [hname]; decide) (by rw [hroot]; decide)
      (by rw [hlabr]; decide) (by rw [hlabr, hlabf]; decide), hlabr, hlabf]
    rfl
  have hcomp : hp_completed g [] [.enter "foo".toList d h1, .leave h2]
      = ["main()==>foo".toList] := by
    have hend := END_PROFILING_spec
      { g with entries := f :: g.entries, entry_free_list := g.entry_free_list.tail,
               func_hash_counters := hp_enter_counters g (hp_inline_hash "foo".toList),
               spans := some sp, span_cache := sc } h2 f g.entries
      ⟨rfl, fun hns => ⟨(hok.2 hns).1, hsc (hok.2 hns).2⟩⟩ rfl
    obtain ⟨sp2, hend⟩ := hend
    simp only [hp_completed, hp_step, hb, Option.map_some', hp_closed, List.nil_append,
      List.cons_ne_nil, if_false, hend, one_ne_zero, or_self, hq, List.append_nil]
  rw [hcomp]
  have h0 : hp_stats_ct g.stats_count "main()==>foo".toList = none := by
    simp [hp_stats_ct, hst, zend_hash_find]
  rw [h0, ct_add_none]
  simp

/-- C4 (as stated, refuted): a frame `foo` whose parent frame has the empty
symbol (a function made by `create_function`) gets the qualified name `foo`,
not `==>foo`: the delimiter is written only after a parent name that is not
empty. -/
theorem hp_qualified_name_empty_parent :
    hp_qualified_name [frame_foo, frame_lambda] = "foo".toList ∧
    hp_entry_label frame_lambda ++ "==>".toList ++ hp_entry_label frame_foo = "==>foo".toList ∧
    "==>foo".toList ≠ "foo".toList := by
  refine ⟨?_, by decide, by decide⟩
  rw [hp_qualified_name_parent_empty frame_foo frame_lambda [] (by decide) (by decide)
    (by decide)]
  decide

/-- C4 (amended): with `name(e)` the symbol of `e`, followed by `@` and the
decimal level when the level is not 0, for frames whose symbols are C
strings and whose full name fits the 512-byte buffer, the name that
`hp_get_function_stack(e, 2, buf, 512)` leaves in a zeroed buffer is
`name(e)` for the bottom frame, `name(parent) ++ "==>" ++ name(e)` when the
parent name is not empty, and `name(e)` alone when the parent name is empty;
frames below the parent never matter. In a session with flags 0, no filter,
an empty statistics table and the root frame alone on the stack, entering
and leaving `foo` gives the entry `main()==>foo` the count 1. -/
theorem hp_qualified_name_one_level (e p : hp_entry_t) (rest : List hp_entry_t)
    (hne : nul_free e.name_hprof) (hnp : nul_free p.name_hprof) :
    ((hp_entry_label e).length ≤ 511 → hp_qualified_name [e] = hp_entry_label e) ∧
    (hp_entry_label p ≠ [] →
      (hp_entry_label p).length + 3 + (hp_entry_label e).length ≤ 511 →
      hp_qualified_name (e :: p :: rest)
        = hp_entry_label p ++ "==>".toList ++ hp_entry_label e) ∧
    (hp_entry_label p = [] → (hp_entry_label e).length ≤ 511 →
      hp_qualified_name (e :: p :: rest) = hp_entry_label e) ∧
    (∀ (g : hp_global_t) (d : Option zend_execute_data) (h1 h2 : host_t) (root : hp_entry_t),
      hp_tables_ok g → g.tideways_flags = 0 → g.filtered_functions = none →
      g.entries = [root] → root.name_hprof = ROOT_SYMBOL → root.rlvl_hprof = 0 →
      g.stats_count = some [] →
      ∃ (g1 : hp_global_t) (fl1 : List Int),
        hp_run g [] [.enter "foo".toList d h1, .leave h2] = some (g1, fl1) ∧
        hp_stats_ct g1.stats_count "main()==>foo".toList = some 1) :=
  ⟨hp_qualified_name_bottom e hne,
   hp_qualified_name_parent e p rest hne hnp,
   hp_qualified_name_parent_empty e p rest hne,
   hp_scenario_foo⟩

theorem hp_qualified_name_one_level_witness :
    hp_qualified_name [frame_foo, frame_root] = "main()==>foo".toList ∧
    ∃ (g1 : hp_global_t) (fl1 : List Int),
      hp_run hp_session0 []
          [.enter "foo".toList (some no_args) (host_at 10), .leave (host_at 20)]
        = some (g1, fl1) ∧
      hp_stats_ct g1.stats_count "main()==>foo".toList = some 1 :=
  ⟨(hp_qualified_name_one_level frame_foo frame_root [] (by decide) (by decide)).2.1
      (by decide) (by decide),
   (hp_qualified_name_one_level frame_foo frame_root [] (by decide) (by decide)).2.2.2
      hp_session0 (some no_args) (host_at 10) (host_at 20) _
      hp_session0_tables_ok rfl rfl rfl rfl rfl rfl⟩

/-! ## Hash and filter -/

theorem hash_step_lt (h : Nat) (c : Char) : hash_step h c < 256 := by
  unfold hash_step
  exact Nat.mod_lt _ (by decide)

theorem hp_inline_hash_from_foldl (n : Nat) :
    ∀ (s : CStr) (h : Nat), s.length ≤ n → hp_inline_hash_from h s = s.foldl hash_step h := by
  induction n using Nat.strong_induction_on with
  | _ n ih =>
    intro s h hn
    match s with
    | [] => rfl
    | [c1] => rfl
    | [c1, c2] => rfl
    | [c1, c2, c3] => rfl
    | [c1, c2, c3, c4] => rfl
    | [c1, c2, c3, c4, c5] => rfl
    | [c1, c2, c3, c4, c5, c6] => rfl
    | [c1, c2, c3, c4, c5, c6, c7] => rfl
    | c1 :: c2 :: c3 :: c4 :: c5 :: c6 :: c7 :: c8 :: rest =>
      rw [hp_inline_hash_from]
      simp only [List.length_cons] at hn
      rw [ih (n - 8) (by omega) rest _ (by omega)]
      rfl

theorem hp_inline_hash_eq_foldl (s : CStr) : hp_inline_hash s = s.foldl hash_step 0 :=
  hp_inline_hash_from_foldl s.length s 0 (Nat.le_refl _)

theorem foldl_hash_step_lt (s : CStr) : ∀ h : Nat, h < 256 → s.foldl hash_step h < 256 := by
  induction s with
  | nil => intro h hh; exact hh
  | cons c cs ih => intro h _; exact ih _ (hash_step_lt h c)

theorem hp_inline_hash_lt (s : CStr) : hp_inline_hash s < 256 := by
  rw [hp_inline_hash_eq_foldl]
  exact foldl_hash_step_lt s 0 (by decide)
theorem and_seven_lt (h : Nat) : h &&& 0x7 < 8 := by
  have := @Nat.and_le_right h 7
  omega

theorem index_2_byte_lt (h : Nat) (hh : h < 256) : INDEX_2_BYTE h < 32 := by
  unfold INDEX_2_BYTE
  rw [Nat.shiftRight_eq_div_pow]
  omega

theorem index_2_bit_eq (h : Nat) : INDEX_2_BIT h = 2 ^ (h &&& 0x7) := by
  unfold INDEX_2_BIT
  exact Nat.one_shiftLeft _

theorem index_2_bit_lt (h : Nat) : INDEX_2_BIT h < 256 := by
  rw [index_2_bit_eq]
  have h8 := and_seven_lt h
  calc 2 ^ (h &&& 0x7) < 2 ^ 8 := Nat.pow_lt_pow_right (by decide) h8
    _ = 256 := by decide

/-- The bitmap check succeeds exactly when the bit of the hash is set. -/
theorem hp_function_map_filter_collision_iff (map : hp_function_map) (h : Nat) :
    hp_function_map_filter_collision map h ≠ 0
      ↔ (map.filter.getD (INDEX_2_BYTE h) 0).testBit (h &&& 0x7) = true := by
  unfold hp_function_map_filter_collision
  simp only
  rw [Nat.mod_eq_of_lt (index_2_bit_lt h), index_2_bit_eq, Nat.and_two_pow]
  cases (map.filter.getD (INDEX_2_BYTE h) 0).testBit (h &&& 0x7) with
  | true => simp
  | false => simp

theorem hp_function_map_fill_length (names : List CStr) :
    ∀ filter : List Nat, (hp_function_map_fill filter names).length = filter.length := by
  induction names with
  | nil => intro filter; rfl
  | cons n ns ih => intro filter; simp only [hp_function_map_fill, ih, List.length_set]

theorem filter_step_bit (filter : List Nat) (hs h : Nat) (hlen : INDEX_2_BYTE hs < filter.length)
    (hbit : (filter.getD (INDEX_2_BYTE h) 0).testBit (h &&& 0x7) = true ∨ h = hs) :
    ((filter.set (INDEX_2_BYTE hs)
        ((filter.getD (INDEX_2_BYTE hs) 0 ||| INDEX_2_BIT hs) % 256)).getD
      (INDEX_2_BYTE h) 0).testBit (h &&& 0x7) = true := by
  have h8 := and_seven_lt h
  by_cases hidx : INDEX_2_BYTE hs = INDEX_2_BYTE h
  · rw [List.getD_eq_getElem?_getD, ← hidx, List.getElem?_set_self hlen]
    simp only [Option.getD_some]
    have h256 : (256 : Nat) = 2 ^ 8 := by decide
    rw [h256, Nat.testBit_mod_two_pow, Nat.testBit_or, index_2_bit_eq, Nat.testBit_two_pow]
    rcases hbit with hb | hb
    · rw [← hidx, List.getD_eq_getElem?_getD] at hb
      simp [h8, hb]
    · subst hb
      simp [h8]
  · rw [List.getD_eq_getElem?_getD, List.getElem?_set_ne hidx, ← List.getD_eq_getElem?_getD]
    rcases hbit with hb | hb
    · exact hb
    · subst hb; exact absurd rfl hidx

theorem hp_function_map_fill_keeps (names : List CStr) :
    ∀ (filter : List Nat) (h : Nat), filter.length = 32 →
      (filter.getD (INDEX_2_BYTE h) 0).testBit (h &&& 0x7) = true →
      ((hp_function_map_fill filter names).getD (INDEX_2_BYTE h) 0).testBit (h &&& 0x7)
        = true := by
  induction names with
  | nil => intro filter h _ hb; exact hb
  | cons n ns ih =>
    intro filter h hlen hb
    simp only [hp_function_map_fill]
    apply ih
    · rw [List.length_set]; exact hlen
    · exact filter_step_bit filter _ h
        (by rw [hlen]; exact index_2_byte_lt _ (hp_inline_hash_lt n)) (Or.inl hb)

theorem hp_function_map_fill_sets (names : List CStr) :
    ∀ (filter : List Nat) (s : CStr), filter.length = 32 → s ∈ names →
      ((hp_function_map_fill filter names).getD (INDEX_2_BYTE (hp_inline_hash s)) 0).testBit
        (hp_inline_hash s &&& 0x7) = true := by
  induction names with
  | nil => intro filter s _ hs; simp at hs
  | cons n ns ih =>
    intro filter s hlen hs
    simp only [hp_function_map_fill]
    rcases List.mem_cons.mp hs with rfl | hs
    · apply hp_function_map_fill_keeps
      · rw [List.length_set]; exact hlen
      · exact filter_step_bit filter _ _
          (by rw [hlen]; exact index_2_byte_lt _ (hp_inline_hash_lt s)) (Or.inr rfl)
    · exact ih _ s (by rw [List.length_set]; exact hlen) hs

/-- The two-level check of the filter is exact membership in the name list. -/
theorem hp_function_map_exists_iff (names : List CStr) (map : hp_function_map) (s : CStr)
    (hmap : hp_function_map_create (some names) = some map) :
    (hp_function_map_exists map (hp_inline_hash s) s = 1 ↔ s ∈ names) ∧
    (hp_function_map_exists map (hp_inline_hash s) s = 0 ↔ s ∉ names) := by
  simp only [hp_function_map_create, Option.some.injEq] at hmap
  subst hmap
  have hany : (names.any (fun name => decide (s = name))) = true ↔ s ∈ names := by
    simp [List.any_eq_true]
  by_cases hs : s ∈ names
  · have hbit := hp_function_map_fill_sets names
      (List.replicate TIDEWAYS_FILTERED_FUNCTION_SIZE 0) s (by simp [TIDEWAYS_FILTERED_FUNCTION_SIZE, TIDEWAYS_MAX_FILTERED_FUNCTIONS]) hs
    have hcol := (hp_function_map_filter_collision_iff
      { names := names,
        filter := hp_function_map_fill (List.replicate TIDEWAYS_FILTERED_FUNCTION_SIZE 0) names }
      (hp_inline_hash s)).mpr hbit
    unfold hp_function_map_exists
    rw [if_pos hcol, if_pos (hany.mpr hs)]
    simp [hs]
  · have hn : ¬ (names.any (fun name => decide (s = name))) = true := fun h => hs (hany.mp h)
    unfold hp_function_map_exists
    rw [if_neg hn]
    simp [hs]

/-- C11: with the filter map built from the name list `L` and the hash of the
symbol, `hp_filter_entry` drops a symbol exactly when the mode is blacklist
(1) and the symbol is in `L`, or the mode is whitelist (2), the symbol is not
in `L` and is not the root symbol; it returns 0 when the mode is 0 and when
no map is configured. Whitelist mode keeps `main()` for every list, blacklist
mode drops `main()` only when it is in `L`. -/
theorem hp_filter_entry_modes (names : List CStr) (map : hp_function_map) (g : hp_global_t)
    (hmap : hp_function_map_create (some names) = some map)
    (hg : g.filtered_functions = some map)
    (htype : g.filtered_type = 0 ∨ g.filtered_type = 1 ∨ g.filtered_type = 2) :
    (∀ s : CStr,
      (hp_filter_entry g (hp_inline_hash s) s ≠ 0 ↔
        (g.filtered_type = 1 ∧ s ∈ names) ∨
        (g.filtered_type = 2 ∧ s ∉ names ∧ s ≠ ROOT_SYMBOL))) ∧
    (g.filtered_type = 0 → ∀ s : CStr, hp_filter_entry g (hp_inline_hash s) s = 0) ∧
    (g.filtered_type = 2 → hp_filter_entry g (hp_inline_hash ROOT_SYMBOL) ROOT_SYMBOL = 0) ∧
    (g.filtered_type = 1 →
      (hp_filter_entry g (hp_inline_hash ROOT_SYMBOL) ROOT_SYMBOL ≠ 0 ↔ ROOT_SYMBOL ∈ names)) ∧
    (∀ (g0 : hp_global_t) (s : CStr), g0.filtered_functions = none →
      hp_filter_entry g0 (hp_inline_hash s) s = 0) := by
  have key : ∀ s : CStr,
      (hp_filter_entry g (hp_inline_hash s) s ≠ 0 ↔
        (g.filtered_type = 1 ∧ s ∈ names) ∨
        (g.filtered_type = 2 ∧ s ∉ names ∧ s ≠ ROOT_SYMBOL)) := by
    intro s
    obtain ⟨h1, h0⟩ := hp_function_map_exists_iff names map s hmap
    unfold hp_filter_entry
    simp only [hg]
    rcases htype with ht | ht | ht
    · simp [ht]
    · have h2 : ¬ g.filtered_type = 2 := by rw [ht]; decide
      have h3 : ¬ g.filtered_type = 0 := by rw [ht]; decide
      simp only [h3, h2, if_false, ht, true_and, false_and, or_false]
      by_cases hs : s ∈ names
      · rw [h1.mpr hs]; simp [hs]
      · rw [h0.mpr hs]; simp [hs]
    · have h3 : ¬ g.filtered_type = 0 := by rw [ht]; decide
      have h4 : ¬ g.filtered_type = 1 := by rw [ht]; decide
      simp only [h3, if_false, ht, if_true, h4, false_and, true_and, false_or]
      by_cases hr : s = ROOT_SYMBOL
      · simp [hr]
      · simp only [if_neg hr]
        by_cases hs : s ∈ names
        · rw [h1.mpr hs]; simp [hs]
        · rw [h0.mpr hs]; simp [hs, hr]
  refine ⟨key, ?_, ?_, ?_, ?_⟩
  · intro ht s
    unfold hp_filter_entry
    simp [hg, ht]
  · intro ht
    have := (key ROOT_SYMBOL).not
    rw [not_not] at this
    apply this.mpr
    simp [ht]
  · intro ht
    rw [key ROOT_SYMBOL]
    simp [ht]
  · intro g0 s h0
    unfold hp_filter_entry
    simp [h0]

theorem hp_filter_entry_modes_witness :
    hp_filter_entry (hp_session_filtered ["foo".toList] 2)
        (hp_inline_hash ROOT_SYMBOL) ROOT_SYMBOL = 0 ∧
    (hp_filter_entry (hp_session_filtered ["foo".toList] 1)
        (hp_inline_hash "foo".toList) "foo".toList ≠ 0 ↔
      ((hp_session_filtered ["foo".toList] 1).filtered_type = 1 ∧
          "foo".toList ∈ ["foo".toList]) ∨
        ((hp_session_filtered ["foo".toList] 1).filtered_type = 2 ∧
          "foo".toList ∉ ["foo".toList] ∧ "foo".toList ≠ ROOT_SYMBOL)) :=
  ⟨(hp_filter_entry_modes ["foo".toList] _ (hp_session_filtered ["foo".toList] 2) rfl rfl
      (Or.inr (Or.inr rfl))).2.2.1 rfl,
   (hp_filter_entry_modes ["foo".toList] _ (hp_session_filtered ["foo".toList] 1) rfl rfl
      (Or.inr (Or.inl rfl))).1 "foo".toList⟩

/-! ## Order of the timers of a span -/

theorem zend_hash_modify_all {κ α : Type} [DecidableEq κ] (P : α → Prop) (h : HashTable κ α)
    (k : κ) (f : α → α) (hall : ∀ kv ∈ h, P kv.2)
    (hf : ∀ v, zend_hash_find h k = some v → P (f v)) :
    ∀ kv ∈ zend_hash_modify h k f, P kv.2 := by
  induction h with
  | nil => intro kv hkv; simp [zend_hash_modify] at hkv
  | cons x t ih =>
    obtain ⟨k1, v1⟩ := x
    by_cases hk : k1 = k
    · intro kv hkv
      simp only [zend_hash_modify, if_pos hk, List.mem_cons] at hkv
      rcases hkv with rfl | hkv
      · exact hf v1 (by simp [zend_hash_find, hk])
      · exact hall kv (List.mem_cons_of_mem _ hkv)
    · intro kv hkv
      simp only [zend_hash_modify, if_neg hk, List.mem_cons] at hkv
      rcases hkv with rfl | hkv
      · exact hall (k1, v1) (List.mem_cons_self _ _)
      · exact ih (fun kv hkv => hall kv (List.mem_cons_of_mem _ hkv))
          (fun v hv => hf v (by simpa [zend_hash_find, hk] using hv)) kv hkv

theorem zend_hash_update_all {κ α : Type} [DecidableEq κ] (P : α → Prop) (h : HashTable κ α)
    (k : κ) (v : α) (hall : ∀ kv ∈ h, P kv.2) (hv : P v) :
    ∀ kv ∈ zend_hash_update h k v, P kv.2 := by
  induction h with
  | nil =>
    intro kv hkv
    simp only [zend_hash_update, List.mem_singleton] at hkv
    subst hkv; exact hv
  | cons x t ih =>
    obtain ⟨k1, v1⟩ := x
    by_cases hk : k1 = k
    · intro kv hkv
      simp only [zend_hash_update, if_pos hk, List.mem_cons] at hkv
      rcases hkv with rfl | hkv
      · exact hv
      · exact hall kv (List.mem_cons_of_mem _ hkv)
    · intro kv hkv
      simp only [zend_hash_update, if_neg hk, List.mem_cons] at hkv
      rcases hkv with rfl | hkv
      · exact hall (k1, v1) (List.mem_cons_self _ _)
      · exact ih (fun kv hkv => hall kv (List.mem_cons_of_mem _ hkv)) kv hkv

theorem zend_hash_find_mem {κ α : Type} [DecidableEq κ] (h : HashTable κ α) (k : κ) (v : α)
    (hf : zend_hash_find h k = some v) : (k, v) ∈ h := by
  induction h with
  | nil => simp [zend_hash_find] at hf
  | cons x t ih =>
    obtain ⟨k1, v1⟩ := x
    by_cases hk : k1 = k
    · simp only [zend_hash_find, if_pos hk, Option.some.injEq] at hf
      subst hk; subst hf; exact List.mem_cons_self _ _
    · simp only [zend_hash_find, if_neg hk] at hf
      exact List.mem_cons_of_mem _ (ih hf)

theorem span_step_in_order (spans : SpanTree) (op : span_op)
    (hall : ∀ kv ∈ spans, span_open_at_most_one kv.2) (hop : span_op_in_order spans op) :
    ∀ kv ∈ (span_step spans op).1, span_open_at_most_one kv.2 := by
  cases op with
  | create c =>
    simp only [span_step, tw_span_create]
    split
    · exact hall
    · exact zend_hash_update_all _ _ _ _ hall (by simp [span_open_at_most_one])
  | timer_start st now id =>
    simp only [span_step, tw_span_timer_start]
    cases hf : zend_hash_find spans id with
    | none => exact hall
    | some s =>
      simp only [span_op_in_order, hf] at hop
      apply zend_hash_modify_all _ _ _ _ hall
      intro v hv
      rw [hf] at hv
      cases hv
      simp only [span_open_at_most_one, List.length_append, List.length_singleton]
      omega
  | timer_stop st now id =>
    simp only [span_step, tw_span_timer_stop]
    cases hf : zend_hash_find spans id with
    | none => exact hall
    | some s =>
      simp only [span_op_in_order, hf] at hop
      apply zend_hash_modify_all _ _ _ _ hall
      intro v hv
      rw [hf] at hv
      cases hv
      simp only [span_open_at_most_one, List.length_append, List.length_singleton]
      omega
  | record_duration id a b =>
    simp only [span_step, tw_span_record_duration]
    cases hf : zend_hash_find spans id with
    | none => exact hall
    | some s =>
      apply zend_hash_modify_all _ _ _ _ hall
      intro v hv
      have hv2 := hall _ (zend_hash_find_mem _ _ _ hv)
      simp only [span_open_at_most_one, List.length_append, List.length_singleton] at hv2 ⊢
      omega
  | annotate id m =>
    simp only [span_step, tw_span_annotate]
    cases hf : zend_hash_find spans id with
    | none => exact hall
    | some s =>
      apply zend_hash_modify_all _ _ _ _ hall
      intro v hv
      exact hall _ (zend_hash_find_mem _ _ _ hv)
  | annotate_long id k v =>
    simp only [span_step, tw_span_annotate_long]
    cases hf : zend_hash_find spans id with
    | none => exact hall
    | some s =>
      apply zend_hash_modify_all _ _ _ _ hall
      intro v hv
      exact hall _ (zend_hash_find_mem _ _ _ hv)
  | annotate_string id k v c =>
    simp only [span_step, tw_span_annotate_string]
    cases hf : zend_hash_find spans id with
    | none => exact hall
    | some s =>
      apply zend_hash_modify_all _ _ _ _ hall
      intro v hv
      exact hall _ (zend_hash_find_mem _ _ _ hv)

theorem span_run_in_order_all (ops : List span_op) :
    ∀ spans : SpanTree, (∀ kv ∈ spans, span_open_at_most_one kv.2) →
      span_run_in_order spans ops →
      ∀ kv ∈ (span_run spans ops).1, span_open_at_most_one kv.2 := by
  induction ops with
  | nil => intro spans hall _; exact hall
  | cons op ops ih =>
    intro spans hall hord
    exact ih _ (span_step_in_order spans op hall hord.1) hord.2

/-- C19 (as stated, refuted): two calls of `tw_span_timer_start` on one span
leave two starts and no stop; `tw_span_timer_stop` on a span that was never
started leaves a stop without start; the calls of the engine on the main
span when the request calls `fastcgi_finish_request` (start in `hp_begin`,
stop in the extractor, stop in `hp_stop`) leave two stops for one start. -/
theorem span_timers_out_of_order :
    zend_hash_find
        (span_run [] [.create "x".toList, .timer_start 0 5 0, .timer_start 0 6 0]).1 0
      = some { n := "x".toList, b := [5, 6], e := [], p := none, a := none } ∧
    zend_hash_find (span_run [] [.create "x".toList, .timer_stop 0 7 0]).1 0
      = some { n := "x".toList, b := [], e := [7], p := none, a := none } ∧
    zend_hash_find
        (span_run [] [.create "app".toList, .timer_start 0 1 0, .timer_stop 0 8 0,
          .timer_stop 0 9 0]).1 0
      = some { n := "app".toList, b := [1], e := [8, 9], p := none, a := none } := by
  refine ⟨?_, ?_, ?_⟩ <;> rfl

/-- C19 (amended): after any sequence of calls of the span API on the empty
tree in which every `tw_span_timer_start` is on a span without open timer and
every `tw_span_timer_stop` on a span with an open timer, every span has as
many stops as starts or one start more. -/
theorem span_timers_in_order (ops : List span_op) (hord : span_run_in_order [] ops) :
    ∀ kv ∈ (span_run [] ops).1,
      kv.2.e.length ≤ kv.2.b.length ∧ kv.2.b.length ≤ kv.2.e.length + 1 :=
  span_run_in_order_all ops [] (by intro kv hkv; simp at hkv) hord

theorem span_timers_in_order_witness :
    span_run_in_order [] [.create "x".toList, .timer_start 0 5 0, .timer_stop 0 6 0,
        .timer_start 0 7 0] ∧
    ((0 : Int), ({ n := "x".toList, b := [5, 7], e := [6], p := none, a := none } : Span))
      ∈ (span_run [] [.create "x".toList, .timer_start 0 5 0, .timer_stop 0 6 0,
        .timer_start 0 7 0]).1 ∧
    ([6] : List Int).length ≤ ([5, 7] : List Int).length ∧
    ([5, 7] : List Int).length ≤ ([6] : List Int).length + 1 :=
  ⟨⟨trivial, rfl, rfl, rfl, trivial⟩, List.Mem.head _,
    span_timers_in_order
      [.create "x".toList, .timer_start 0 5 0, .timer_stop 0 6 0, .timer_start 0 7 0]
      ⟨trivial, rfl, rfl, rfl, trivial⟩
      ((0 : Int), ({ n := "x".toList, b := [5, 7], e := [6], p := none, a := none } : Span))
      (List.Mem.head _)⟩

/-! ## Writes past the scratch buffer -/

theorem bytes_503_length : bytes_503.length = 503 := List.length_replicate _ _

theorem poke_length_in (mem : List Char) (i : Nat) (c : Char) (hi : i < mem.length) :
    (poke mem i c).length = mem.length := by
  unfold poke
  rw [if_pos hi, List.length_set]

theorem poke_length_end (mem : List Char) (c : Char) :
    (poke mem mem.length c).length = mem.length + 1 := by
  unfold poke
  simp

/-- `strncat` of a source as long as the room that is left writes its NUL
one byte past the room. -/
theorem c_strncat_overflow (s src : List Char) (k n : Nat) (hk : src.length = k)
    (hn : k ≤ n) :
    (c_strncat (s ++ List.replicate k NUL) s.length src n).length = s.length + k + 1 := by
  unfold c_strncat c_strlen
  have h0 : c_string (s ++ List.replicate k NUL) s.length = [] := by
    have := c_string_at_end s [] k (by intro c hc; simp at hc)
    simpa using this
  simp only [h0, List.length_nil, Nat.add_zero, List.take_of_length_le (by omega : src.length ≤ n)]
  rw [poke_bytes_zero src s k (by omega), hk, Nat.sub_self]
  simp only [List.replicate_zero, List.append_nil]
  have hl : s.length + k = (s ++ src).length := by simp [hk]
  rw [hl, poke_length_end]

/-- A frame at level 0 whose symbol fills the room after the parent name and
the delimiter exactly: the NUL of `strncat` goes to index 512. -/
theorem hp_get_function_stack_overflow (e p : hp_entry_t) (rest : List hp_entry_t)
    (hnp : nul_free p.name_hprof) (hp0 : hp_entry_label p ≠ [])
    (hr0 : e.rlvl_hprof = 0) (h2 : 2 ≤ e.name_hprof.length)
    (hlen : (hp_entry_label p).length + 3 + e.name_hprof.length = 512) :
    (hp_get_function_stack (e :: p :: rest) 2 (List.replicate SCRATCH_BUF_LEN NUL)
      SCRATCH_BUF_LEN).1.length = 513 := by
  simp only [hp_get_function_stack, SCRATCH_BUF_LEN, HP_STACK_DELIM_LEN]
  have hlev : ¬ ((2 : Int) ≤ 1) := by decide
  rw [if_neg hlev]
  have h21 : (2 : Int) - 1 = 1 := by decide
  rw [h21, hp_get_function_stack_level_one]
  have hpn := hp_get_entry_name_zero p [] 512 hnp (by omega)
  simp only [List.nil_append, List.length_nil] at hpn
  rw [hpn]
  simp only
  have hlt : ¬ (512 < (hp_entry_label p).length + 3) := by omega
  rw [if_neg hlt]
  have hlen0 : (hp_entry_label p).length ≠ 0 := by
    intro h0; exact hp0 (List.length_eq_zero.mp h0)
  rw [if_pos hlen0]
  simp only
  have hdl : HP_STACK_DELIM.length = 3 := rfl
  have hcat := c_strncat_zero (hp_entry_label p) HP_STACK_DELIM
    (512 - (hp_entry_label p).length) (512 - (hp_entry_label p).length)
    (by rw [hdl]; omega) (by rw [hdl]; omega)
  rw [hcat]
  have hk : 512 - (hp_entry_label p).length - HP_STACK_DELIM.length = e.name_hprof.length := by
    rw [hdl]; omega
  have hoff : (hp_entry_label p).length + 3 = (hp_entry_label p ++ HP_STACK_DELIM).length := by
    simp [hdl]
  have h512 : 512 - ((hp_entry_label p).length + 3) = e.name_hprof.length := by omega
  rw [hk, h512, hoff]
  have hov := c_strncat_overflow (hp_entry_label p ++ HP_STACK_DELIM) e.name_hprof
    e.name_hprof.length e.name_hprof.length rfl (Nat.le_refl _)
  unfold hp_get_entry_name
  have h1 : ¬ (e.name_hprof.length ≤ 1) := by omega
  rw [if_neg h1]
  have hr1 : ¬ (e.rlvl_hprof ≠ 0) := by rw [hr0]; decide
  simp only [if_neg hr1]
  rw [poke_length_in _ _ _ (by rw [hov]; omega), hov, ← hoff]
  omega

/-- C18 (the code at the failing input): for a frame at level 0 whose symbol
has 503 bytes, called from the root frame, `hp_get_function_stack` on the
zeroed buffer of 512 bytes stores a byte at index 512: the memory written
has 513 bytes. -/
theorem hp_get_function_stack_writes_past_buffer :
    (hp_get_function_stack [frame_503, frame_root] 2 (List.replicate SCRATCH_BUF_LEN NUL)
      SCRATCH_BUF_LEN).1.length = 513 ∧
    frame_503.name_hprof.length = 503 ∧ SCRATCH_BUF_LEN = 512 := by
  refine ⟨?_, bytes_503_length, rfl⟩
  have hname : frame_503.name_hprof = bytes_503 := rfl
  apply hp_get_function_stack_overflow frame_503 frame_root [] (by decide) (by decide) rfl
  · rw [hname, bytes_503_length]; decide
  · rw [hname, bytes_503_length]; rfl

/-! ## Stop of a session -/

/-- What `END_PROFILING` does with flag 1 on a stack that is not empty, with
the span tree that results. -/
theorem END_PROFILING_spec_spans (g : hp_global_t) (h : host_t) (top : hp_entry_t)
    (rest : List hp_entry_t) (sp0 : SpanTree) (hsp : g.spans = some sp0)
    (he : g.entries = top :: rest) :
    END_PROFILING g 1 h
      = some { g with entries := rest,
                      entry_free_list := top :: g.entry_free_list,
                      spans := some (hp_leave_spans g h sp0),
                      stats_count := hp_leave_stats g h,
                      func_hash_counters := hp_leave_counters g } := by
  cases g with
  | mk enabled ever stats spans st exc entries fl tf tn root ef flags counters ft ff tcb scache
      gr gc cc cw cs =>
  simp only at hsp he
  subst he
  subst hsp
  unfold END_PROFILING hp_mode_hier_endfn_cb hp_leave_stats hp_leave_counters
    hp_fast_free_hprof_entry hp_leave_spans
  simp only [ne_eq, one_ne_zero, not_false_eq_true, if_true]
  by_cases hns : flags &&& TIDEWAYS_FLAGS_NO_SPANS = 0 ∧ top.span_id ≥ 0
  · rw [if_pos hns, if_pos hns]
    simp only [Option.map_some', Option.some_bind]
    by_cases hh : flags &&& TIDEWAYS_FLAGS_NO_HIERACHICAL > 0
    · simp only [if_pos hh]
    · simp only [if_neg hh]
      cases stats with
      | none => rfl
      | some stt =>
        simp only [hp_hash_lookup]
        cases zend_hash_find stt (hp_qualified_name (top :: rest)) <;> rfl
  · rw [if_neg hns, if_neg hns]
    simp only [Option.map_some', Option.some_bind]
    by_cases hh : flags &&& TIDEWAYS_FLAGS_NO_HIERACHICAL > 0
    · simp only [if_pos hh]
    · simp only [if_neg hh]
      cases stats with
      | none => rfl
      | some stt =>
        simp only [hp_hash_lookup]
        cases zend_hash_find stt (hp_qualified_name (top :: rest)) <;> rfl

theorem hp_stats_sum_modify (st : StatsTable) (q : CStr)
    (f : HashTable CStr Int → HashTable CStr Int) (c : HashTable CStr Int)
    (hf : zend_hash_find st q = some c) :
    ((zend_hash_modify st q f).map (fun kv => hp_counts_ct kv.2)).sum
      = (st.map (fun kv => hp_counts_ct kv.2)).sum - hp_counts_ct c + hp_counts_ct (f c) := by
  induction st with
  | nil => simp [zend_hash_find] at hf
  | cons x t ih =>
    obtain ⟨k1, v1⟩ := x
    by_cases hk : k1 = q
    · simp only [zend_hash_find, if_pos hk, Option.some.injEq] at hf
      subst hf
      simp only [zend_hash_modify, if_pos hk, List.map_cons, List.sum_cons]
      ring
    · simp only [zend_hash_find, if_neg hk] at hf
      simp only [zend_hash_modify, if_neg hk, List.map_cons, List.sum_cons, ih hf]
      ring

theorem hp_counts_ct_bump (g : hp_global_t) (top : hp_entry_t) (h : host_t)
    (counts : HashTable CStr Int) :
    hp_counts_ct (endfn_bump g top h counts) = hp_counts_ct counts + 1 := by
  unfold hp_counts_ct
  rw [endfn_bump_ct]
  rfl

/-- One frame folded into the statistics adds one to the sum of the
counters `ct`. -/
theorem hp_leave_stats_sum (g : hp_global_t) (h : host_t) (top : hp_entry_t)
    (rest : List hp_entry_t) (st : StatsTable)
    (he : g.entries = top :: rest)
    (hh : g.tideways_flags &&& TIDEWAYS_FLAGS_NO_HIERACHICAL = 0)
    (hst : g.stats_count = some st) :
    (∃ st1, hp_leave_stats g h = some st1) ∧
    hp_stats_ct_sum (hp_leave_stats g h) = hp_stats_ct_sum g.stats_count + 1 := by
  have hh2 : ¬ (g.tideways_flags &&& TIDEWAYS_FLAGS_NO_HIERACHICAL > 0) := by omega
  unfold hp_leave_stats
  rw [he] at *
  simp only [if_neg hh2, hst, hp_hash_lookup]
  cases hf : zend_hash_find st (hp_qualified_name (top :: rest)) with
  | some counts =>
    refine ⟨⟨_, rfl⟩, ?_⟩
    simp only [hp_stats_ct_sum]
    rw [hp_stats_sum_modify st _ _ counts hf, hp_counts_ct_bump]
    ring
  | none =>
    refine ⟨⟨_, rfl⟩, ?_⟩
    simp only [hp_stats_ct_sum]
    rw [zend_hash_update_absent st _ _ hf]
    rw [hp_stats_sum_modify _ _ _ [] (zend_hash_find_snoc_self st _ _ hf), hp_counts_ct_bump]
    have h0 : hp_counts_ct ([] : HashTable CStr Int) = 0 := rfl
    simp only [List.map_append, List.sum_append, List.map_cons, List.map_nil, List.sum_cons,
      List.sum_nil, h0]
    ring

theorem hp_leave_stats_flat (g : hp_global_t) (h : host_t)
    (hh : ¬ g.tideways_flags &&& TIDEWAYS_FLAGS_NO_HIERACHICAL = 0) :
    hp_leave_stats g h = g.stats_count := by
  have hh2 : g.tideways_flags &&& TIDEWAYS_FLAGS_NO_HIERACHICAL > 0 := by omega
  unfold hp_leave_stats
  cases g.entries with
  | nil => rfl
  | cons top rest => simp only [if_pos hh2]

theorem span_balance_modify (spans : SpanTree) (id id2 : Int) (f : Span → Span)
    (hf : ∀ s, ((f s).b.length : Int) - ((f s).e.length : Int)
      = (s.b.length : Int) - (s.e.length : Int)) :
    span_balance (zend_hash_modify spans id f) id2 = span_balance spans id2 := by
  unfold span_balance
  by_cases hid : id2 = id
  · subst hid
    rw [zend_hash_find_modify_self]
    cases zend_hash_find spans id2 with
    | none => rfl
    | some s => simp [hf s]
  · rw [zend_hash_find_modify_other _ _ _ _ hid]

theorem span_balance_record_duration (spans : SpanTree) (id id2 : Int) (a b : Int) :
    span_balance (tw_span_record_duration spans id a b) id2 = span_balance spans id2 := by
  unfold tw_span_record_duration
  cases zend_hash_find spans id with
  | none => rfl
  | some s =>
    apply span_balance_modify
    intro s
    simp only [List.length_append, List.length_singleton]
    push_cast; ring

theorem span_balance_annotate_long (spans : SpanTree) (id id2 : Int) (k : CStr) (v : Int) :
    span_balance (tw_span_annotate_long spans id k v) id2 = span_balance spans id2 := by
  unfold tw_span_annotate_long
  cases zend_hash_find spans id with
  | none => rfl
  | some s => exact span_balance_modify _ _ _ _ (fun s => rfl)

theorem span_balance_timer_stop (spans : SpanTree) (st now : Nat) (id id2 : Int) :
    span_balance (tw_span_timer_stop spans st now id) id2
      = (span_balance spans id2).map (fun d => d - (if id2 = id then 1 else 0)) := by
  unfold tw_span_timer_stop span_balance
  cases hf : zend_hash_find spans id with
  | none =>
    by_cases hid : id2 = id
    · subst hid; simp [hf]
    · simp only [if_neg hid, sub_zero]
      cases zend_hash_find spans id2 <;> rfl
  | some s =>
    by_cases hid : id2 = id
    · subst hid
      simp only [zend_hash_find_modify_self, hf, Option.map_some', if_true,
        List.length_append, List.length_singleton]
      push_cast
      congr 1
      ring
    · rw [zend_hash_find_modify_other _ _ _ _ hid]
      simp only [if_neg hid, sub_zero]
      cases zend_hash_find spans id2 <;> rfl

theorem span_balance_leave (g : hp_global_t) (h : host_t) (sp : SpanTree) (id : Int) :
    span_balance (hp_leave_spans g h sp) id = span_balance sp id := by
  unfold hp_leave_spans
  cases g.entries with
  | nil => rfl
  | cons top rest =>
    simp only
    split
    · exact span_balance_record_duration _ _ _ _ _
    · rfl

theorem span_balance_stop_annotate (g : hp_global_t) (sp : SpanTree) (h : host_t) (id : Int) :
    span_balance (hp_stop_annotate g sp h) id = span_balance sp id := by
  unfold hp_stop_annotate
  split
  · simp only
    rw [span_balance_annotate_long]
    split <;> split <;> split <;>
      simp only [span_balance_annotate_long]
  · rfl
/-- The loop of `hp_stop` on a stack of any height: it ends with the empty
stack, has released the frames top first, keeps the balance of every span,
and has folded every frame into the statistics once. -/
theorem hp_stop_loop_spec (clock : Nat → host_t) (fuel : Nat) :
    ∀ (g : hp_global_t) (i : Nat) (sp0 : SpanTree), g.entries.length ≤ fuel →
      g.spans = some sp0 →
      ∃ (g1 : hp_global_t) (sp1 : SpanTree),
        hp_stop_loop clock fuel i g = some (g1, i + g.entries.length) ∧
        g1.entries = [] ∧
        g1.entry_free_list = g.entries.reverse ++ g.entry_free_list ∧
        g1.spans = some sp1 ∧
        (∀ id, span_balance sp1 id = span_balance sp0 id) ∧
        g1.tideways_flags = g.tideways_flags ∧
        (g.tideways_flags &&& TIDEWAYS_FLAGS_NO_HIERACHICAL = 0 →
          (∃ st, g.stats_count = some st) →
          hp_stats_ct_sum g1.stats_count
            = hp_stats_ct_sum g.stats_count + (g.entries.length : Int)) ∧
        (¬ g.tideways_flags &&& TIDEWAYS_FLAGS_NO_HIERACHICAL = 0 →
          g1.stats_count = g.stats_count) := by
  induction fuel with
  | zero =>
    intro g i sp0 hlen hsp
    have he : g.entries = [] := List.length_eq_zero.mp (by omega)
    exact ⟨g, sp0, by simp [hp_stop_loop, he], he, by simp [he], hsp, fun _ => rfl, rfl,
      fun _ _ => by simp [he], fun _ => rfl⟩
  | succ fuel ih =>
    intro g i sp0 hlen hsp
    cases he : g.entries with
    | nil =>
      exact ⟨g, sp0, by simp [hp_stop_loop, he], he, by simp [he], hsp, fun _ => rfl, rfl,
        fun _ _ => by simp, fun _ => rfl⟩
    | cons top rest =>
      have hend := END_PROFILING_spec_spans g (clock i) top rest sp0 hsp he
      obtain ⟨g1, sp1, r1, r2, r3, r4, r5, r6, r7, r8⟩ :=
        ih { g with entries := rest, entry_free_list := top :: g.entry_free_list,
                    spans := some (hp_leave_spans g (clock i) sp0),
                    stats_count := hp_leave_stats g (clock i),
                    func_hash_counters := hp_leave_counters g }
          (i + 1) (hp_leave_spans g (clock i) sp0)
          (by rw [he] at hlen; simp at hlen ⊢; omega) rfl
      refine ⟨g1, sp1, ?_, r2, ?_, r4, ?_, r6, ?_, ?_⟩
      · have hne : ¬ g.entries = [] := by rw [he]; simp
        simp only [hp_stop_loop, hne, if_false, hend, Option.some_bind]
        rw [r1]
        simp only [List.length_cons]
        congr 2; omega
      · rw [r3]; simp
      · intro id
        rw [r5 id, span_balance_leave]
      · intro hh hst
        obtain ⟨st, hst⟩ := hst
        obtain ⟨hs1, hs2⟩ := hp_leave_stats_sum g (clock i) top rest st he hh hst
        rw [r7 hh hs1]
        simp only [hs2, List.length_cons]
        push_cast
        ring
      · intro hh
        rw [r8 hh]
        exact hp_leave_stats_flat g (clock i) hh

/-- C14. For every session with a span tree and a statistics table (every
enabled session has both) and m open frames, `hp_stop` returns a state: the
call stack is empty, the enabled flag is 0, the m frames were released top
first (the free list, which receives each closed frame at its head, has
grown by the reversed stack), and when NO_HIERACHICAL is not set the sum of
all counters `ct` has grown by exactly m. -/
theorem hp_stop_closes_all_frames (g : hp_global_t) (clock : Nat → host_t)
    (sp0 : SpanTree) (st : StatsTable)
    (hsp : g.spans = some sp0) (hst : g.stats_count = some st) :
    ∃ g2 : hp_global_t,
      hp_stop g clock = some g2 ∧
      g2.entries = [] ∧
      g2.enabled = 0 ∧
      g2.entry_free_list = g.entries.reverse ++ g.entry_free_list ∧
      (g.tideways_flags &&& TIDEWAYS_FLAGS_NO_HIERACHICAL = 0 →
        hp_stats_ct_sum g2.stats_count
          = hp_stats_ct_sum g.stats_count + (g.entries.length : Int)) := by
  obtain ⟨g1, sp1, r1, r2, r3, r4, _, _, r7, _⟩ :=
    hp_stop_loop_spec clock g.entries.length g 0 sp0 (le_refl _) hsp
  refine ⟨{ g1 with spans := some (hp_stop_annotate g1
      (tw_span_timer_stop sp1 g1.start_time (clock (0 + g.entries.length)).cycle_timer 0)
      (clock (0 + g.entries.length))), root := none, enabled := 0 }, ?_, r2, rfl, r3, ?_⟩
  · unfold hp_stop
    rw [r1]
    simp only [Option.some_bind, r4]
  · intro hh
    exact r7 hh ⟨st, hst⟩
theorem hp_stop_closes_all_frames_witness :
    hp_session_in_foo.spans
        = some [(0, { n := "app".toList, b := [0], e := [], p := none, a := none })] ∧
    hp_session_in_foo.stats_count = some [] ∧
    ∃ g2 : hp_global_t,
      hp_stop hp_session_in_foo (fun _ => host_at 5) = some g2 ∧
      g2.entries = [] ∧
      g2.enabled = 0 ∧
      g2.entry_free_list
        = hp_session_in_foo.entries.reverse ++ hp_session_in_foo.entry_free_list ∧
      (hp_session_in_foo.tideways_flags &&& TIDEWAYS_FLAGS_NO_HIERACHICAL = 0 →
        hp_stats_ct_sum g2.stats_count
          = hp_stats_ct_sum hp_session_in_foo.stats_count
            + (hp_session_in_foo.entries.length : Int)) :=
  ⟨rfl, rfl, hp_stop_closes_all_frames hp_session_in_foo (fun _ => host_at 5) _ [] rfl rfl⟩

/-- What `hp_stop` does to the spans: the root span 0 receives one stop, and
every other span keeps its number of starts minus stops. -/
theorem hp_stop_span_balance_gen (g : hp_global_t) (clock : Nat → host_t) (sp0 : SpanTree)
    (hsp : g.spans = some sp0) :
    ∃ (g2 : hp_global_t) (sp2 : SpanTree),
      hp_stop g clock = some g2 ∧ g2.spans = some sp2 ∧
      ∀ id, span_balance sp2 id
        = (span_balance sp0 id).map (fun d => d - (if id = 0 then 1 else 0)) := by
  obtain ⟨g1, sp1, r1, _, _, r4, r5, _, _, _⟩ :=
    hp_stop_loop_spec clock g.entries.length g 0 sp0 (le_refl _) hsp
  refine ⟨{ g1 with spans := some (hp_stop_annotate g1
      (tw_span_timer_stop sp1 g1.start_time (clock (0 + g.entries.length)).cycle_timer 0)
      (clock (0 + g.entries.length))), root := none, enabled := 0 }, _, ?_, rfl, ?_⟩
  · unfold hp_stop
    rw [r1]
    simp only [Option.some_bind, r4]
  · intro id
    rw [span_balance_stop_annotate, span_balance_timer_stop, r5 id]

/-- C15, as the code has it. `hp_stop` closes the root span 0 only: span 0
receives one stop, and every other span of the tree has after `hp_stop` the
same number of starts minus stops as before, so a span that the application
started without stopping it stays open. -/
theorem hp_stop_closes_root_span_only (g : hp_global_t) (clock : Nat → host_t)
    (sp0 : SpanTree) (hsp : g.spans = some sp0) :
    ∃ (g2 : hp_global_t) (sp2 : SpanTree),
      hp_stop g clock = some g2 ∧ g2.spans = some sp2 ∧
      span_balance sp2 0 = (span_balance sp0 0).map (fun d => d - 1) ∧
      ∀ id, id ≠ 0 → span_balance sp2 id = span_balance sp0 id := by
  obtain ⟨g2, sp2, h1, h2, h3⟩ := hp_stop_span_balance_gen g clock sp0 hsp
  refine ⟨g2, sp2, h1, h2, ?_, ?_⟩
  · rw [h3 0]; simp
  · intro id hid
    rw [h3 id]
    simp only [if_neg hid, sub_zero]
    cases span_balance sp0 id <;> rfl

theorem hp_stop_closes_root_span_only_witness :
    hp_session_open_span.spans
      = some [(0, { n := "app".toList, b := [0], e := [], p := none, a := none }),
              (1, { n := "php".toList, b := [3], e := [], p := none, a := none })] ∧
    ∃ (g2 : hp_global_t) (sp2 : SpanTree),
      hp_stop hp_session_open_span (fun _ => host_at 5) = some g2 ∧ g2.spans = some sp2 ∧
      span_balance sp2 0
        = (span_balance [(0, { n := "app".toList, b := [0], e := [], p := none, a := none }),
              (1, { n := "php".toList, b := [3], e := [], p := none, a := none })] 0).map
            (fun d => d - 1) ∧
      ∀ id, id ≠ 0 → span_balance sp2 id
        = span_balance [(0, { n := "app".toList, b := [0], e := [], p := none, a := none }),
              (1, { n := "php".toList, b := [3], e := [], p := none, a := none })] id :=
  ⟨rfl, hp_stop_closes_root_span_only hp_session_open_span (fun _ => host_at 5) _ rfl⟩

/-- C15, counterexample. In the session where the application has started
span 1 at time 3 and not stopped it, `hp_stop` returns a state in which span
1 still has one start and no stop. -/
theorem hp_stop_leaves_span_open :
    ∃ (g2 : hp_global_t) (sp2 : SpanTree) (s : Span),
      hp_stop hp_session_open_span (fun _ => host_at 5) = some g2 ∧ g2.spans = some sp2 ∧
      zend_hash_find sp2 1 = some s ∧ s.b.length = 1 ∧ s.e.length = 0 := by
  refine ⟨_, _, _, rfl, rfl, rfl, rfl, rfl⟩

/-! ## Recursion levels and bucket counters -/

theorem hp_symbol_frames_le_bucket (entries : List hp_entry_t) (s : CStr)
    (hhash : ∀ f ∈ entries, f.hash_code = hp_inline_hash f.name_hprof) :
    hp_symbol_frames entries s ≤ hp_bucket_frames entries (hp_inline_hash s) := by
  induction entries with
  | nil => simp [hp_symbol_frames, hp_bucket_frames]
  | cons p rest ih =>
    have ih1 := ih (fun f hf => hhash f (List.mem_cons_of_mem _ hf))
    have hp := hhash p (List.mem_cons_self _ _)
    unfold hp_symbol_frames hp_bucket_frames at *
    simp only [List.countP_cons]
    by_cases hn : p.name_hprof = s
    · have hk : p.hash_code = hp_inline_hash s := by rw [hp, hn]
      simp only [hn, hk, decide_True, if_true]
      omega
    · by_cases hk : p.hash_code = hp_inline_hash s
      · simp only [hn, hk, decide_False, decide_True, if_true, Bool.false_eq_true, if_false]
        omega
      · simp only [hn, hk, decide_False, Bool.false_eq_true, if_false]
        omega

/-- The scan for the nearest frame of the same symbol returns the number of
frames of that symbol, when the bucket of the symbol holds at most 255
frames. -/
theorem hp_scan_recurse_level_counts (s : CStr) (entries : List hp_entry_t)
    (hhash : ∀ f ∈ entries, f.hash_code = hp_inline_hash f.name_hprof)
    (hlv : hp_levels_ok entries)
    (hcap : hp_bucket_frames entries (hp_inline_hash s) ≤ 255) :
    hp_scan_recurse_level s entries = (hp_symbol_frames entries s : Int) := by
  induction entries with
  | nil => rfl
  | cons p rest ih =>
    have hp := hhash p (List.mem_cons_self _ _)
    have hcons : hp_bucket_frames (p :: rest) (hp_inline_hash s)
        = hp_bucket_frames rest (hp_inline_hash s)
          + (if p.hash_code = hp_inline_hash s then 1 else 0) := by
      simp [hp_bucket_frames, List.countP_cons]
    have hcons2 : hp_symbol_frames (p :: rest) s
        = hp_symbol_frames rest s + (if p.name_hprof = s then 1 else 0) := by
      simp [hp_symbol_frames, List.countP_cons]
    by_cases hn : s = p.name_hprof
    · have hk : p.hash_code = hp_inline_hash s := by rw [hp, hn]
      rw [hcons, if_pos hk] at hcap
      have h1 := hlv.1 (by rw [hk]; omega)
      simp only [hp_scan_recurse_level, if_pos hn]
      rw [hcons2, if_pos hn.symm, h1, ← hn]
      push_cast
      rfl
    · have hn2 : ¬ p.name_hprof = s := fun h => hn h.symm
      simp only [hp_scan_recurse_level, if_neg hn]
      rw [hcons2, if_neg hn2, Nat.add_zero]
      apply ih (fun f hf => hhash f (List.mem_cons_of_mem _ hf)) hlv.2
      rw [hcons] at hcap
      omega

/-- The level that the begin callback computes with the bucket counter as
short-circuit is the number of frames of the symbol. -/
theorem hp_enter_level_counts (g : hp_global_t) (s : CStr) (hinv : hp_stack_inv g)
    (hcap : hp_bucket_frames g.entries (hp_inline_hash s) ≤ 255) :
    hp_enter_level g s = (hp_symbol_frames g.entries s : Int) := by
  obtain ⟨hhash, hcnt, hlv⟩ := hinv
  unfold hp_enter_level
  by_cases hc : g.func_hash_counters (hp_inline_hash s) > 0
  · rw [if_pos hc]
    exact hp_scan_recurse_level_counts s g.entries hhash hlv hcap
  · rw [if_neg hc]
    have h0 := hcnt (hp_inline_hash s)
    have hle := hp_symbol_frames_le_bucket g.entries s hhash
    have : hp_symbol_frames g.entries s = 0 := by omega
    rw [this]
    rfl

/-- The begin of a call keeps what holds of stack and counters. -/
theorem BEGIN_PROFILING_inv (g : hp_global_t) (s : CStr) (d : Option zend_execute_data)
    (h : host_t) (g1 : hp_global_t) (flag : Int)
    (hsess : hp_session_inv g) (hinv : hp_stack_inv g)
    (hb : BEGIN_PROFILING g s d h = some (g1, flag)) :
    hp_session_inv g1 ∧ hp_stack_inv g1 := by
  obtain ⟨hok, hh, st, hst⟩ := hsess
  by_cases hf : hp_filter_entry g (hp_inline_hash s) s = 0
  · obtain ⟨f, sp, sc, hb2, hname, hhc, _, hlvl, hsc⟩ := BEGIN_PROFILING_spec g s d h hok hf
    rw [hb2] at hb
    simp only [Option.some.injEq, Prod.mk.injEq] at hb
    obtain ⟨hg1, _⟩ := hb
    subst hg1
    refine ⟨⟨⟨rfl, fun hns => ⟨(hok.2 hns).1, hsc (hok.2 hns).2⟩⟩, hh, st, hst⟩, ?_, ?_, ?_⟩
    · intro f1 hf1
      simp only [List.mem_cons] at hf1
      rcases hf1 with h1 | h1
      · rw [h1, hhc, hname]
      · exact hinv.1 f1 h1
    · intro k
      simp only [hp_enter_counters, hh, if_true, hp_bucket_frames, List.countP_cons]
      have hk := hinv.2.1 k
      have hk2 := hinv.2.1 (hp_inline_hash s)
      unfold hp_bucket_frames at hk hk2
      by_cases hkk : k = hp_inline_hash s
      · subst hkk
        simp only [Function.update_same, hhc, decide_True, if_true]
        omega
      · have hkk2 : ¬ f.hash_code = k := by rw [hhc]; exact fun h => hkk h.symm
        simp only [Function.update_noteq hkk, hkk2, decide_False]
        simpa using hk
    · refine ⟨?_, hinv.2.2⟩
      intro hcap
      rw [hlvl hh, hname]
      rw [hhc] at hcap
      exact hp_enter_level_counts g s hinv hcap
  · rw [BEGIN_PROFILING_filtered g s d h hf] at hb
    simp only [Option.some.injEq, Prod.mk.injEq] at hb
    obtain ⟨hg1, _⟩ := hb
    subst hg1
    exact ⟨⟨hok, hh, st, hst⟩, hinv⟩

/-- The end of a call keeps what holds of stack and counters. -/
theorem END_PROFILING_inv (g : hp_global_t) (flag : Int) (h : host_t) (g1 : hp_global_t)
    (hsess : hp_session_inv g) (hinv : hp_stack_inv g)
    (he : END_PROFILING g flag h = some g1) :
    hp_session_inv g1 ∧ hp_stack_inv g1 := by
  obtain ⟨hok, hh, st, hst⟩ := hsess
  by_cases hflag : flag = 0
  · subst hflag
    rw [END_PROFILING_zero] at he
    simp only [Option.some.injEq] at he
    subst he
    exact ⟨⟨hok, hh, st, hst⟩, hinv⟩
  · rw [END_PROFILING_flag g flag h hflag] at he
    cases hent : g.entries with
    | nil =>
      exfalso
      unfold END_PROFILING hp_mode_hier_endfn_cb at he
      simp [hent] at he
    | cons top rest =>
      obtain ⟨sp, hend⟩ := END_PROFILING_spec g h top rest hok hent
      rw [hend] at he
      simp only [Option.some.injEq] at he
      subst he
      obtain ⟨⟨st1, hst1⟩, _⟩ := hp_leave_stats_sum g h top rest st hent hh hst
      obtain ⟨hhash, hcnt, hlv⟩ := hinv
      rw [hent] at hhash hcnt hlv
      refine ⟨⟨⟨rfl, fun hns => hok.2 hns⟩, hh, st1, hst1⟩, ?_, ?_, hlv.2⟩
      · intro f1 hf1
        exact hhash f1 (List.mem_cons_of_mem _ hf1)
      · intro k
        have hh2 : ¬ (g.tideways_flags &&& TIDEWAYS_FLAGS_NO_HIERACHICAL > 0) := by omega
        simp only [hp_leave_counters, hent, hh2, if_false, hst]
        have hk := hcnt k
        have hk2 := hcnt top.hash_code
        simp only [hp_bucket_frames, List.countP_cons] at hk hk2 ⊢
        by_cases hkk : k = top.hash_code
        · subst hkk
          simp only [Function.update_same, decide_True, if_true] at hk2 ⊢
          omega
        · have hkk2 : ¬ top.hash_code = k := fun h => hkk h.symm
          simp only [Function.update_noteq hkk]
          simp only [hkk2, decide_False] at hk
          simpa using hk

theorem hp_step_inv (g : hp_global_t) (fl : List Int) (c : hp_call) (g1 : hp_global_t)
    (fl1 : List Int) (hsess : hp_session_inv g) (hinv : hp_stack_inv g)
    (hs : hp_step g fl c = some (g1, fl1)) :
    hp_session_inv g1 ∧ hp_stack_inv g1 := by
  cases c with
  | enter s d h =>
    simp only [hp_step, Option.map_eq_some', Prod.mk.injEq] at hs
    obtain ⟨r, hr, hr1, _⟩ := hs
    subst hr1
    exact BEGIN_PROFILING_inv g s d h r.1 r.2 hsess hinv hr
  | leave h =>
    cases fl with
    | nil => simp [hp_step] at hs
    | cons flag fl0 =>
      simp only [hp_step] at hs
      by_cases hempty : g.entries = []
      · simp only [hempty, if_true, Option.some.injEq, Prod.mk.injEq] at hs
        obtain ⟨hg, _⟩ := hs
        subst hg
        exact ⟨hsess, hinv⟩
      · simp only [hempty, if_false, Option.map_eq_some', Prod.mk.injEq] at hs
        obtain ⟨r, hr, hr1, _⟩ := hs
        subst hr1
        exact END_PROFILING_inv g flag h r hsess hinv hr

theorem hp_run_inv (calls : List hp_call) :
    ∀ (g : hp_global_t) (fl : List Int) (g1 : hp_global_t) (fl1 : List Int),
      hp_session_inv g → hp_stack_inv g → hp_run g fl calls = some (g1, fl1) →
      hp_session_inv g1 ∧ hp_stack_inv g1 := by
  induction calls with
  | nil =>
    intro g fl g1 fl1 hsess hinv hr
    simp only [hp_run, Option.some.injEq, Prod.mk.injEq] at hr
    obtain ⟨hg, _⟩ := hr
    subst hg
    exact ⟨hsess, hinv⟩
  | cons c cs ih =>
    intro g fl g1 fl1 hsess hinv hr
    simp only [hp_run, Option.bind_eq_some] at hr
    obtain ⟨r, hr1, hr2⟩ := hr
    obtain ⟨h1, h2⟩ := hp_step_inv g fl c r.1 r.2 hsess hinv hr1
    exact ih r.1 r.2 g1 fl1 h1 h2 hr2
/-- The state that `hp_begin` returns for a state with an empty stack and
bucket counters 0 has what holds of stack and counters. -/
theorem hp_begin_inv (g00 : hp_global_t) (flags : Int)
    (registered : HashTable CStr tw_trace_callback) (clock : Nat → host_t) (g0 : hp_global_t)
    (hen : g00.enabled = 0) (hent : g00.entries = [])
    (hcnt : ∀ k, g00.func_hash_counters k = 0)
    (hfl : (flags % 2 ^ 32).toNat &&& TIDEWAYS_FLAGS_NO_HIERACHICAL = 0)
    (hb : hp_begin g00 flags registered clock = some g0) :
    hp_session_inv g0 ∧ hp_stack_inv g0 := by
  cases g00 with
  | mk enabled ever stats spans st exc entries fl tf tn root ef flags0 counters ft ff tcb scache
      gr gc cc cw cs =>
  simp only at hen hent hcnt
  subst hen
  subst hent
  have hstack : ∀ (g : hp_global_t), g.entries = [] → g.func_hash_counters = counters →
      hp_stack_inv g := by
    intro g h1 h2
    refine ⟨?_, ?_, ?_⟩
    · intro f hf; rw [h1] at hf; simp at hf
    · intro k; rw [h1, h2, hcnt k]; rfl
    · rw [h1]; trivial
  unfold hp_begin hp_init_profiler_state hp_init_trace_callbacks at hb
  simp only [if_true] at hb
  by_cases hns : (flags % 2 ^ 32).toNat &&& TIDEWAYS_FLAGS_NO_SPANS > 0
  · have hns0 : ¬ (flags % 2 ^ 32).toNat &&& TIDEWAYS_FLAGS_NO_SPANS = 0 := by omega
    by_cases hev : ever = 0
    · simp only [hev, hns, hns0, if_true, if_false, Option.map_eq_some'] at hb
      obtain ⟨r, hr, hr1⟩ := hb
      subst hr1
      refine BEGIN_PROFILING_inv _ _ _ _ r.1 r.2 ?_ ?_ hr
      · exact ⟨⟨rfl, fun h0 => absurd h0 hns0⟩, hfl, _, rfl⟩
      · exact hstack _ rfl rfl
    · simp only [hev, hns, hns0, if_true, if_false, Option.map_eq_some'] at hb
      obtain ⟨r, hr, hr1⟩ := hb
      subst hr1
      refine BEGIN_PROFILING_inv _ _ _ _ r.1 r.2 ?_ ?_ hr
      · exact ⟨⟨rfl, fun h0 => absurd h0 hns0⟩, hfl, _, rfl⟩
      · exact hstack _ rfl rfl
  · have hns0 : (flags % 2 ^ 32).toNat &&& TIDEWAYS_FLAGS_NO_SPANS = 0 := by omega
    by_cases hev : ever = 0
    · simp only [hev, hns0, gt_iff_lt, lt_self_iff_false, if_true, if_false, Option.map_eq_some'] at hb
      obtain ⟨r, hr, hr1⟩ := hb
      subst hr1
      refine BEGIN_PROFILING_inv _ _ _ _ r.1 r.2 ?_ ?_ hr
      · exact ⟨⟨rfl, fun _ => ⟨rfl, rfl⟩⟩, hfl, _, rfl⟩
      · exact hstack _ rfl rfl
    · simp only [hev, hns0, gt_iff_lt, lt_self_iff_false, if_true, if_false, Option.map_eq_some'] at hb
      obtain ⟨r, hr, hr1⟩ := hb
      subst hr1
      refine BEGIN_PROFILING_inv _ _ _ _ r.1 r.2 ?_ ?_ hr
      · exact ⟨⟨rfl, fun _ => ⟨rfl, rfl⟩⟩, hfl, _, rfl⟩
      · exact hstack _ rfl rfl

/-- C20. Take a session that `hp_begin` starts without NO_HIERACHICAL from a
state with an empty stack and all bucket counters 0, and any sequence of
call boundaries in it. If in the state reached every hash bucket holds at
most 255 frames, then a call of a symbol s that the filter lets pass is
entered, and the recursion level of its frame is the number of frames on
the stack whose symbol is s; the scan of the stack without the bucket
counter gives the same number. -/
theorem hp_enter_level_counts_frames (g00 : hp_global_t) (flags : Int)
    (registered : HashTable CStr tw_trace_callback) (clock : Nat → host_t)
    (g0 : hp_global_t) (fl0 : List Int) (calls : List hp_call) (g : hp_global_t)
    (fl : List Int) (s : CStr) (d : Option zend_execute_data) (h : host_t)
    (hen : g00.enabled = 0) (hent : g00.entries = [])
    (hcnt : ∀ k, g00.func_hash_counters k = 0)
    (hfl : (flags % 2 ^ 32).toNat &&& TIDEWAYS_FLAGS_NO_HIERACHICAL = 0)
    (hbegin : hp_begin g00 flags registered clock = some g0)
    (hrun : hp_run g0 fl0 calls = some (g, fl))
    (hcap : ∀ k, hp_bucket_frames g.entries k ≤ 255)
    (hf : hp_filter_entry g (hp_inline_hash s) s = 0) :
    ∃ (f : hp_entry_t) (g1 : hp_global_t),
      BEGIN_PROFILING g s d h = some (g1, 1) ∧
      g1.entries = f :: g.entries ∧ f.name_hprof = s ∧
      f.rlvl_hprof = (hp_symbol_frames g.entries s : Int) ∧
      hp_scan_recurse_level s g.entries = (hp_symbol_frames g.entries s : Int) := by
  obtain ⟨hs0, hi0⟩ := hp_begin_inv g00 flags registered clock g0 hen hent hcnt hfl hbegin
  obtain ⟨hs1, hi1⟩ := hp_run_inv calls g0 fl0 g fl hs0 hi0 hrun
  obtain ⟨f, sp, sc, hb, hname, _, _, hlvl, _⟩ := BEGIN_PROFILING_spec g s d h hs1.1 hf
  refine ⟨f, _, hb, rfl, hname, ?_, ?_⟩
  · rw [hlvl hs1.2.1]
    exact hp_enter_level_counts g s hi1 (hcap _)
  · exact hp_scan_recurse_level_counts s g.entries hi1.1 hi1.2.2 (hcap _)

theorem hp_enter_level_counts_frames_witness :
    ∃ (f : hp_entry_t) (g1 : hp_global_t),
      BEGIN_PROFILING hp_session_foo_bar_foo "foo".toList (some no_args) (host_at 40)
        = some (g1, 1) ∧
      g1.entries = f :: hp_session_foo_bar_foo.entries ∧ f.name_hprof = "foo".toList ∧
      f.rlvl_hprof = (hp_symbol_frames hp_session_foo_bar_foo.entries "foo".toList : Int) ∧
      hp_scan_recurse_level "foo".toList hp_session_foo_bar_foo.entries
        = (hp_symbol_frames hp_session_foo_bar_foo.entries "foo".toList : Int) :=
  hp_enter_level_counts_frames hp_globals_minit 0 [] (fun _ => host_at 0) hp_session0 []
    calls_foo_bar_foo hp_session_foo_bar_foo [1, 1, 1] "foo".toList (some no_args) (host_at 40)
    rfl rfl (fun _ => rfl) rfl rfl rfl
    (fun _ => le_trans (List.countP_le_length _)
      (show hp_session_foo_bar_foo.entries.length ≤ 255 by decide)) rfl

/-! ## Transaction name and exception -/

theorem hp_detect_transaction_name_set (g : hp_global_t) (ret : CStr)
    (data : Option zend_execute_data) (hset : g.transaction_name.isSome = true) :
    hp_detect_transaction_name g ret data = some g := by
  unfold hp_detect_transaction_name
  cases g.transaction_function with
  | none => rfl
  | some tf => simp only [hset, true_or, if_true]

/-- C16. Once the session holds a transaction name, every sequence of later
calls of `hp_detect_transaction_name`, for any symbols and any arguments,
returns the state as it was: the transaction name, like every other field,
is unchanged. -/
theorem hp_transaction_name_set_once (g : hp_global_t) (name : hp_string)
    (calls : List (CStr × Option zend_execute_data))
    (hset : g.transaction_name = some name) :
    hp_detect_transaction_names g calls = some g := by
  induction calls with
  | nil => rfl
  | cons c cs ih =>
    simp only [hp_detect_transaction_names,
      hp_detect_transaction_name_set g c.1 c.2 (by rw [hset]; rfl), Option.some_bind]
    exact ih

theorem hp_transaction_name_set_once_witness :
    hp_session_named.transaction_name = some (hp_create_string "home".toList 4) ∧
    hp_detect_transaction_names hp_session_named
      [("start_tx".toList, some { args := [.IS_STRING "other".toList], object := none }),
       ("Zend_Controller_Action::dispatch".toList, none)] = some hp_session_named :=
  ⟨rfl, hp_transaction_name_set_once hp_session_named (hp_create_string "home".toList 4) _ rfl⟩

theorem hp_detect_exception_loop_spec (g : hp_global_t) (args : List zval) :
    hp_detect_exception_loop g args
      = { g with exception :=
            (match first_exception args with
             | some e => some e
             | none => g.exception) } := by
  induction args with
  | nil => rfl
  | cons a rest ih =>
    unfold hp_detect_exception_loop first_exception
    by_cases ha : zval_instanceof_exception a = true
    · simp only [ha, if_true, List.find?_cons_of_pos]
    · simp only [ha, if_false, Bool.false_eq_true]
      rw [ih]
      have ha2 : zval_instanceof_exception a = false := by simpa using ha
      simp only [first_exception, List.find?_cons, ha2]

theorem hp_execute_detect_exceptions_spec (marker : hp_string)
    (calls : List (CStr × zend_execute_data)) :
    ∀ g : hp_global_t, g.exception_function = some marker →
      hp_execute_detect_exceptions g calls
        = some { g with exception := last_marker_exception marker.value g.exception calls } := by
  induction calls with
  | nil => intro g _; rfl
  | cons c cs ih =>
    intro g hm
    cases g with
    | mk enabled ever stats spans st exc entries fl tf tn root ef flags counters ft ff tcb scache
        gr gc cc cw cs0 =>
    simp only at hm
    subst hm
    unfold hp_execute_detect_exceptions hp_execute_detect_exception
    by_cases hc : c.1 = marker.value
    · simp only [hc, if_true, hp_detect_exception, Option.some_bind,
        hp_detect_exception_loop_spec, last_marker_exception]
      exact ih _ rfl
    · simp only [hc, if_false, Option.some_bind, last_marker_exception]
      exact ih _ rfl

/-- C17, as the code has it. After any sequence of calls in a session with an
exception marker, the retained exception is the first exception object among
the arguments of the last call of the marker symbol that carried one; when
no marker call carried one it is the exception held before. The rest of the
state is unchanged. -/
theorem hp_exception_last_marker_call (g : hp_global_t) (marker : hp_string)
    (calls : List (CStr × zend_execute_data))
    (hm : g.exception_function = some marker) :
    hp_execute_detect_exceptions g calls
      = some { g with exception := last_marker_exception marker.value g.exception calls } :=
  hp_execute_detect_exceptions_spec marker calls g hm

theorem hp_exception_last_marker_call_witness :
    hp_session_marker.exception_function
      = some (hp_create_string "handle_exception".toList 16) ∧
    hp_execute_detect_exceptions hp_session_marker
        [("handle_exception".toList, { args := [.IS_LONG 1, exception_one], object := none }),
         ("foo".toList, { args := [exception_two], object := none }),
         ("handle_exception".toList, { args := [.IS_LONG 2], object := none })]
      = some { hp_session_marker with
          exception := last_marker_exception
            (hp_create_string "handle_exception".toList 16).value hp_session_marker.exception
            [("handle_exception".toList, { args := [.IS_LONG 1, exception_one], object := none }),
             ("foo".toList, { args := [exception_two], object := none }),
             ("handle_exception".toList, { args := [.IS_LONG 2], object := none })] } :=
  ⟨rfl, hp_exception_last_marker_call hp_session_marker _ _ rfl⟩

/-- C17, counterexample. Two calls of the marker symbol, the first with the
exception object `exception_one`, the second with `exception_two`: the
session retains `exception_two`, not the exception of the first call. -/
theorem hp_exception_overwritten :
    ∃ g1 : hp_global_t,
      hp_execute_detect_exceptions hp_session_marker
          [("handle_exception".toList, { args := [exception_one], object := none }),
           ("handle_exception".toList, { args := [exception_two], object := none })]
        = some g1 ∧
      g1.exception = some exception_two ∧ exception_two ≠ exception_one :=
  ⟨_, rfl, rfl, by decide⟩

/-! ## Calls with an extractor -/

theorem beginfn_spans_callback (g : hp_global_t) (c : hp_entry_t) (dd : zend_execute_data)
    (h : host_t) (callbacks : HashTable CStr tw_trace_callback) (cb : tw_trace_callback)
    (sp : SpanTree) (sc : HashTable CStr Int)
    (hns : g.tideways_flags &&& TIDEWAYS_FLAGS_NO_SPANS = 0)
    (hcb : g.trace_callbacks = some callbacks)
    (hfind : zend_hash_find callbacks c.name_hprof = some cb)
    (hsp : g.spans = some sp) (hsc : g.span_cache = some sc) :
    beginfn_spans g c (some dd) h
      = some ({ c with span_id := (cb c.name_hprof dd.args dd.object g.start_time
                  h.cycle_timer_cb { spans := sp, span_cache := sc }).1 },
              { g with
                spans := some (cb c.name_hprof dd.args dd.object g.start_time
                  h.cycle_timer_cb { spans := sp, span_cache := sc }).2.spans,
                span_cache := some (cb c.name_hprof dd.args dd.object g.start_time
                  h.cycle_timer_cb { spans := sp, span_cache := sc }).2.span_cache }) := by
  cases g with
  | mk enabled ever stats spans st exc entries fl tf tn root ef flags counters ft ff tcb scache
      gr gc cc cw cs =>
  simp only at hns hcb hsp hsc
  subst hcb
  subst hsp
  subst hsc
  unfold beginfn_spans
  simp only [hns, if_true, hfind]

/-- What `BEGIN_PROFILING` does for a symbol with a registered extractor. -/
theorem BEGIN_PROFILING_callback (g : hp_global_t) (s : CStr) (dd : zend_execute_data)
    (h : host_t) (callbacks : HashTable CStr tw_trace_callback) (cb : tw_trace_callback)
    (sp : SpanTree) (sc : HashTable CStr Int)
    (hns : g.tideways_flags &&& TIDEWAYS_FLAGS_NO_SPANS = 0)
    (hf : hp_filter_entry g (hp_inline_hash s) s = 0)
    (hcb : g.trace_callbacks = some callbacks)
    (hfind : zend_hash_find callbacks s = some cb)
    (hsp : g.spans = some sp) (hsc : g.span_cache = some sc) :
    ∃ f : hp_entry_t,
      BEGIN_PROFILING g s (some dd) h
        = some ({ g with
                  entries := f :: g.entries,
                  entry_free_list := g.entry_free_list.tail,
                  func_hash_counters := hp_enter_counters g (hp_inline_hash s),
                  spans := some (cb s dd.args dd.object g.start_time h.cycle_timer_cb
                    { spans := sp, span_cache := sc }).2.spans,
                  span_cache := some (cb s dd.args dd.object g.start_time h.cycle_timer_cb
                    { spans := sp, span_cache := sc }).2.span_cache }, 1) ∧
      f.name_hprof = s ∧ f.tsc_start = h.cycle_timer ∧
      f.span_id = (cb s dd.args dd.object g.start_time h.cycle_timer_cb
        { spans := sp, span_cache := sc }).1 := by
  unfold BEGIN_PROFILING
  simp only [hf, if_true, ne_eq, one_ne_zero, not_false_eq_true]
  unfold hp_mode_hier_beginfn_cb
  simp only [hp_fast_alloc_state, beginfn_recursion_state, beginfn_recursion_frame]
  have hs := beginfn_spans_callback
    { g with entry_free_list := g.entry_free_list.tail,
             func_hash_counters := hp_enter_counters
               { g with entry_free_list := g.entry_free_list.tail } (hp_inline_hash s) }
    { name_hprof := s,
      rlvl_hprof :=
        if g.tideways_flags &&& TIDEWAYS_FLAGS_NO_HIERACHICAL = 0 then
          (if g.func_hash_counters (hp_inline_hash s) > 0 then
            hp_scan_recurse_level s g.entries else 0)
        else (hp_fast_alloc_hprof_entry g h.malloc_entry).1.rlvl_hprof,
      tsc_start := h.cycle_timer,
      cpu_start := (hp_fast_alloc_hprof_entry g h.malloc_entry).1.cpu_start,
      mu_start_hprof := (hp_fast_alloc_hprof_entry g h.malloc_entry).1.mu_start_hprof,
      pmu_start_hprof := (hp_fast_alloc_hprof_entry g h.malloc_entry).1.pmu_start_hprof,
      hash_code := hp_inline_hash s, span_id := -1 } dd h callbacks cb sp sc hns hcb hfind hsp hsc
  simp only at hs
  rw [hs]
  simp only [Option.map_some']
  obtain ⟨u1, _, u3, _, u5⟩ := beginfn_usage_fields
    { g with entry_free_list := g.entry_free_list.tail,
             func_hash_counters := hp_enter_counters
               { g with entry_free_list := g.entry_free_list.tail } (hp_inline_hash s),
             spans := some (cb s dd.args dd.object g.start_time h.cycle_timer_cb
               { spans := sp, span_cache := sc }).2.spans,
             span_cache := some (cb s dd.args dd.object g.start_time h.cycle_timer_cb
               { spans := sp, span_cache := sc }).2.span_cache }
    { name_hprof := s,
      rlvl_hprof :=
        if g.tideways_flags &&& TIDEWAYS_FLAGS_NO_HIERACHICAL = 0 then
          (if g.func_hash_counters (hp_inline_hash s) > 0 then
            hp_scan_recurse_level s g.entries else 0)
        else (hp_fast_alloc_hprof_entry g h.malloc_entry).1.rlvl_hprof,
      tsc_start := h.cycle_timer,
      cpu_start := (hp_fast_alloc_hprof_entry g h.malloc_entry).1.cpu_start,
      mu_start_hprof := (hp_fast_alloc_hprof_entry g h.malloc_entry).1.mu_start_hprof,
      pmu_start_hprof := (hp_fast_alloc_hprof_entry g h.malloc_entry).1.pmu_start_hprof,
      hash_code := hp_inline_hash s,
      span_id := (cb s dd.args dd.object g.start_time h.cycle_timer_cb
        { spans := sp, span_cache := sc }).1 } h
  exact ⟨_, rfl, u1, u3, u5⟩
/-- The fields of the state after `END_PROFILING` with flag 1. -/
theorem END_PROFILING_spec_fields (g : hp_global_t) (h : host_t) (top : hp_entry_t)
    (rest : List hp_entry_t) (sp0 : SpanTree) (hsp : g.spans = some sp0)
    (he : g.entries = top :: rest) :
    ∃ g1 : hp_global_t,
      END_PROFILING g 1 h = some g1 ∧ g1.entries = rest ∧
      g1.entry_free_list = top :: g.entry_free_list ∧
      g1.spans = some (hp_leave_spans g h sp0) ∧ g1.span_cache = g.span_cache ∧
      g1.trace_callbacks = g.trace_callbacks ∧ g1.tideways_flags = g.tideways_flags ∧
      g1.filtered_functions = g.filtered_functions ∧ g1.filtered_type = g.filtered_type ∧
      g1.start_time = g.start_time :=
  ⟨_, END_PROFILING_spec_spans g h top rest sp0 hsp he, rfl, rfl, rfl, rfl, rfl, rfl, rfl, rfl,
    rfl⟩

/-- One call of a symbol with a registered extractor, entered and left: the
frame carries the span id that the extractor returned, and a span id that is
not negative receives the interval of the call. -/
theorem hp_run_pair_callback (g : hp_global_t) (s : CStr) (dd : zend_execute_data)
    (h1 h2 : host_t) (fl : List Int) (callbacks : HashTable CStr tw_trace_callback)
    (cb : tw_trace_callback) (sp : SpanTree) (sc : HashTable CStr Int)
    (hns : g.tideways_flags &&& TIDEWAYS_FLAGS_NO_SPANS = 0)
    (hf : hp_filter_entry g (hp_inline_hash s) s = 0)
    (hcb : g.trace_callbacks = some callbacks)
    (hfind : zend_hash_find callbacks s = some cb)
    (hsp : g.spans = some sp) (hsc : g.span_cache = some sc) :
    ∃ (g1 : hp_global_t) (f : hp_entry_t),
      hp_run g fl [.enter s (some dd) h1, .leave h2] = some (g1, fl) ∧
      hp_trace g fl [.enter s (some dd) h1, .leave h2] = [.pushed f, .released f] ∧
      f.span_id = (cb s dd.args dd.object g.start_time h1.cycle_timer_cb
        { spans := sp, span_cache := sc }).1 ∧
      g1.spans = some
        (if (cb s dd.args dd.object g.start_time h1.cycle_timer_cb
              { spans := sp, span_cache := sc }).1 ≥ 0 then
          tw_span_record_duration
            (cb s dd.args dd.object g.start_time h1.cycle_timer_cb
              { spans := sp, span_cache := sc }).2.spans
            (cb s dd.args dd.object g.start_time h1.cycle_timer_cb
              { spans := sp, span_cache := sc }).1
            (get_us_from_tsc (u64_sub h1.cycle_timer g.start_time))
            (get_us_from_tsc (u64_sub h2.cycle_timer g.start_time))
        else (cb s dd.args dd.object g.start_time h1.cycle_timer_cb
              { spans := sp, span_cache := sc }).2.spans) ∧
      g1.span_cache = some (cb s dd.args dd.object g.start_time h1.cycle_timer_cb
        { spans := sp, span_cache := sc }).2.span_cache ∧
      g1.entries = g.entries ∧ g1.trace_callbacks = g.trace_callbacks ∧
      g1.tideways_flags = g.tideways_flags ∧
      g1.filtered_functions = g.filtered_functions ∧ g1.filtered_type = g.filtered_type ∧
      g1.start_time = g.start_time := by
  obtain ⟨f, hb, _, htsc, hid⟩ :=
    BEGIN_PROFILING_callback g s dd h1 callbacks cb sp sc hns hf hcb hfind hsp hsc
  generalize cb s dd.args dd.object g.start_time h1.cycle_timer_cb
    { spans := sp, span_cache := sc } = r at hb hid ⊢
  obtain ⟨g1, hend, e1, e2, e3, e4, e5, e6, e7, e8, e9⟩ := END_PROFILING_spec_fields
    { g with entries := f :: g.entries, entry_free_list := g.entry_free_list.tail,
             func_hash_counters := hp_enter_counters g (hp_inline_hash s),
             spans := some r.2.spans, span_cache := some r.2.span_cache }
    h2 f g.entries r.2.spans rfl rfl
  have hrun : hp_run g fl [.enter s (some dd) h1, .leave h2] = some (g1, fl) := by
    simp only [hp_run, hp_step, hb, Option.map_some', Option.some_bind, List.cons_ne_nil,
      if_false, hend]
  have htrace : hp_trace g fl [.enter s (some dd) h1, .leave h2]
      = [.pushed f, .released f] := by
    simp only [hp_trace, hp_step, hp_events, hb, Option.map_some', List.cons_ne_nil,
      if_false, hend, ne_eq, one_ne_zero, not_false_eq_true, if_true, false_or, e2,
      List.cons_append, List.nil_append, List.append_nil]
  refine ⟨g1, f, hrun, htrace, hid, ?_, e4, e1, e5, e6, e7, e8, e9⟩
  rw [e3]
  unfold hp_leave_spans
  simp only [hns, hid, htsc, true_and]
theorem hp_trace_append (a b : List hp_call) :
    ∀ (g : hp_global_t) (fl : List Int),
      hp_trace g fl (a ++ b)
        = hp_trace g fl a ++
          (match hp_run g fl a with
           | some r => hp_trace r.1 r.2 b
           | none => []) := by
  induction a with
  | nil => intro g fl; rfl
  | cons c cs ih =>
    intro g fl
    rw [List.cons_append]
    simp only [hp_trace, hp_run]
    cases hs : hp_step g fl c with
    | none => rfl
    | some r =>
      simp only [Option.some_bind, ih r.1 r.2, List.append_assoc]

theorem hp_pushed_span_ids_append (a b : List hp_event) :
    hp_pushed_span_ids (a ++ b) = hp_pushed_span_ids a ++ hp_pushed_span_ids b := by
  induction a with
  | nil => rfl
  | cons e es ih =>
    cases e with
    | pushed f =>
      rw [List.cons_append]
      simp only [hp_pushed_span_ids, ih, List.cons_append]
    | released f =>
      rw [List.cons_append]
      simp only [hp_pushed_span_ids, ih]

theorem hp_filter_entry_congr (g g1 : hp_global_t) (hash_code : Nat) (s : CStr)
    (h1 : g1.filtered_functions = g.filtered_functions)
    (h2 : g1.filtered_type = g.filtered_type) :
    hp_filter_entry g1 hash_code s = hp_filter_entry g hash_code s := by
  unfold hp_filter_entry
  rw [h1, h2]

theorem zend_hash_modify_snoc {κ α : Type} [DecidableEq κ] (h : HashTable κ α) (k : κ) (v : α)
    (f : α → α) (hk : zend_hash_find h k = none) :
    zend_hash_modify (h ++ [(k, v)]) k f = h ++ [(k, f v)] := by
  induction h with
  | nil => simp [zend_hash_modify]
  | cons x t ih =>
    obtain ⟨k1, v1⟩ := x
    by_cases hk1 : k1 = k
    · simp [zend_hash_find, hk1] at hk
    · simp only [zend_hash_find, if_neg hk1] at hk
      rw [List.cons_append]
      simp only [zend_hash_modify, if_neg hk1, ih hk, List.cons_append]

theorem tw_span_annotate_string_snoc (sp0 : SpanTree) (id : Int) (X : Span) (key value : CStr)
    (copy : Int) (hk : zend_hash_find sp0 id = none) :
    ∃ X1 : Span,
      tw_span_annotate_string (sp0 ++ [(id, X)]) id key value copy = sp0 ++ [(id, X1)] ∧
      X1.n = X.n ∧ X1.b = X.b ∧ X1.e = X.e ∧
      zend_hash_find (span_annotations X1) key
        = some (if copy = 1 ∧ value.length > 1000 then value.take 1000 else value) := by
  unfold tw_span_annotate_string
  rw [zend_hash_find_snoc_self sp0 id X hk]
  simp only
  rw [zend_hash_modify_snoc sp0 id X _ hk]
  refine ⟨_, rfl, rfl, rfl, rfl, ?_⟩
  simp only [span_annotations, zend_hash_find_update_self]
  by_cases hc : copy = 1 ∧ value.length > 1000
  · simp [hc]
  · simp [hc]

theorem tw_span_record_duration_snoc (sp0 : SpanTree) (id : Int) (X : Span) (start stop : Int)
    (hk : zend_hash_find sp0 id = none) :
    tw_span_record_duration (sp0 ++ [(id, X)]) id start stop
      = sp0 ++ [(id, { X with e := X.e ++ [stop], b := X.b ++ [start] })] := by
  unfold tw_span_record_duration
  rw [zend_hash_find_snoc_self sp0 id X hk]
  simp only
  rw [zend_hash_modify_snoc sp0 id X _ hk]

/-- The memcache extractor on a cache without entry for the symbol: it
creates one span and caches its id. -/
theorem tw_trace_callback_memcache_miss (s : CStr) (args : List zval) (obj : Option zval)
    (t0 t1 : Nat) (sp0 : SpanTree) (sc : HashTable CStr Int)
    (hd : span_ids_dense sp0) (hroom : zend_hash_num_elements sp0 < 1500)
    (hmiss : zend_hash_find sc s = none) :
    ∃ X : Span,
      tw_trace_callback_memcache s args obj t0 t1 { spans := sp0, span_cache := sc }
        = ((sp0.length : Int),
           { spans := sp0 ++ [((sp0.length : Int), X)],
             span_cache := zend_hash_update sc s (sp0.length : Int) }) ∧
      X.n = "memcache".toList ∧ X.b = [] ∧ X.e = [] := by
  obtain ⟨X, hX, h1, h2, h3, _⟩ := tw_span_annotate_string_snoc sp0 (sp0.length : Int)
    (span_new "memcache".toList) "title".toList s 1 (span_find_next_none sp0 hd)
  refine ⟨X, ?_, h1, h2, h3⟩
  simp only [tw_trace_callback_memcache, tw_trace_callback_record_with_cache, hmiss,
    tw_span_create_room sp0 _ hd hroom, hX]

/-- The memcache extractor on a cache that holds the id of the span of the
symbol: no span is created. -/
theorem tw_trace_callback_memcache_hit (s : CStr) (args : List zval) (obj : Option zval)
    (t0 t1 : Nat) (sp0 : SpanTree) (id : Int) (X : Span) (sc : HashTable CStr Int)
    (hk : zend_hash_find sp0 id = none) (hhit : zend_hash_find sc s = some id) :
    ∃ X1 : Span,
      tw_trace_callback_memcache s args obj t0 t1
          { spans := sp0 ++ [(id, X)], span_cache := sc }
        = (id, { spans := sp0 ++ [(id, X1)], span_cache := sc }) ∧
      X1.n = X.n ∧ X1.b = X.b ∧ X1.e = X.e := by
  obtain ⟨X1, hX, h1, h2, h3, _⟩ := tw_span_annotate_string_snoc sp0 id X "title".toList s 1 hk
  refine ⟨X1, ?_, h1, h2, h3⟩
  simp only [tw_trace_callback_memcache, tw_trace_callback_record_with_cache, hhit, hX]

/-- Calls of a symbol of the memcache extractor while the cache holds the id
of its span: every call adds one start and one stop to that span, and every
frame carries its id. -/
theorem hp_run_memcache_pairs_hit (s : CStr) (callbacks : HashTable CStr tw_trace_callback)
    (sp0 : SpanTree) (id : Int) (sc : HashTable CStr Int)
    (ps : List (zend_execute_data × host_t × host_t)) :
    ∀ (g : hp_global_t) (fl : List Int) (X : Span),
      g.tideways_flags &&& TIDEWAYS_FLAGS_NO_SPANS = 0 →
      hp_filter_entry g (hp_inline_hash s) s = 0 →
      g.trace_callbacks = some callbacks →
      zend_hash_find callbacks s = some tw_trace_callback_memcache →
      g.spans = some (sp0 ++ [(id, X)]) → zend_hash_find sp0 id = none → 0 ≤ id →
      g.span_cache = some sc → zend_hash_find sc s = some id →
      ∃ (g1 : hp_global_t) (X1 : Span),
        hp_run g fl (hp_call_pairs s ps) = some (g1, fl) ∧
        g1.spans = some (sp0 ++ [(id, X1)]) ∧ X1.n = X.n ∧
        X1.b.length = X.b.length + ps.length ∧ X1.e.length = X.e.length + ps.length ∧
        hp_pushed_span_ids (hp_trace g fl (hp_call_pairs s ps)) = List.replicate ps.length id ∧
        g1.entries = g.entries := by
  induction ps with
  | nil =>
    intro g fl X _ _ _ _ hsp _ _ _ _
    exact ⟨g, X, rfl, hsp, rfl, rfl, rfl, rfl, rfl⟩
  | cons p ps ih =>
    intro g fl X hns hf hcb hfind hsp hk hid hsc hhit
    obtain ⟨g1, f, hrun, htrace, hfid, hsp1, hsc1, he1, hcb1, hfl1, hff1, hft1, _⟩ :=
      hp_run_pair_callback g s p.1 p.2.1 p.2.2 fl callbacks tw_trace_callback_memcache
        (sp0 ++ [(id, X)]) sc hns hf hcb hfind hsp hsc
    obtain ⟨X1, hX1, hn1, hb1, hee1⟩ := tw_trace_callback_memcache_hit s p.1.args p.1.object
      g.start_time p.2.1.cycle_timer_cb sp0 id X sc hk hhit
    rw [hX1] at hfid hsp1 hsc1
    simp only [hid, ge_iff_le, if_true, tw_span_record_duration_snoc sp0 id X1 _ _ hk]
      at hsp1
    obtain ⟨g2, X2, r1, r2, r3, r4, r5, r6, r7⟩ := ih g1 fl _
      (by rw [hfl1]; exact hns)
      (by rw [hp_filter_entry_congr g g1 _ _ hff1 hft1]; exact hf)
      (by rw [hcb1]; exact hcb) hfind hsp1 hk hid hsc1 hhit
    have hsplit : hp_call_pairs s (p :: ps)
        = [.enter s (some p.1) p.2.1, .leave p.2.2] ++ hp_call_pairs s ps := rfl
    refine ⟨g2, X2, ?_, r2, ?_, ?_, ?_, ?_, ?_⟩
    · rw [hsplit, hp_run_append, hrun]
      exact r1
    · rw [r3]; exact hn1
    · rw [r4]
      show (X1.b ++ [_]).length + ps.length = X.b.length + (ps.length + 1)
      rw [List.length_append, hb1, List.length_singleton]
      omega
    · rw [r5]
      show (X1.e ++ [_]).length + ps.length = X.e.length + (ps.length + 1)
      rw [List.length_append, hee1, List.length_singleton]
      omega
    · rw [hsplit, hp_trace_append, hrun, hp_pushed_span_ids_append, htrace]
      simp only [r6, hp_pushed_span_ids, hfid, List.length_cons, List.replicate_succ,
        List.cons_append, List.nil_append]
    · rw [r7, he1]
/-- C12. In a session with spans enabled, a span tree with room and no
cache entry for the symbol yet (as at the start of a session), n ≥ 1 calls
of a symbol of the memcache extractor, each entered and left, with any
arguments and readings: the run returns, the tree has grown by exactly one
span of category `memcache` whose start sequence and stop sequence have
length n, every frame carried the id of that span, and the call stack is as
before. -/
theorem memcache_calls_share_one_span (g : hp_global_t) (s : CStr)
    (callbacks : HashTable CStr tw_trace_callback) (sp0 : SpanTree) (sc : HashTable CStr Int)
    (ps : List (zend_execute_data × host_t × host_t)) (fl : List Int)
    (hns : g.tideways_flags &&& TIDEWAYS_FLAGS_NO_SPANS = 0)
    (hf : hp_filter_entry g (hp_inline_hash s) s = 0)
    (hcb : g.trace_callbacks = some callbacks)
    (hfind : zend_hash_find callbacks s = some tw_trace_callback_memcache)
    (hsp : g.spans = some sp0) (hd : span_ids_dense sp0)
    (hroom : zend_hash_num_elements sp0 < 1500)
    (hsc : g.span_cache = some sc) (hmiss : zend_hash_find sc s = none)
    (hn : 1 ≤ ps.length) :
    ∃ (g1 : hp_global_t) (X : Span),
      hp_run g fl (hp_call_pairs s ps) = some (g1, fl) ∧
      g1.spans = some (sp0 ++ [((sp0.length : Int), X)]) ∧
      X.n = "memcache".toList ∧
      X.b.length = ps.length ∧ X.e.length = ps.length ∧
      hp_pushed_span_ids (hp_trace g fl (hp_call_pairs s ps))
        = List.replicate ps.length (sp0.length : Int) ∧
      g1.entries = g.entries := by
  cases ps with
  | nil => simp at hn
  | cons p ps =>
    have hk := span_find_next_none sp0 hd
    have hid : (0 : Int) ≤ (sp0.length : Int) := Int.ofNat_nonneg _
    obtain ⟨g1, f, hrun, htrace, hfid, hsp1, hsc1, he1, hcb1, hfl1, hff1, hft1, _⟩ :=
      hp_run_pair_callback g s p.1 p.2.1 p.2.2 fl callbacks tw_trace_callback_memcache
        sp0 sc hns hf hcb hfind hsp hsc
    obtain ⟨X1, hX1, hn1, hb1, hee1⟩ := tw_trace_callback_memcache_miss s p.1.args p.1.object
      g.start_time p.2.1.cycle_timer_cb sp0 sc hd hroom hmiss
    rw [hX1] at hfid hsp1 hsc1
    simp only [hid, ge_iff_le, if_true, tw_span_record_duration_snoc sp0 _ X1 _ _ hk]
      at hsp1
    obtain ⟨g2, X2, r1, r2, r3, r4, r5, r6, r7⟩ :=
      hp_run_memcache_pairs_hit s callbacks sp0 (sp0.length : Int)
        (zend_hash_update sc s (sp0.length : Int)) ps g1 fl _
        (by rw [hfl1]; exact hns)
        (by rw [hp_filter_entry_congr g g1 _ _ hff1 hft1]; exact hf)
        (by rw [hcb1]; exact hcb) hfind hsp1 hk hid hsc1
        (zend_hash_find_update_self sc s _)
    have hsplit : hp_call_pairs s (p :: ps)
        = [.enter s (some p.1) p.2.1, .leave p.2.2] ++ hp_call_pairs s ps := rfl
    refine ⟨g2, X2, ?_, r2, ?_, ?_, ?_, ?_, ?_⟩
    · rw [hsplit, hp_run_append, hrun]
      exact r1
    · rw [r3]; exact hn1
    · rw [r4]
      show (X1.b ++ [_]).length + ps.length = ps.length + 1
      rw [List.length_append, hb1, List.length_singleton]
      simp only [List.length_nil]
      omega
    · rw [r5]
      show (X1.e ++ [_]).length + ps.length = ps.length + 1
      rw [List.length_append, hee1, List.length_singleton]
      simp only [List.length_nil]
      omega
    · rw [hsplit, hp_trace_append, hrun, hp_pushed_span_ids_append, htrace]
      simp only [r6, hp_pushed_span_ids, hfid, List.length_cons, List.replicate_succ,
        List.cons_append, List.nil_append]
    · rw [r7, he1]

theorem memcache_calls_share_one_span_witness :
    ∃ (g1 : hp_global_t) (X : Span),
      hp_run hp_session_extractors []
          (hp_call_pairs "Memcache::get".toList
            [({ args := [.IS_STRING "k1".toList], object := none }, host_at 10, host_at 20),
             ({ args := [.IS_STRING "k2".toList], object := none }, host_at 30, host_at 40)])
        = some (g1, []) ∧
      g1.spans
        = some ([(0, { n := "app".toList, b := [0], e := [], p := none, a := none })]
            ++ [((([(0, ({ n := "app".toList, b := [0], e := [], p := none, a := none } : Span))]
                  : SpanTree).length : Int), X)]) ∧
      X.n = "memcache".toList ∧
      X.b.length = 2 ∧ X.e.length = 2 ∧
      hp_pushed_span_ids (hp_trace hp_session_extractors []
          (hp_call_pairs "Memcache::get".toList
            [({ args := [.IS_STRING "k1".toList], object := none }, host_at 10, host_at 20),
             ({ args := [.IS_STRING "k2".toList], object := none }, host_at 30, host_at 40)]))
        = List.replicate 2 1 ∧
      g1.entries = hp_session_extractors.entries :=
  memcache_calls_share_one_span hp_session_extractors "Memcache::get".toList _ _ []
    [({ args := [.IS_STRING "k1".toList], object := none }, host_at 10, host_at 20),
     ({ args := [.IS_STRING "k2".toList], object := none }, host_at 30, host_at 40)] []
    rfl rfl rfl rfl rfl (by decide) (by decide) rfl rfl (by decide)
theorem c_string_length_le (q : CStr) : (c_string q 0).length ≤ q.length := by
  unfold c_string
  rw [List.drop_zero]
  exact (List.takeWhile_sublist _).length_le

theorem c_string_nul_free (q : CStr) (hq : nul_free q) : c_string q 0 = q := by
  have h := c_string_at_zero q 0 hq
  simpa using h

/-- The SQL extractor on a statement that is a string: one span of category
`sql` is created, annotated with the statement as a C string. -/
theorem tw_trace_callback_sql_functions_string (s : CStr) (args : List zval)
    (obj : Option zval) (t0 t1 : Nat) (sp0 : SpanTree) (sc : HashTable CStr Int) (q : CStr)
    (hd : span_ids_dense sp0) (hroom : zend_hash_num_elements sp0 < 1500)
    (harg : args.get? (if s = "mysqli_query".toList ∨ s = "mysqli_prepare".toList then 1 else 0)
      = some (.IS_STRING q))
    (hq : q.length ≤ 1000) :
    ∃ X : Span,
      tw_trace_callback_sql_functions s args obj t0 t1 { spans := sp0, span_cache := sc }
        = ((sp0.length : Int),
           { spans := sp0 ++ [((sp0.length : Int), X)], span_cache := sc }) ∧
      X.n = "sql".toList ∧ X.b = [] ∧ X.e = [] ∧
      zend_hash_find (span_annotations X) "sql".toList = some (c_string q 0) := by
  obtain ⟨X, hX, h1, h2, h3, h4⟩ := tw_span_annotate_string_snoc sp0 (sp0.length : Int)
    (span_new "sql".toList) "sql".toList (c_string q 0) 1 (span_find_next_none sp0 hd)
  refine ⟨X, ?_, h1, h2, h3, ?_⟩
  · simp only [tw_trace_callback_sql_functions, harg, tw_span_create_room sp0 _ hd hroom, hX]
  · rw [h4]
    have hlen := c_string_length_le q
    have hc : ¬ ((1 : Int) = 1 ∧ (c_string q 0).length > 1000) := by omega
    rw [if_neg hc]

/-- The SQL extractor on a statement that is not a string declines. -/
theorem tw_trace_callback_sql_functions_declines (s : CStr) (args : List zval)
    (obj : Option zval) (t0 t1 : Nat) (st : tw_span_state) (a : zval)
    (harg : args.get? (if s = "mysqli_query".toList ∨ s = "mysqli_prepare".toList then 1 else 0)
      = some a)
    (ha : ∀ q, a ≠ .IS_STRING q) :
    tw_trace_callback_sql_functions s args obj t0 t1 st = (-1, st) := by
  simp only [tw_trace_callback_sql_functions, harg]
  cases a with
  | IS_STRING q => exact absurd rfl (ha q)
  | IS_NULL => rfl
  | IS_LONG v => rfl
  | IS_BOOL b => rfl
  | IS_OBJECT c e t => rfl
  | IS_OTHER t => rfl

/-- C13, as the code has it. In a session with spans enabled and a span tree
with room, a call of a symbol of the SQL extractor, entered and left, with
clock readings that do not go backwards and lie less than `2 ^ 53`
microseconds after the start of the session (the range in which the `double`
of `get_us_from_tsc` is exact): if the statement argument is a string q of at
most 1000 bytes, the tree grows by exactly one span of category `sql`, with
one start and one stop, the start not after the stop, and with the annotation
`sql` equal to q up to its first NUL byte, which is q itself when q has no NUL
byte; if the statement argument is not a string, the extractor returns -1 and
the tree is as before. -/
theorem sql_call_adds_one_span (g : hp_global_t) (s : CStr)
    (callbacks : HashTable CStr tw_trace_callback) (sp0 : SpanTree) (sc : HashTable CStr Int)
    (d : zend_execute_data) (h1 h2 : host_t) (fl : List Int) (a : zval)
    (hns : g.tideways_flags &&& TIDEWAYS_FLAGS_NO_SPANS = 0)
    (hf : hp_filter_entry g (hp_inline_hash s) s = 0)
    (hcb : g.trace_callbacks = some callbacks)
    (hfind : zend_hash_find callbacks s = some tw_trace_callback_sql_functions)
    (hsp : g.spans = some sp0) (hd : span_ids_dense sp0)
    (hroom : zend_hash_num_elements sp0 < 1500)
    (hsc : g.span_cache = some sc)
    (harg : d.args.get? (if s = "mysqli_query".toList ∨ s = "mysqli_prepare".toList
      then 1 else 0) = some a)
    (hclock : g.start_time ≤ h1.cycle_timer ∧ h1.cycle_timer ≤ h2.cycle_timer ∧
      h2.cycle_timer < 2 ^ 64 ∧ h2.cycle_timer - g.start_time < 2 ^ 53) :
    (∀ q, a = .IS_STRING q → q.length ≤ 1000 →
      ∃ (g1 : hp_global_t) (X : Span) (start stop : Int),
        hp_run g fl [.enter s (some d) h1, .leave h2] = some (g1, fl) ∧
        g1.spans = some (sp0 ++ [((sp0.length : Int), X)]) ∧
        X.n = "sql".toList ∧
        zend_hash_find (span_annotations X) "sql".toList = some (c_string q 0) ∧
        (nul_free q → zend_hash_find (span_annotations X) "sql".toList = some q) ∧
        X.b = [start] ∧ X.e = [stop] ∧ start ≤ stop) ∧
    ((∀ q, a ≠ .IS_STRING q) →
      (tw_trace_callback_sql_functions s d.args d.object g.start_time h1.cycle_timer_cb
        { spans := sp0, span_cache := sc }).1 = -1 ∧
      ∃ g1 : hp_global_t,
        hp_run g fl [.enter s (some d) h1, .leave h2] = some (g1, fl) ∧
        g1.spans = some sp0) := by
  obtain ⟨g1, f, hrun, _, _, hsp1, _⟩ :=
    hp_run_pair_callback g s d h1 h2 fl callbacks tw_trace_callback_sql_functions
      sp0 sc hns hf hcb hfind hsp hsc
  have hk := span_find_next_none sp0 hd
  have hid : (0 : Int) ≤ (sp0.length : Int) := Int.ofNat_nonneg _
  constructor
  · intro q haq hq
    subst haq
    obtain ⟨X1, hX1, hn1, hb1, he1, ha1⟩ := tw_trace_callback_sql_functions_string s d.args
      d.object g.start_time h1.cycle_timer_cb sp0 sc q hd hroom harg hq
    rw [hX1] at hsp1
    simp only [hid, ge_iff_le, if_true, tw_span_record_duration_snoc sp0 _ X1 _ _ hk]
      at hsp1
    refine ⟨g1, _, get_us_from_tsc (u64_sub h1.cycle_timer g.start_time),
      get_us_from_tsc (u64_sub h2.cycle_timer g.start_time), hrun, hsp1, hn1, ha1, ?_, ?_, ?_, ?_⟩
    · intro hnf
      show zend_hash_find (span_annotations X1) "sql".toList = some q
      rw [ha1, c_string_nul_free q hnf]
    · show X1.b ++ [_] = [_]
      rw [hb1]; rfl
    · show X1.e ++ [_] = [_]
      rw [he1]; rfl
    · obtain ⟨c1, c2, c3, c4⟩ := hclock
      rw [u64_sub_exact _ _ c1 (by omega), u64_sub_exact _ _ (by omega) c3,
        get_us_from_tsc_exact _ (show h1.cycle_timer - g.start_time < 2 ^ 53 by omega),
        get_us_from_tsc_exact _ c4]
      omega
  · intro ha
    have hdec := tw_trace_callback_sql_functions_declines s d.args d.object g.start_time
      h1.cycle_timer_cb { spans := sp0, span_cache := sc } a harg ha
    rw [hdec] at hsp1
    refine ⟨by rw [hdec], g1, hrun, ?_⟩
    rw [hsp1]
    rfl

theorem sql_call_adds_one_span_witness :
    (∀ q, zval.IS_STRING "SELECT 1".toList = .IS_STRING q → q.length ≤ 1000 →
      ∃ (g1 : hp_global_t) (X : Span) (start stop : Int),
        hp_run hp_session_extractors []
            [.enter "PDO::query".toList
              (some { args := [.IS_STRING "SELECT 1".toList], object := none }) (host_at 10),
             .leave (host_at 20)] = some (g1, []) ∧
        g1.spans = some ([(0, { n := "app".toList, b := [0], e := [], p := none, a := none })]
            ++ [((([(0, ({ n := "app".toList, b := [0], e := [], p := none, a := none } : Span))]
                  : SpanTree).length : Int), X)]) ∧
        X.n = "sql".toList ∧
        zend_hash_find (span_annotations X) "sql".toList = some (c_string q 0) ∧
        (nul_free q → zend_hash_find (span_annotations X) "sql".toList = some q) ∧
        X.b = [start] ∧ X.e = [stop] ∧ start ≤ stop) ∧
    ((∀ q, zval.IS_STRING "SELECT 1".toList ≠ .IS_STRING q) →
      (tw_trace_callback_sql_functions "PDO::query".toList
        [.IS_STRING "SELECT 1".toList] none hp_session_extractors.start_time
        (host_at 10).cycle_timer_cb
        { spans := [(0, { n := "app".toList, b := [0], e := [], p := none, a := none })],
          span_cache := [] }).1 = -1 ∧
      ∃ g1 : hp_global_t,
        hp_run hp_session_extractors []
            [.enter "PDO::query".toList
              (some { args := [.IS_STRING "SELECT 1".toList], object := none }) (host_at 10),
             .leave (host_at 20)] = some (g1, []) ∧
        g1.spans
          = some [(0, { n := "app".toList, b := [0], e := [], p := none, a := none })]) :=
  sql_call_adds_one_span hp_session_extractors "PDO::query".toList _ _ []
    { args := [.IS_STRING "SELECT 1".toList], object := none } (host_at 10) (host_at 20) []
    (.IS_STRING "SELECT 1".toList)
    rfl rfl rfl rfl rfl (by decide) (by decide) rfl rfl (by decide)

/-- C13, counterexample. The statement `sql_with_nul` is a string of 10 bytes
with a NUL byte after `SELECT 1`. After the call of `PDO::query` with it,
the annotation `sql` of the new span is `SELECT 1`, which is not the
statement. -/
theorem sql_annotation_cut_at_nul :
    sql_with_nul.length = 10 ∧
    ∃ (g1 : hp_global_t) (sp : SpanTree),
      hp_run hp_session_extractors []
          [.enter "PDO::query".toList
            (some { args := [.IS_STRING sql_with_nul], object := none }) (host_at 10),
           .leave (host_at 20)] = some (g1, []) ∧
      g1.spans = some sp ∧
      span_annotation_at sp 1 "sql".toList = some "SELECT 1".toList ∧
      "SELECT 1".toList ≠ sql_with_nul :=
  ⟨rfl, _, _, rfl, rfl, rfl, by decide⟩

/-! ## The hash as a fold, the filter as membership -/

theorem hash_step_eq (h : Nat) (c : Char) : hash_step h c = (33 * h + c.toNat) % 256 := by
  unfold hash_step
  rw [Nat.shiftLeft_eq]
  congr 1
  omega

theorem foldl_hash_step_eq (s : CStr) :
    ∀ h : Nat, s.foldl hash_step h = s.foldl (fun h b => (33 * h + b.toNat) % 256) h := by
  induction s with
  | nil => intro h; rfl
  | cons c cs ih =>
    intro h
    simp only [List.foldl_cons, hash_step_eq, ih]

/-- C30. For every byte string s, `hp_inline_hash`, the loop unrolled eight
times with the fall-through switch, is the left fold of
`h ↦ (33 * h + b) mod 256` over the bytes of s from 0; its value is below
256, and the hash of the empty string is 0. -/
theorem hp_inline_hash_is_fold (s : CStr) :
    hp_inline_hash s = hash_fold_spec s ∧ hp_inline_hash s < 256 ∧ hp_inline_hash [] = 0 := by
  refine ⟨?_, hp_inline_hash_lt s, rfl⟩
  rw [hp_inline_hash_eq_foldl, foldl_hash_step_eq]
  rfl

/-- C21. For every name list L and every symbol s, the map that
`hp_function_map_create` builds from L has a bitmap of 32 bytes, the byte
index of every 8-bit hash is inside it, the bit of every listed name is set,
and `hp_function_map_exists` with the hash of s answers exactly whether s is
in L. -/
theorem hp_function_map_exists_is_membership (names : List CStr) (s : CStr) :
    ∃ map : hp_function_map,
      hp_function_map_create (some names) = some map ∧
      map.filter.length = 32 ∧
      (∀ hash : Nat, hash < 256 → INDEX_2_BYTE hash < map.filter.length) ∧
      (s ∈ names → hp_function_map_filter_collision map (hp_inline_hash s) ≠ 0) ∧
      (hp_function_map_exists map (hp_inline_hash s) s ≠ 0 ↔ s ∈ names) ∧
      hp_function_map_exists map (hp_inline_hash s) s = member_spec names s := by
  have hlen : (hp_function_map_fill (List.replicate TIDEWAYS_FILTERED_FUNCTION_SIZE 0)
      names).length = 32 := by
    rw [hp_function_map_fill_length]
    simp [TIDEWAYS_FILTERED_FUNCTION_SIZE, TIDEWAYS_MAX_FILTERED_FUNCTIONS]
  obtain ⟨h1, h0⟩ := hp_function_map_exists_iff names _ s rfl
  refine ⟨_, rfl, hlen, ?_, ?_, ?_, ?_⟩
  · intro hash hh
    rw [hlen]
    exact index_2_byte_lt hash hh
  · intro hs
    apply (hp_function_map_filter_collision_iff _ _).mpr
    exact hp_function_map_fill_sets names _ s
      (by simp [TIDEWAYS_FILTERED_FUNCTION_SIZE, TIDEWAYS_MAX_FILTERED_FUNCTIONS]) hs
  · constructor
    · intro hne
      by_contra hs
      exact hne (h0.mpr hs)
    · intro hs
      rw [h1.mpr hs]
      decide
  · unfold member_spec
    by_cases hs : s ∈ names
    · rw [if_pos hs]; exact h1.mpr hs
    · rw [if_neg hs]; exact h0.mpr hs

/-- C23. For every state and every symbol that `hp_filter_entry` drops,
`BEGIN_PROFILING` returns the state as it was with the profile flag 0, and
`END_PROFILING` with flag 0 returns the state as it was; a wrapper that
enters and leaves such a call ends in the state in which it started. -/
theorem BEGIN_PROFILING_filtered_noop (g : hp_global_t) (s : CStr)
    (d : Option zend_execute_data) (h1 h2 : host_t) (fl : List Int)
    (hf : hp_filter_entry g (hp_inline_hash s) s ≠ 0) :
    BEGIN_PROFILING g s d h1 = some (g, 0) ∧
    END_PROFILING g 0 h2 = some g ∧
    hp_run g fl [.enter s d h1, .leave h2] = some (g, fl) ∧
    hp_trace g fl [.enter s d h1, .leave h2] = [] := by
  have hb := BEGIN_PROFILING_filtered g s d h1 hf
  have he := END_PROFILING_zero g h2
  refine ⟨hb, he, ?_, ?_⟩
  · simp only [hp_run, hp_step, hb, Option.map_some', Option.some_bind, he]
    split <;> rfl
  · simp only [hp_trace, hp_step, hp_events, hb, Option.map_some', he, ne_eq,
      not_true_eq_false, if_false, or_true, if_true, List.nil_append]
    split <;> simp

theorem BEGIN_PROFILING_filtered_noop_witness :
    hp_filter_entry (hp_session_filtered ["foo".toList] 1)
      (hp_inline_hash "foo".toList) "foo".toList ≠ 0 ∧
    BEGIN_PROFILING (hp_session_filtered ["foo".toList] 1) "foo".toList (some no_args)
      (host_at 10) = some (hp_session_filtered ["foo".toList] 1, 0) ∧
    END_PROFILING (hp_session_filtered ["foo".toList] 1) 0 (host_at 20)
      = some (hp_session_filtered ["foo".toList] 1) ∧
    hp_run (hp_session_filtered ["foo".toList] 1) []
      [.enter "foo".toList (some no_args) (host_at 10), .leave (host_at 20)]
      = some (hp_session_filtered ["foo".toList] 1, []) ∧
    hp_trace (hp_session_filtered ["foo".toList] 1) []
      [.enter "foo".toList (some no_args) (host_at 10), .leave (host_at 20)] = [] :=
  ⟨by decide, BEGIN_PROFILING_filtered_noop (hp_session_filtered ["foo".toList] 1)
    "foo".toList (some no_args) (host_at 10) (host_at 20) [] (by decide)⟩

/-! ## One leave and the statistics table -/

theorem endfn_bump_wt (g : hp_global_t) (top : hp_entry_t) (h : host_t)
    (counts : HashTable CStr Int) :
    zend_hash_find (endfn_bump g top h counts) "wt".toList
      = some ((zend_hash_find counts "wt".toList).getD 0
          + get_us_from_tsc (u64_sub h.cycle_timer top.tsc_start)) := by
  have hct : "wt".toList ≠ "ct".toList := by decide
  have hcpu : "wt".toList ≠ "cpu".toList := by decide
  have hmu : "wt".toList ≠ "mu".toList := by decide
  have hpmu : "wt".toList ≠ "pmu".toList := by decide
  unfold endfn_bump
  simp only
  split <;> split <;>
    simp only [hp_inc_count_find_other _ _ _ _ hct, hp_inc_count_find_other _ _ _ _ hcpu,
      hp_inc_count_find_other _ _ _ _ hmu, hp_inc_count_find_other _ _ _ _ hpmu,
      hp_inc_count_find_self]

/-- The statistics table after a leave, entry by entry. -/
theorem hp_leave_stats_entries (g : hp_global_t) (h : host_t) (top : hp_entry_t)
    (rest : List hp_entry_t) (st : StatsTable)
    (he : g.entries = top :: rest)
    (hh : g.tideways_flags &&& TIDEWAYS_FLAGS_NO_HIERACHICAL = 0)
    (hst : g.stats_count = some st) :
    ∃ st1 : StatsTable,
      hp_leave_stats g h = some st1 ∧
      zend_hash_find st1 (hp_qualified_name g.entries)
        = some (endfn_bump g top h
            ((zend_hash_find st (hp_qualified_name g.entries)).getD [])) ∧
      (∀ q2, q2 ≠ hp_qualified_name g.entries → zend_hash_find st1 q2 = zend_hash_find st q2) ∧
      st1.map Prod.fst
        = (if (zend_hash_find st (hp_qualified_name g.entries)).isSome = true
            then st.map Prod.fst
            else st.map Prod.fst ++ [hp_qualified_name g.entries]) := by
  have hh2 : ¬ (g.tideways_flags &&& TIDEWAYS_FLAGS_NO_HIERACHICAL > 0) := by omega
  unfold hp_leave_stats
  rw [he] at *
  simp only [if_neg hh2, hst, hp_hash_lookup]
  cases hf : zend_hash_find st (hp_qualified_name (top :: rest)) with
  | some counts =>
    refine ⟨_, rfl, ?_, ?_, ?_⟩
    · rw [zend_hash_find_modify_self, hf]
      rfl
    · intro q2 hq
      rw [zend_hash_find_modify_other _ _ _ _ hq]
    · simp only [Option.isSome_some, if_true, zend_hash_modify_keys]
  | none =>
    refine ⟨_, rfl, ?_, ?_, ?_⟩
    · rw [zend_hash_find_modify_self, zend_hash_find_update_self]
      rfl
    · intro q2 hq
      rw [zend_hash_find_modify_other _ _ _ _ hq, zend_hash_find_update_other _ _ _ _ hq]
    · simp only [Option.isSome_none, Bool.false_eq_true, if_false, zend_hash_modify_keys]
      rw [zend_hash_update_absent st _ _ hf]
      simp

/-- C22. In a session without NO_HIERACHICAL with its tables allocated, the
leave of the top frame, whose qualified name is q, at a clock reading that is
not before the reading at the entry of the frame and less than `2 ^ 53`
microseconds after it (the range in which the `double` of `get_us_from_tsc`
is exact), returns a state whose statistics table differs from the one before
only at q: under q the counter `ct` is the previous value (0 if absent) plus 1
and `wt` the previous value plus the elapsed wall time, the reading at the
leave minus the reading at the entry; every other name has the entry it had;
the names of the table are the names before, followed by q if q was absent. -/
theorem hp_leave_changes_one_entry (g : hp_global_t) (h : host_t) (top : hp_entry_t)
    (rest : List hp_entry_t) (st : StatsTable) (sp0 : SpanTree)
    (he : g.entries = top :: rest)
    (hh : g.tideways_flags &&& TIDEWAYS_FLAGS_NO_HIERACHICAL = 0)
    (hst : g.stats_count = some st) (hsp : g.spans = some sp0)
    (hclock : top.tsc_start ≤ h.cycle_timer ∧ h.cycle_timer < 2 ^ 64 ∧
      h.cycle_timer - top.tsc_start < 2 ^ 53) :
    ∃ (g1 : hp_global_t) (st1 : StatsTable),
      END_PROFILING g 1 h = some g1 ∧ g1.stats_count = some st1 ∧
      hp_stats_value (some st1) (hp_qualified_name g.entries) "ct".toList
        = some ((hp_stats_value (some st) (hp_qualified_name g.entries) "ct".toList).getD 0
            + 1) ∧
      hp_stats_value (some st1) (hp_qualified_name g.entries) "wt".toList
        = some ((hp_stats_value (some st) (hp_qualified_name g.entries) "wt".toList).getD 0
            + ((h.cycle_timer : Int) - (top.tsc_start : Int))) ∧
      (∀ q2, q2 ≠ hp_qualified_name g.entries →
        zend_hash_find st1 q2 = zend_hash_find st q2) ∧
      st1.map Prod.fst
        = (if (zend_hash_find st (hp_qualified_name g.entries)).isSome = true
            then st.map Prod.fst
            else st.map Prod.fst ++ [hp_qualified_name g.entries]) ∧
      (∀ q2, q2 ∈ st.map Prod.fst → q2 ∈ st1.map Prod.fst) := by
  obtain ⟨st1, h1, h2, h3, h4⟩ := hp_leave_stats_entries g h top rest st he hh hst
  have hend := END_PROFILING_spec_spans g h top rest sp0 hsp he
  refine ⟨_, st1, hend, h1, ?_, ?_, h3, h4, ?_⟩
  · simp only [hp_stats_value, Option.some_bind, h2, endfn_bump_ct]
    cases zend_hash_find st (hp_qualified_name g.entries) <;> rfl
  · obtain ⟨c1, c2, c3⟩ := hclock
    have hwt : get_us_from_tsc (u64_sub h.cycle_timer top.tsc_start)
        = (h.cycle_timer : Int) - (top.tsc_start : Int) := by
      rw [u64_sub_exact _ _ c1 c2, get_us_from_tsc_exact _ c3]
      omega
    rw [← hwt]
    simp only [hp_stats_value, Option.some_bind, h2, endfn_bump_wt]
    cases zend_hash_find st (hp_qualified_name g.entries) <;> rfl
  · intro q2 hq2
    rw [h4]
    split
    · exact hq2
    · exact List.mem_append_left _ hq2

theorem hp_leave_changes_one_entry_witness :
    ∃ (g1 : hp_global_t) (st1 : StatsTable),
      END_PROFILING hp_session_in_foo 1 (host_at 7) = some g1 ∧ g1.stats_count = some st1 ∧
      hp_stats_value (some st1) (hp_qualified_name hp_session_in_foo.entries) "ct".toList
        = some ((hp_stats_value (some []) (hp_qualified_name hp_session_in_foo.entries)
            "ct".toList).getD 0 + 1) ∧
      hp_stats_value (some st1) (hp_qualified_name hp_session_in_foo.entries) "wt".toList
        = some ((hp_stats_value (some []) (hp_qualified_name hp_session_in_foo.entries)
            "wt".toList).getD 0
            + (((host_at 7).cycle_timer : Int) - (frame_foo.tsc_start : Int))) ∧
      (∀ q2, q2 ≠ hp_qualified_name hp_session_in_foo.entries →
        zend_hash_find st1 q2 = zend_hash_find [] q2) ∧
      st1.map Prod.fst
        = (if (zend_hash_find ([] : StatsTable)
                (hp_qualified_name hp_session_in_foo.entries)).isSome = true
            then ([] : StatsTable).map Prod.fst
            else ([] : StatsTable).map Prod.fst
              ++ [hp_qualified_name hp_session_in_foo.entries]) ∧
      (∀ q2, q2 ∈ ([] : StatsTable).map Prod.fst → q2 ∈ st1.map Prod.fst) :=
  hp_leave_changes_one_entry hp_session_in_foo (host_at 7) frame_foo hp_session0.entries []
    [(0, { n := "app".toList, b := [0], e := [], p := none, a := none })] rfl rfl rfl rfl
    (by decide)

/-! ## Start of a session -/

/-- What `BEGIN_PROFILING` does for a call without execute data that the
filter keeps: no extractor runs, the frame has span id -1. -/
theorem BEGIN_PROFILING_no_data (g : hp_global_t) (s : CStr) (h : host_t)
    (hf : hp_filter_entry g (hp_inline_hash s) s = 0) :
    ∃ f : hp_entry_t,
      BEGIN_PROFILING g s none h
        = some ({ g with entries := f :: g.entries,
                         entry_free_list := g.entry_free_list.tail,
                         func_hash_counters := hp_enter_counters g (hp_inline_hash s) }, 1) ∧
      f.name_hprof = s ∧ f.span_id = -1 ∧ f.hash_code = hp_inline_hash s ∧
      f.tsc_start = h.cycle_timer := by
  unfold BEGIN_PROFILING
  simp only [hf, if_true, ne_eq, one_ne_zero, not_false_eq_true]
  unfold hp_mode_hier_beginfn_cb
  simp only [hp_fast_alloc_state, beginfn_recursion_state, beginfn_recursion_frame]
  have hs : ∀ (g0 : hp_global_t) (c : hp_entry_t), beginfn_spans g0 c none h = some (c, g0) := by
    intro g0 c
    unfold beginfn_spans
    split <;> rfl
  rw [hs]
  simp only [Option.map_some']
  obtain ⟨u1, _, u3, u4, u5⟩ := beginfn_usage_fields
    { g with entry_free_list := g.entry_free_list.tail,
             func_hash_counters := hp_enter_counters
               { g with entry_free_list := g.entry_free_list.tail } (hp_inline_hash s) }
    { name_hprof := s,
      rlvl_hprof :=
        if g.tideways_flags &&& TIDEWAYS_FLAGS_NO_HIERACHICAL = 0 then
          (if g.func_hash_counters (hp_inline_hash s) > 0 then
            hp_scan_recurse_level s g.entries else 0)
        else (hp_fast_alloc_hprof_entry g h.malloc_entry).1.rlvl_hprof,
      tsc_start := h.cycle_timer,
      cpu_start := (hp_fast_alloc_hprof_entry g h.malloc_entry).1.cpu_start,
      mu_start_hprof := (hp_fast_alloc_hprof_entry g h.malloc_entry).1.mu_start_hprof,
      pmu_start_hprof := (hp_fast_alloc_hprof_entry g h.malloc_entry).1.pmu_start_hprof,
      hash_code := hp_inline_hash s, span_id := -1 } h
  exact ⟨_, rfl, u1, u5, u4, u3⟩

/-- The root frame that `hp_begin` pushes on the state it has prepared. -/
theorem BEGIN_PROFILING_root (G : hp_global_t) (h : host_t) (t : Int)
    (hff : G.filtered_functions = none) (hent : G.entries = [])
    (hen : G.enabled = 1) (hst : G.stats_count = some [])
    (hsp : G.spans
      = some [(0, { n := "app".toList, b := [t], e := [], p := none, a := none })])
    (htn : G.transaction_name = none) :
    ∃ (g1 : hp_global_t) (f : hp_entry_t) (t1 : Int),
      (BEGIN_PROFILING G ROOT_SYMBOL none h).map Prod.fst = some g1 ∧
      g1.enabled = 1 ∧ g1.stats_count = some [] ∧
      g1.spans = some [(0, { n := "app".toList, b := [t1], e := [], p := none, a := none })] ∧
      g1.transaction_name = none ∧
      g1.entries = [f] ∧ f.name_hprof = ROOT_SYMBOL ∧ f.span_id = -1 := by
  have hfilter : hp_filter_entry G (hp_inline_hash ROOT_SYMBOL) ROOT_SYMBOL = 0 := by
    unfold hp_filter_entry
    rw [hff]
  obtain ⟨f, hb, h1, h2, _⟩ := BEGIN_PROFILING_no_data G ROOT_SYMBOL h hfilter
  rw [hb]
  refine ⟨_, f, t, rfl, hen, hst, hsp, htn, ?_, h1, h2⟩
  show f :: G.entries = [f]
  rw [hent]

/-- C27. For every flags value, every table of registered extractors and
every state that is disabled, has an empty call stack (as every disabled
state has) and no filter: `hp_begin` returns a state that is enabled, with
an empty statistics table, a span tree that holds exactly the span 0 of
category `app` with one start, no stop and no parent, no transaction name,
and a call stack of exactly one frame, the root symbol `main()` with span id
-1. For a state that is enabled `hp_begin` returns the state as it is. -/
theorem hp_begin_fresh_session (g : hp_global_t) (flags : Int)
    (registered : HashTable CStr tw_trace_callback) (clock : Nat → host_t) :
    (g.enabled = 0 → g.entries = [] → g.filtered_functions = none →
      ∃ (g1 : hp_global_t) (f : hp_entry_t) (t : Int),
        hp_begin g flags registered clock = some g1 ∧
        g1.enabled = 1 ∧ g1.stats_count = some [] ∧
        g1.spans = some [(0, { n := "app".toList, b := [t], e := [], p := none, a := none })] ∧
        g1.transaction_name = none ∧
        g1.entries = [f] ∧ f.name_hprof = ROOT_SYMBOL ∧ f.span_id = -1) ∧
    (g.enabled ≠ 0 → hp_begin g flags registered clock = some g) := by
  constructor
  · intro hen hent hff
    cases g with
    | mk enabled ever stats spans st exc entries fl tf tn root ef flags0 counters ft ff tcb scache
        gr gc cc cw cs =>
    simp only at hen hent hff
    subst hen
    subst hent
    subst hff
    unfold hp_begin hp_init_profiler_state hp_init_trace_callbacks
    simp only [if_true]
    by_cases hns : (flags % 2 ^ 32).toNat &&& TIDEWAYS_FLAGS_NO_SPANS > 0
    · have hns0 : ¬ (flags % 2 ^ 32).toNat &&& TIDEWAYS_FLAGS_NO_SPANS = 0 := by omega
      by_cases hev : ever = 0
      · simp only [hev, hns, hns0, if_true, if_false]
        exact BEGIN_PROFILING_root _ _ _ rfl rfl rfl rfl rfl rfl
      · simp only [hev, hns, hns0, if_true, if_false]
        exact BEGIN_PROFILING_root _ _ _ rfl rfl rfl rfl rfl rfl
    · have hns0 : (flags % 2 ^ 32).toNat &&& TIDEWAYS_FLAGS_NO_SPANS = 0 := by omega
      by_cases hev : ever = 0
      · simp only [hev, hns0, gt_iff_lt, lt_self_iff_false, if_true, if_false]
        exact BEGIN_PROFILING_root _ _ _ rfl rfl rfl rfl rfl rfl
      · simp only [hev, hns0, gt_iff_lt, lt_self_iff_false, if_true, if_false]
        exact BEGIN_PROFILING_root _ _ _ rfl rfl rfl rfl rfl rfl
  · intro hen
    unfold hp_begin
    rw [if_neg hen]

theorem hp_begin_fresh_session_witness :
    (hp_session_open_span.enabled ≠ 0 →
      hp_begin hp_session_open_span 0 [] (fun _ => host_at 9) = some hp_session_open_span) ∧
    ∃ (g1 : hp_global_t) (f : hp_entry_t) (t : Int),
      hp_begin { hp_session_open_span with enabled := 0, entries := [] }
        TIDEWAYS_FLAGS_NO_SPANS [] (fun _ => host_at 9) = some g1 ∧
      g1.enabled = 1 ∧ g1.stats_count = some [] ∧
      g1.spans = some [(0, { n := "app".toList, b := [t], e := [], p := none, a := none })] ∧
      g1.transaction_name = none ∧
      g1.entries = [f] ∧ f.name_hprof = ROOT_SYMBOL ∧ f.span_id = -1 :=
  ⟨(hp_begin_fresh_session hp_session_open_span 0 [] (fun _ => host_at 9)).2,
   (hp_begin_fresh_session { hp_session_open_span with enabled := 0, entries := [] }
      TIDEWAYS_FLAGS_NO_SPANS [] (fun _ => host_at 9)).1 rfl rfl rfl⟩

/-! ## A wrapped call that restarts the session -/

set_option maxRecDepth 8000 in
/-- C24, failing input. The session right after `hp_begin`, the stack holds
`main()`. The wrapper `hp_execute_internal` runs for a call of the builtin
`tideways_enable` without arguments: it pushes the frame of the call, the
body stops the session and starts a new one, whose stack holds the new
`main()`, and the leave of the wrapper then pops that frame: the wrapper
returns with the session enabled and the call stack empty. -/
theorem hp_execute_internal_pops_new_root :
    (∃ (g1 g2 : hp_global_t) (flag : Int),
      BEGIN_PROFILING hp_session0 "tideways_enable".toList (some no_args) (host_at 10)
        = some (g1, flag) ∧
      tideways_enable g1 (some (0, none)) [] host_at host_at = some g2 ∧
      g2.enabled = 1 ∧ g2.entries.map (fun f => f.name_hprof) = [ROOT_SYMBOL]) ∧
    ∃ g3 : hp_global_t,
      hp_execute_internal hp_session0 (some "tideways_enable".toList) (some no_args)
          (host_at 10) (host_at 20)
          (fun g => tideways_enable g (some (0, none)) [] host_at host_at)
        = some g3 ∧
      g3.enabled = 1 ∧ g3.entries = [] :=
  ⟨⟨_, _, _, rfl, rfl, rfl, rfl⟩, _, rfl, rfl, rfl⟩

/-! ## The transaction name of a session -/

theorem hp_detect_transaction_name_cleared (g : hp_global_t) (ret : CStr)
    (data : Option zend_execute_data) (hc : g.transaction_function = none) :
    hp_detect_transaction_name g ret data = some g := by
  unfold hp_detect_transaction_name
  rw [hc]

theorem hp_detect_transaction_names_cleared (calls : List (CStr × Option zend_execute_data)) :
    ∀ g : hp_global_t, g.transaction_function = none →
      hp_detect_transaction_names g calls = some g := by
  induction calls with
  | nil => intro g _; rfl
  | cons c cs ih =>
    intro g hc
    simp only [hp_detect_transaction_names, hp_detect_transaction_name_cleared g c.1 c.2 hc,
      Option.some_bind]
    exact ih g hc

/-- C25, as the code has it. In a session with a transaction marker and no
transaction name, a sequence of calls that starts with a call of the marker
symbol with a first argument (and, for a dispatcher symbol, a receiver
object): the first call alone decides. If its first argument is a string the
name is set from it, otherwise no name is set; in both cases the marker is
cleared, and the later calls of the sequence, whatever their arguments,
change nothing. -/
theorem hp_transaction_name_first_marker_call (g : hp_global_t) (tf : hp_string)
    (d : zend_execute_data) (a : zval) (rest : List zval) (cls str : CStr) (e : Bool)
    (cs : List (CStr × Option zend_execute_data))
    (htf : g.transaction_function = some tf) (hnn : g.transaction_name = none)
    (hargs : d.args = a :: rest)
    (hobj : tf.value ∈ hp_dispatch_symbols → d.object = some (.IS_OBJECT cls e str)) :
    hp_detect_transaction_names g ((tf.value, some d) :: cs)
      = some { g with
          transaction_name :=
            (match a with
             | .IS_STRING s =>
               if tf.value ∈ hp_dispatch_symbols then
                 some (hp_create_string (cls ++ "::".toList ++ c_string s 0)
                   (cls.length + s.length + 3))
               else hp_zval_to_string a
             | _ => none),
          transaction_function := none } := by
  cases g with
  | mk enabled ever stats spans st exc entries fl tf0 tn root ef flags counters ft ff tcb scache
      gr gc cc cw cs0 =>
  simp only at htf hnn hobj
  subst htf
  subst hnn
  have hfirst : hp_detect_transaction_name
      { enabled := enabled, ever_enabled := ever, stats_count := stats, spans := spans,
        start_time := st, exception := exc, entries := entries, entry_free_list := fl,
        transaction_function := some tf, transaction_name := none, root := root,
        exception_function := ef, tideways_flags := flags, func_hash_counters := counters,
        filtered_type := ft, filtered_functions := ff, trace_callbacks := tcb,
        span_cache := scache, gc_runs := gr, gc_collected := gc, compile_count := cc,
        compile_wt := cw, cpu_start := cs0 } tf.value (some d)
      = some
      { enabled := enabled, ever_enabled := ever, stats_count := stats, spans := spans,
        start_time := st, exception := exc, entries := entries, entry_free_list := fl,
        transaction_function := none,
        transaction_name :=
          (match a with
           | .IS_STRING s =>
             if tf.value ∈ hp_dispatch_symbols then
               some (hp_create_string (cls ++ "::".toList ++ c_string s 0)
                 (cls.length + s.length + 3))
             else hp_zval_to_string a
           | _ => none),
        root := root,
        exception_function := ef, tideways_flags := flags, func_hash_counters := counters,
        filtered_type := ft, filtered_functions := ff, trace_callbacks := tcb,
        span_cache := scache, gc_runs := gr, gc_collected := gc, compile_count := cc,
        compile_wt := cw, cpu_start := cs0 } := by
    unfold hp_detect_transaction_name
    simp only [Option.isSome_none, Bool.false_eq_true, ne_eq, not_true_eq_false, or_self,
      if_false, hargs, List.head?_cons]
    by_cases hd : tf.value ∈ hp_dispatch_symbols
    · simp only [hd, if_true, hobj hd, hp_transaction_function_clear]
      cases a <;> rfl
    · simp only [hd, if_false, hp_transaction_function_clear]
      cases a <;> rfl
  simp only [hp_detect_transaction_names, hfirst, Option.some_bind]
  exact hp_detect_transaction_names_cleared cs _ rfl

theorem hp_transaction_name_first_marker_call_witness :
    hp_session_tx.transaction_function = some (hp_create_string "start_tx".toList 8) ∧
    hp_detect_transaction_names hp_session_tx
        [((hp_create_string "start_tx".toList 8).value,
            some { args := [.IS_STRING "home".toList], object := none }),
         ("start_tx".toList, some { args := [.IS_STRING "other".toList], object := none })]
      = some { hp_session_tx with
          transaction_name :=
            (match zval.IS_STRING "home".toList with
             | .IS_STRING s =>
               if (hp_create_string "start_tx".toList 8).value ∈ hp_dispatch_symbols then
                 some (hp_create_string (([] : CStr) ++ "::".toList ++ c_string s 0)
                   (([] : CStr).length + s.length + 3))
               else hp_zval_to_string (.IS_STRING "home".toList)
             | _ => none),
          transaction_function := none } :=
  ⟨rfl, hp_transaction_name_first_marker_call hp_session_tx
    (hp_create_string "start_tx".toList 8)
    { args := [.IS_STRING "home".toList], object := none } (.IS_STRING "home".toList) []
    [] [] false _ rfl rfl rfl (fun h => absurd h (by decide))⟩

/-- C25, counterexample. The marker is `start_tx`; its first call has the
integer 1 as first argument, its second call the string `home`. After the
two calls no transaction name is set: the first call has cleared the
marker. -/
theorem hp_transaction_name_lost_after_non_string :
    ∃ g1 : hp_global_t,
      hp_detect_transaction_names hp_session_tx
          [("start_tx".toList, some { args := [.IS_LONG 1], object := none }),
           ("start_tx".toList, some { args := [.IS_STRING "home".toList], object := none })]
        = some g1 ∧
      g1.transaction_name = none ∧ g1.transaction_function = none ∧
      (hp_detect_transaction_name hp_session_tx "start_tx".toList
          (some { args := [.IS_STRING "home".toList], object := none })).map
          (fun g => g.transaction_name)
        = some (some (hp_create_string "home".toList 4)) :=
  ⟨_, rfl, rfl, rfl, rfl⟩

/-- C26, failing input. The marker is `Zend_Controller_Action::dispatch`, the
receiver is an object of class `IndexController`, the first argument is the
string `index`. The name that `tideways_transaction_name` returns is
`IndexController::index` followed by a NUL byte: it has 23 bytes, one more
than the 15 + 2 + 5 bytes of class, `::` and argument. -/
theorem hp_transaction_name_trailing_nul :
    ∃ (g1 : hp_global_t) (name : CStr),
      hp_detect_transaction_name hp_session_dispatch "Zend_Controller_Action::dispatch".toList
          (some { args := [.IS_STRING "index".toList],
                  object := some (.IS_OBJECT "IndexController".toList false []) })
        = some g1 ∧
      tideways_transaction_name g1 = some (.IS_STRING name) ∧
      name = "IndexController::index".toList ++ [NUL] ∧
      name.length = 23 ∧
      "IndexController".toList.length + 2 + "index".toList.length = 22 :=
  ⟨_, _, rfl, rfl, rfl, rfl, rfl⟩

/-! ## The name list of an option -/

theorem hp_strings_in_zval_loop_long (ht : List (hash_key × zval))
    (hkeys : ∀ kv ∈ ht, ∃ i, kv.1 = .HASH_KEY_IS_LONG i) :
    hp_strings_in_zval_loop ht
      = ((zval_string_values ht).map (fun s => c_string s 0)).filter
          (fun n => decide (n ≠ ROOT_SYMBOL)) := by
  induction ht with
  | nil => rfl
  | cons kv rest ih =>
    have ih1 := ih (fun x hx => hkeys x (List.mem_cons_of_mem _ hx))
    obtain ⟨i, hi⟩ := hkeys kv (List.mem_cons_self _ _)
    obtain ⟨k, z⟩ := kv
    simp only at hi
    subst hi
    cases z with
    | IS_STRING s =>
      simp only [hp_strings_in_zval_loop, zval_string_values, List.map_cons]
      by_cases hr : c_string s 0 = ROOT_SYMBOL
      · rw [if_neg (fun h => h hr),
          List.filter_cons_of_neg (by rw [decide_eq_true_eq]; exact fun h => h hr), ih1]
      · rw [if_pos hr, List.filter_cons_of_pos (by rw [decide_eq_true_eq]; exact hr), ih1]
    | IS_NULL => simpa only [hp_strings_in_zval_loop, zval_string_values] using ih1
    | IS_LONG v => simpa only [hp_strings_in_zval_loop, zval_string_values] using ih1
    | IS_BOOL b => simpa only [hp_strings_in_zval_loop, zval_string_values] using ih1
    | IS_OBJECT c e t => simpa only [hp_strings_in_zval_loop, zval_string_values] using ih1
    | IS_OTHER t => simpa only [hp_strings_in_zval_loop, zval_string_values] using ih1

theorem hp_strings_in_zval_loop_string (ht : List (hash_key × zval))
    (hkeys : ∀ kv ∈ ht, ∃ str, kv.1 = .HASH_KEY_IS_STRING str) :
    hp_strings_in_zval_loop ht = (hash_string_keys ht).map (fun s => c_string s 0) := by
  induction ht with
  | nil => rfl
  | cons kv rest ih =>
    have ih1 := ih (fun x hx => hkeys x (List.mem_cons_of_mem _ hx))
    obtain ⟨str, hstr⟩ := hkeys kv (List.mem_cons_self _ _)
    obtain ⟨k, z⟩ := kv
    simp only at hstr
    subst hstr
    simp only [hp_strings_in_zval_loop, hash_string_keys, List.map_cons, ih1]

theorem map_c_string_nul_free (l : List CStr) (hl : ∀ s ∈ l, nul_free s) :
    l.map (fun s => c_string s 0) = l := by
  induction l with
  | nil => rfl
  | cons s rest ih =>
    simp only [List.map_cons, c_string_nul_free s (hl s (List.mem_cons_self _ _)),
      ih (fun x hx => hl x (List.mem_cons_of_mem _ hx))]

theorem hp_filter_entry_parsed (g : hp_global_t) (opts : HashTable CStr option_zval)
    (z : option_zval) (hz : zend_hash_find opts "ignored_functions".toList = some z) :
    (hp_parse_options_from_arg g (some (.IS_ARRAY opts))).filtered_type = 1 ∧
    (hp_parse_options_from_arg g (some (.IS_ARRAY opts))).filtered_functions
      = hp_function_map_create (hp_strings_in_zval (some z)) := by
  unfold hp_parse_options_from_arg
  simp only [hp_zval_at_key, hz]
  cases zend_hash_find opts "transaction_function".toList <;>
    cases zend_hash_find opts "exception_function".toList <;> exact ⟨rfl, rfl⟩

/-- C29, as the code has it. For an options array with integer keys only,
the name list of `hp_strings_in_zval` holds, in order, the string values of
the array read as C strings, that is up to their first NUL byte, without
those that read `main()`; when no string value has a NUL byte these are
exactly the string values other than `main()`. The root symbol is never in
the list, so with the list as `ignored_functions` the root symbol passes
the filter. For an array with string keys only the list holds the keys, and
for a single string value the list holds that string, both read as C
strings and `main()` included. -/
theorem hp_strings_in_zval_names (ht : List (hash_key × zval)) (s : CStr) :
    ((∀ kv ∈ ht, ∃ i, kv.1 = .HASH_KEY_IS_LONG i) →
      hp_strings_in_zval (some (.IS_ARRAY ht))
        = some (((zval_string_values ht).map (fun v => c_string v 0)).filter
            (fun n => decide (n ≠ ROOT_SYMBOL))) ∧
      ((∀ v ∈ zval_string_values ht, nul_free v) →
        hp_strings_in_zval (some (.IS_ARRAY ht))
          = some ((zval_string_values ht).filter (fun n => decide (n ≠ ROOT_SYMBOL)))) ∧
      (∀ (g : hp_global_t) (opts : HashTable CStr option_zval),
        zend_hash_find opts "ignored_functions".toList = some (.IS_ARRAY ht) →
        hp_filter_entry (hp_parse_options_from_arg g (some (.IS_ARRAY opts)))
          (hp_inline_hash ROOT_SYMBOL) ROOT_SYMBOL = 0)) ∧
    ((∀ kv ∈ ht, ∃ str, kv.1 = .HASH_KEY_IS_STRING str) →
      hp_strings_in_zval (some (.IS_ARRAY ht))
        = some ((hash_string_keys ht).map (fun v => c_string v 0))) ∧
    hp_strings_in_zval (some (.scalar (.IS_STRING s))) = some [c_string s 0] := by
  refine ⟨?_, ?_, rfl⟩
  · intro hkeys
    have hloop := hp_strings_in_zval_loop_long ht hkeys
    refine ⟨?_, ?_, ?_⟩
    · simp only [hp_strings_in_zval, hloop]
    · intro hnf
      simp only [hp_strings_in_zval, hloop, map_c_string_nul_free _ hnf]
    · intro g opts hz
      obtain ⟨h1, h2⟩ := hp_filter_entry_parsed g opts _ hz
      have hnot : ROOT_SYMBOL ∉ hp_strings_in_zval_loop ht := by
        rw [hloop]
        intro hmem
        have := (List.mem_filter.mp hmem).2
        simp at this
      obtain ⟨_, h0⟩ := hp_function_map_exists_iff (hp_strings_in_zval_loop ht) _ ROOT_SYMBOL rfl
      have hmap : (hp_parse_options_from_arg g (some (.IS_ARRAY opts))).filtered_functions
          = some { names := hp_strings_in_zval_loop ht,
                   filter := hp_function_map_fill
                     (List.replicate TIDEWAYS_FILTERED_FUNCTION_SIZE 0)
                     (hp_strings_in_zval_loop ht) } := h2
      unfold hp_filter_entry
      rw [hmap, h1]
      simp only [h0.mpr hnot]
      rfl
  · intro hkeys
    simp only [hp_strings_in_zval, hp_strings_in_zval_loop_string ht hkeys]

theorem hp_strings_in_zval_names_witness :
    hp_strings_in_zval (some (.IS_ARRAY
        [(.HASH_KEY_IS_LONG 0, .IS_STRING "foo".toList), (.HASH_KEY_IS_LONG 1, .IS_LONG 7),
         (.HASH_KEY_IS_LONG 2, .IS_STRING ROOT_SYMBOL)]))
      = some (((zval_string_values
          [(.HASH_KEY_IS_LONG 0, .IS_STRING "foo".toList), (.HASH_KEY_IS_LONG 1, .IS_LONG 7),
           (.HASH_KEY_IS_LONG 2, .IS_STRING ROOT_SYMBOL)]).map (fun v => c_string v 0)).filter
            (fun n => decide (n ≠ ROOT_SYMBOL))) ∧
    hp_strings_in_zval (some (.scalar (.IS_STRING ROOT_SYMBOL))) = some [c_string ROOT_SYMBOL 0] :=
  ⟨((hp_strings_in_zval_names
      [(.HASH_KEY_IS_LONG 0, .IS_STRING "foo".toList), (.HASH_KEY_IS_LONG 1, .IS_LONG 7),
       (.HASH_KEY_IS_LONG 2, .IS_STRING ROOT_SYMBOL)] ROOT_SYMBOL).1
      (fun kv hkv => by
        simp only [List.mem_cons, List.mem_singleton, List.not_mem_nil, or_false] at hkv
        rcases hkv with rfl | rfl | rfl <;> exact ⟨_, rfl⟩)).1,
   (hp_strings_in_zval_names [] ROOT_SYMBOL).2.2⟩

/-- C29, counterexample. The array holds, under the integer key 0, the
string `name_with_nul` of 7 bytes, `foo`, a NUL byte, `bar`. The name list
holds `foo`, which is not that string value. -/
theorem hp_strings_in_zval_cuts_at_nul :
    name_with_nul.length = 7 ∧
    zval_string_values [(.HASH_KEY_IS_LONG 0, .IS_STRING name_with_nul)] = [name_with_nul] ∧
    hp_strings_in_zval (some (.IS_ARRAY [(.HASH_KEY_IS_LONG 0, .IS_STRING name_with_nul)]))
      = some ["foo".toList] ∧
    "foo".toList ≠ name_with_nul :=
  ⟨rfl, rfl, by decide, by decide⟩

/-! ## Left-over content of frames is never read -/

theorem hp_entry_written_idem (flags : Nat) (f : hp_entry_t) :
    hp_entry_written flags (hp_entry_written flags f) = hp_entry_written flags f := by
  unfold hp_entry_written
  by_cases h1 : flags &&& TIDEWAYS_FLAGS_NO_HIERACHICAL = 0 <;>
  by_cases h2 : flags &&& TIDEWAYS_FLAGS_CPU ≠ 0 <;>
  by_cases h3 : flags &&& TIDEWAYS_FLAGS_MEMORY ≠ 0 <;>
  simp [h1, h2, h3]

theorem hp_globals_written_idem (g : hp_global_t) :
    hp_globals_written (hp_globals_written g) = hp_globals_written g := by
  unfold hp_globals_written
  simp only [List.map_map]
  congr 1
  apply List.map_congr_left
  intro f _
  exact hp_entry_written_idem _ f

theorem hp_get_entry_name_written (flags : Nat) (f : hp_entry_t) (mem : List Char)
    (off len : Nat) (hh : flags &&& TIDEWAYS_FLAGS_NO_HIERACHICAL = 0) :
    hp_get_entry_name (hp_entry_written flags f) mem off len = hp_get_entry_name f mem off len := by
  unfold hp_get_entry_name hp_entry_written
  simp only [hh, if_true]

theorem hp_get_function_stack_written (flags : Nat)
    (hh : flags &&& TIDEWAYS_FLAGS_NO_HIERACHICAL = 0) (entries : List hp_entry_t) :
    ∀ (level : Int) (mem : List Char) (len : Nat),
      hp_get_function_stack (entries.map (hp_entry_written flags)) level mem len
        = hp_get_function_stack entries level mem len := by
  induction entries with
  | nil => intro level mem len; rfl
  | cons e rest ih =>
    intro level mem len
    cases rest with
    | nil =>
      simp only [List.map_cons, List.map_nil, hp_get_function_stack,
        hp_get_entry_name_written flags e _ _ _ hh]
    | cons p rest2 =>
      have ih1 := ih (level - 1) mem len
      simp only [List.map_cons] at ih1 ⊢
      simp only [hp_get_function_stack, ih1, hp_get_entry_name_written flags e _ _ _ hh]

theorem hp_qualified_name_written (flags : Nat)
    (hh : flags &&& TIDEWAYS_FLAGS_NO_HIERACHICAL = 0) (entries : List hp_entry_t) :
    hp_qualified_name (entries.map (hp_entry_written flags)) = hp_qualified_name entries := by
  unfold hp_qualified_name
  rw [hp_get_function_stack_written flags hh]

theorem hp_scan_recurse_level_written (flags : Nat)
    (hh : flags &&& TIDEWAYS_FLAGS_NO_HIERACHICAL = 0) (s : CStr) (entries : List hp_entry_t) :
    hp_scan_recurse_level s (entries.map (hp_entry_written flags))
      = hp_scan_recurse_level s entries := by
  induction entries with
  | nil => rfl
  | cons p rest ih =>
    simp only [List.map_cons, hp_scan_recurse_level, ih]
    simp only [hp_entry_written, hh, if_true]

/-- The written fields of the frame that `beginfn_usage` returns. -/
theorem beginfn_usage_written (g : hp_global_t) (c : hp_entry_t) (h : host_t) :
    hp_entry_written g.tideways_flags (beginfn_usage g c h)
      = { name_hprof := c.name_hprof,
          rlvl_hprof :=
            if g.tideways_flags &&& TIDEWAYS_FLAGS_NO_HIERACHICAL = 0 then c.rlvl_hprof else 0,
          tsc_start := c.tsc_start,
          cpu_start := if g.tideways_flags &&& TIDEWAYS_FLAGS_CPU ≠ 0 then h.cpu_timer else 0,
          mu_start_hprof :=
            if g.tideways_flags &&& TIDEWAYS_FLAGS_MEMORY ≠ 0 then h.memory_usage else 0,
          pmu_start_hprof :=
            if g.tideways_flags &&& TIDEWAYS_FLAGS_MEMORY ≠ 0 then h.memory_peak_usage else 0,
          hash_code := c.hash_code,
          span_id := c.span_id } := by
  unfold beginfn_usage hp_entry_written
  by_cases h2 : g.tideways_flags &&& TIDEWAYS_FLAGS_CPU ≠ 0 <;>
  by_cases h3 : g.tideways_flags &&& TIDEWAYS_FLAGS_MEMORY ≠ 0 <;>
  simp [h2, h3]

/-- The counters of a completed frame depend on its written fields only. -/
theorem endfn_bump_written (g : hp_global_t) (top : hp_entry_t) (h : host_t)
    (counts : HashTable CStr Int) :
    endfn_bump g (hp_entry_written g.tideways_flags top) h counts = endfn_bump g top h counts := by
  unfold endfn_bump hp_entry_written
  by_cases h2 : g.tideways_flags &&& TIDEWAYS_FLAGS_CPU ≠ 0 <;>
  by_cases h3 : g.tideways_flags &&& TIDEWAYS_FLAGS_MEMORY ≠ 0 <;>
  simp [h2, h3]
/-- The begin of a call, with the filter passed, in its parts. -/
theorem BEGIN_PROFILING_parts (g : hp_global_t) (s : CStr) (d : Option zend_execute_data)
    (h : host_t) (hf : hp_filter_entry g (hp_inline_hash s) s = 0) :
    BEGIN_PROFILING g s d h
      = ((beginfn_spans
            { g with entry_free_list := g.entry_free_list.tail,
                     func_hash_counters := hp_enter_counters g (hp_inline_hash s) }
            { name_hprof := s,
              rlvl_hprof :=
                if g.tideways_flags &&& TIDEWAYS_FLAGS_NO_HIERACHICAL = 0 then
                  (if g.func_hash_counters (hp_inline_hash s) > 0 then
                    hp_scan_recurse_level s g.entries else 0)
                else (hp_fast_alloc_hprof_entry g h.malloc_entry).1.rlvl_hprof,
              tsc_start := h.cycle_timer,
              cpu_start := (hp_fast_alloc_hprof_entry g h.malloc_entry).1.cpu_start,
              mu_start_hprof := (hp_fast_alloc_hprof_entry g h.malloc_entry).1.mu_start_hprof,
              pmu_start_hprof := (hp_fast_alloc_hprof_entry g h.malloc_entry).1.pmu_start_hprof,
              hash_code := hp_inline_hash s, span_id := -1 } d h).map
          (fun r3 => (beginfn_usage r3.2 r3.1 h, r3.2))).map
        (fun r => ({ r.2 with entries := r.1 :: r.2.entries }, (1 : Int))) := by
  unfold BEGIN_PROFILING
  simp only [hf, if_true, ne_eq, one_ne_zero, not_false_eq_true]
  unfold hp_mode_hier_beginfn_cb
  simp only [hp_fast_alloc_state, beginfn_recursion_state, beginfn_recursion_frame]
  rfl

/-- The extractor step of the begin callback reads of the state the flags,
the extractors, the span tree, the span cache and the start time, and of the
frame the symbol: two states and two frames that agree there get the same
span id and the same tables. -/
theorem beginfn_spans_congr (g g1 : hp_global_t) (c c1 : hp_entry_t)
    (d : Option zend_execute_data) (h h1 : host_t)
    (hfl : g1.tideways_flags = g.tideways_flags)
    (htc : g1.trace_callbacks = g.trace_callbacks)
    (hsp : g1.spans = g.spans) (hsc : g1.span_cache = g.span_cache)
    (hst : g1.start_time = g.start_time)
    (hn : c1.name_hprof = c.name_hprof) (hid : c1.span_id = c.span_id)
    (hcb : h1.cycle_timer_cb = h.cycle_timer_cb) :
    (beginfn_spans g c d h = none ∧ beginfn_spans g1 c1 d h1 = none) ∨
    ∃ (id : Int) (sp : Option SpanTree) (sc : Option (HashTable CStr Int)),
      beginfn_spans g c d h
        = some ({ c with span_id := id }, { g with spans := sp, span_cache := sc }) ∧
      beginfn_spans g1 c1 d h1
        = some ({ c1 with span_id := id }, { g1 with spans := sp, span_cache := sc }) := by
  cases g with
  | mk enabled ever stats spans st exc entries fl tf tn root ef flags counters ft ff tcb scache
      gr gc cc cw cs =>
  cases g1 with
  | mk enabled1 ever1 stats1 spans1 st1 exc1 entries1 fl1 tf1 tn1 root1 ef1 flags1 counters1 ft1
      ff1 tcb1 scache1 gr1 gc1 cc1 cw1 cs1 =>
  cases c with
  | mk cn cr ct ccpu cmu cpmu chash cspan =>
  cases c1 with
  | mk cn1 cr1 ct1 ccpu1 cmu1 cpmu1 chash1 cspan1 =>
  simp only at hfl htc hsp hsc hst hn hid
  subst hfl htc hsp hsc hst hn hid
  unfold beginfn_spans
  simp only [hcb]
  by_cases hns : flags1 &&& TIDEWAYS_FLAGS_NO_SPANS = 0
  · simp only [hns, if_true]
    cases d with
    | none => exact Or.inr ⟨_, _, _, rfl, rfl⟩
    | some dd =>
      simp only
      cases tcb1 with
      | none => exact Or.inl ⟨rfl, rfl⟩
      | some callbacks =>
        simp only
        cases hfind : zend_hash_find callbacks cn1 with
        | none => exact Or.inr ⟨_, _, _, rfl, rfl⟩
        | some cb =>
          simp only
          cases spans1 with
          | none => exact Or.inl ⟨rfl, rfl⟩
          | some sp0 =>
            cases scache1 with
            | none => exact Or.inl ⟨rfl, rfl⟩
            | some sc0 => exact Or.inr ⟨_, _, _, rfl, rfl⟩
  · simp only [hns, if_false]
    exact Or.inr ⟨_, _, _, rfl, rfl⟩
theorem beginfn_usage_written_flags (flags : Nat) (g : hp_global_t) (c : hp_entry_t)
    (h : host_t) (hfl : g.tideways_flags = flags) :
    hp_entry_written flags (beginfn_usage g c h)
      = { name_hprof := c.name_hprof,
          rlvl_hprof :=
            if flags &&& TIDEWAYS_FLAGS_NO_HIERACHICAL = 0 then c.rlvl_hprof else 0,
          tsc_start := c.tsc_start,
          cpu_start := if flags &&& TIDEWAYS_FLAGS_CPU ≠ 0 then h.cpu_timer else 0,
          mu_start_hprof := if flags &&& TIDEWAYS_FLAGS_MEMORY ≠ 0 then h.memory_usage else 0,
          pmu_start_hprof :=
            if flags &&& TIDEWAYS_FLAGS_MEMORY ≠ 0 then h.memory_peak_usage else 0,
          hash_code := c.hash_code,
          span_id := c.span_id } := by
  subst hfl
  exact beginfn_usage_written g c h

theorem hp_scan_recurse_level_same (flags : Nat)
    (hh : flags &&& TIDEWAYS_FLAGS_NO_HIERACHICAL = 0) (s : CStr)
    (entries entries1 : List hp_entry_t)
    (he : entries1.map (hp_entry_written flags) = entries.map (hp_entry_written flags)) :
    hp_scan_recurse_level s entries1 = hp_scan_recurse_level s entries := by
  rw [← hp_scan_recurse_level_written flags hh s entries1, he,
    hp_scan_recurse_level_written flags hh s entries]

theorem hp_qualified_name_same (flags : Nat)
    (hh : flags &&& TIDEWAYS_FLAGS_NO_HIERACHICAL = 0)
    (entries entries1 : List hp_entry_t)
    (he : entries1.map (hp_entry_written flags) = entries.map (hp_entry_written flags)) :
    hp_qualified_name entries1 = hp_qualified_name entries := by
  rw [← hp_qualified_name_written flags hh entries1, he,
    hp_qualified_name_written flags hh entries]

/-- What two states share when they agree except for left-over content of
frames. -/
theorem hp_globals_written_fields (g g1 : hp_global_t)
    (hR : hp_globals_written g1 = hp_globals_written g) :
    g1.tideways_flags = g.tideways_flags ∧ g1.trace_callbacks = g.trace_callbacks ∧
    g1.spans = g.spans ∧ g1.span_cache = g.span_cache ∧ g1.start_time = g.start_time ∧
    g1.filtered_functions = g.filtered_functions ∧ g1.filtered_type = g.filtered_type ∧
    g1.stats_count = g.stats_count ∧ g1.func_hash_counters = g.func_hash_counters ∧
    g1.entries.map (hp_entry_written g.tideways_flags)
      = g.entries.map (hp_entry_written g.tideways_flags) := by
  have h1 := congrArg hp_global_t.tideways_flags hR
  have h2 := congrArg hp_global_t.trace_callbacks hR
  have h3 := congrArg hp_global_t.spans hR
  have h4 := congrArg hp_global_t.span_cache hR
  have h5 := congrArg hp_global_t.start_time hR
  have h6 := congrArg hp_global_t.filtered_functions hR
  have h7 := congrArg hp_global_t.filtered_type hR
  have h8 := congrArg hp_global_t.stats_count hR
  have h9 := congrArg hp_global_t.func_hash_counters hR
  have h10 := congrArg hp_global_t.entries hR
  have h1b : g1.tideways_flags = g.tideways_flags := h1
  have h10b : g1.entries.map (hp_entry_written g1.tideways_flags)
      = g.entries.map (hp_entry_written g.tideways_flags) := h10
  rw [h1b] at h10b
  exact ⟨h1, h2, h3, h4, h5, h6, h7, h8, h9, h10b⟩

/-- The begin of a call in two states that agree except for left-over
content of frames, with two contents of the memory that `malloc` hands
out: the results agree except for left-over content of frames. -/
theorem BEGIN_PROFILING_written (g g1 : hp_global_t) (s : CStr)
    (d : Option zend_execute_data) (h h1 : host_t)
    (hR : hp_globals_written g1 = hp_globals_written g)
    (hh : hp_call_same (.enter s d h) (.enter s d h1)) :
    (BEGIN_PROFILING g1 s d h1).map (fun r => (hp_globals_written r.1, r.2))
      = (BEGIN_PROFILING g s d h).map (fun r => (hp_globals_written r.1, r.2)) := by
  obtain ⟨_, _, t1, t2, t3, t4, t5, _, _⟩ := hh
  obtain ⟨q1, q2, q3, q4, q5, q6, q7, _, _, _⟩ := hp_globals_written_fields g g1 hR
  by_cases hf : hp_filter_entry g (hp_inline_hash s) s = 0
  · have hf1 : hp_filter_entry g1 (hp_inline_hash s) s = 0 := by
      rw [hp_filter_entry_congr g g1 _ _ q6 q7]
      exact hf
    rw [BEGIN_PROFILING_parts g s d h hf, BEGIN_PROFILING_parts g1 s d h1 hf1]
    rcases beginfn_spans_congr
        { g with entry_free_list := g.entry_free_list.tail,
                 func_hash_counters := hp_enter_counters g (hp_inline_hash s) }
        { g1 with entry_free_list := g1.entry_free_list.tail,
                  func_hash_counters := hp_enter_counters g1 (hp_inline_hash s) }
        { name_hprof := s,
          rlvl_hprof :=
            if g.tideways_flags &&& TIDEWAYS_FLAGS_NO_HIERACHICAL = 0 then
              (if g.func_hash_counters (hp_inline_hash s) > 0 then
                hp_scan_recurse_level s g.entries else 0)
            else (hp_fast_alloc_hprof_entry g h.malloc_entry).1.rlvl_hprof,
          tsc_start := h.cycle_timer,
          cpu_start := (hp_fast_alloc_hprof_entry g h.malloc_entry).1.cpu_start,
          mu_start_hprof := (hp_fast_alloc_hprof_entry g h.malloc_entry).1.mu_start_hprof,
          pmu_start_hprof := (hp_fast_alloc_hprof_entry g h.malloc_entry).1.pmu_start_hprof,
          hash_code := hp_inline_hash s, span_id := -1 }
        { name_hprof := s,
          rlvl_hprof :=
            if g1.tideways_flags &&& TIDEWAYS_FLAGS_NO_HIERACHICAL = 0 then
              (if g1.func_hash_counters (hp_inline_hash s) > 0 then
                hp_scan_recurse_level s g1.entries else 0)
            else (hp_fast_alloc_hprof_entry g1 h1.malloc_entry).1.rlvl_hprof,
          tsc_start := h1.cycle_timer,
          cpu_start := (hp_fast_alloc_hprof_entry g1 h1.malloc_entry).1.cpu_start,
          mu_start_hprof := (hp_fast_alloc_hprof_entry g1 h1.malloc_entry).1.mu_start_hprof,
          pmu_start_hprof := (hp_fast_alloc_hprof_entry g1 h1.malloc_entry).1.pmu_start_hprof,
          hash_code := hp_inline_hash s, span_id := -1 }
        d h h1
        q1 q2 q3 q4 q5 rfl rfl t2
      with ⟨hn, hn1⟩ | ⟨id, sp, sc, hs, hs1⟩
    · rw [hn, hn1]
      rfl
    · rw [hs, hs1]
      simp only [Option.map_some', Option.some.injEq, Prod.mk.injEq, and_true]
      cases g with
      | mk enabled ever stats spans st exc entries fl tf tn root ef flags counters ft ff tcb
          scache gr gc cc cw cs =>
      cases g1 with
      | mk enabled1 ever1 stats1 spans1 st1 exc1 entries1 fl1 tf1 tn1 root1 ef1 flags1 counters1
          ft1 ff1 tcb1 scache1 gr1 gc1 cc1 cw1 cs1 =>
      clear q1 q2 q3 q4 q5 q6 q7 hs hs1 hf hf1
      simp only [hp_globals_written, hp_global_t.mk.injEq, and_true, true_and] at hR
      obtain ⟨r1, r2, r3, r4, r5, r6, r7, r8, r9, r10, r11, r12, r13, r14, r15, r16, r17, r18,
        r19, r20, r21, r22⟩ := hR
      subst r1 r2 r3 r4 r5 r6 r8 r9 r10 r11 r12 r13 r14 r15 r16 r17 r18 r19 r20 r21 r22
      simp only [hp_globals_written, List.map_cons, hp_global_t.mk.injEq, and_true, true_and,
        hp_enter_counters, List.cons.injEq, r7]
      refine Eq.trans (beginfn_usage_written_flags flags1 _ _ _ (by rfl))
        (Eq.trans ?_ (beginfn_usage_written_flags flags1 _ _ _ (by rfl)).symm)
      simp only [t1, t3, t4, t5, hp_entry_t.mk.injEq, and_true, true_and]
      by_cases hhier : flags1 &&& TIDEWAYS_FLAGS_NO_HIERACHICAL = 0
      · simp only [hhier, if_true, hp_scan_recurse_level_same flags1 hhier s _ _ r7]
      · simp only [hhier, if_false]
  · have hf1 : hp_filter_entry g1 (hp_inline_hash s) s ≠ 0 := by
      rw [hp_filter_entry_congr g g1 _ _ q6 q7]
      exact hf
    rw [BEGIN_PROFILING_filtered g s d h hf, BEGIN_PROFILING_filtered g1 s d h1 hf1]
    simp only [Option.map_some', hR]
theorem endfn_bump_flags (g g1 : hp_global_t) (top : hp_entry_t) (h : host_t)
    (hfl : g1.tideways_flags = g.tideways_flags) :
    endfn_bump g1 top h = endfn_bump g top h := by
  funext counts
  unfold endfn_bump
  rw [hfl]

theorem hp_leave_stats_written (g : hp_global_t) (h : host_t) :
    hp_leave_stats (hp_globals_written g) h = hp_leave_stats g h := by
  unfold hp_leave_stats
  cases he : g.entries with
  | nil => simp only [hp_globals_written, he, List.map_nil]
  | cons top rest =>
    simp only [hp_globals_written, he, List.map_cons]
    by_cases hh : g.tideways_flags &&& TIDEWAYS_FLAGS_NO_HIERACHICAL > 0
    · simp only [hh, if_true]
    · have hh0 : g.tideways_flags &&& TIDEWAYS_FLAGS_NO_HIERACHICAL = 0 := by omega
      have hq := hp_qualified_name_written g.tideways_flags hh0 (top :: rest)
      simp only [List.map_cons] at hq
      have hb : endfn_bump
          { g with entries := hp_entry_written g.tideways_flags top
                      :: rest.map (hp_entry_written g.tideways_flags),
                   entry_free_list := [] }
          (hp_entry_written g.tideways_flags top) h = endfn_bump g top h := by
        rw [endfn_bump_flags g _ _ h rfl]
        funext counts
        exact endfn_bump_written g top h counts
      simp only [hh, if_false, hq, hb]

theorem hp_leave_counters_written (g : hp_global_t) :
    hp_leave_counters (hp_globals_written g) = hp_leave_counters g := by
  unfold hp_leave_counters
  cases he : g.entries with
  | nil => simp only [hp_globals_written, he, List.map_nil]
  | cons top rest =>
    simp only [hp_globals_written, he, List.map_cons]
    rfl

theorem hp_leave_spans_written (g : hp_global_t) (h : host_t) (sp : SpanTree) :
    hp_leave_spans (hp_globals_written g) h sp = hp_leave_spans g h sp := by
  unfold hp_leave_spans
  cases he : g.entries with
  | nil => simp only [hp_globals_written, he, List.map_nil]
  | cons top rest =>
    simp only [hp_globals_written, he, List.map_cons]
    rfl

/-- What `END_PROFILING` does with flag 1 on a stack that is not empty when
there is no span tree. -/
theorem END_PROFILING_no_spans (g : hp_global_t) (h : host_t) (top : hp_entry_t)
    (rest : List hp_entry_t) (hsp : g.spans = none) (he : g.entries = top :: rest) :
    END_PROFILING g 1 h
      = if g.tideways_flags &&& TIDEWAYS_FLAGS_NO_SPANS = 0 ∧ top.span_id ≥ 0 then none
        else some { g with entries := rest,
                           entry_free_list := top :: g.entry_free_list,
                           stats_count := hp_leave_stats g h,
                           func_hash_counters := hp_leave_counters g } := by
  cases g with
  | mk enabled ever stats spans st exc entries fl tf tn root ef flags counters ft ff tcb scache
      gr gc cc cw cs =>
  simp only at hsp he
  subst he
  subst hsp
  unfold END_PROFILING hp_mode_hier_endfn_cb hp_leave_stats hp_leave_counters
    hp_fast_free_hprof_entry
  simp only [ne_eq, one_ne_zero, not_false_eq_true, if_true]
  by_cases hns : flags &&& TIDEWAYS_FLAGS_NO_SPANS = 0 ∧ top.span_id ≥ 0
  · rw [if_pos hns, if_pos hns]
    rfl
  · rw [if_neg hns, if_neg hns]
    simp only [Option.map_some', Option.some_bind]
    by_cases hh : flags &&& TIDEWAYS_FLAGS_NO_HIERACHICAL > 0
    · simp only [if_pos hh]
    · simp only [if_neg hh]
      cases stats with
      | none => rfl
      | some stt =>
        simp only [hp_hash_lookup]
        cases zend_hash_find stt (hp_qualified_name (top :: rest)) <;> rfl

theorem END_PROFILING_empty (g : hp_global_t) (flag : Int) (h : host_t) (hflag : flag ≠ 0)
    (he : g.entries = []) : END_PROFILING g flag h = none := by
  unfold END_PROFILING hp_mode_hier_endfn_cb
  simp [he, hflag]

/-- The end of a call in two states that agree except for left-over content
of frames: the results agree except for left-over content of frames. -/
theorem END_PROFILING_written (g g1 : hp_global_t) (flag : Int) (h : host_t)
    (hR : hp_globals_written g1 = hp_globals_written g) :
    (END_PROFILING g1 flag h).map hp_globals_written
      = (END_PROFILING g flag h).map hp_globals_written := by
  by_cases hflag : flag = 0
  · subst hflag
    simp only [END_PROFILING_zero, Option.map_some', hR]
  · rw [END_PROFILING_flag g flag h hflag, END_PROFILING_flag g1 flag h hflag]
    obtain ⟨q1, _, q3, _, _, _, _, _, _, q10⟩ := hp_globals_written_fields g g1 hR
    have hst : hp_leave_stats g1 h = hp_leave_stats g h := by
      rw [← hp_leave_stats_written g1, hR, hp_leave_stats_written g]
    have hct : hp_leave_counters g1 = hp_leave_counters g := by
      rw [← hp_leave_counters_written g1, hR, hp_leave_counters_written g]
    cases he : g.entries with
    | nil =>
      rw [he, List.map_nil, List.map_eq_nil_iff] at q10
      rw [END_PROFILING_empty g 1 h one_ne_zero he, END_PROFILING_empty g1 1 h one_ne_zero q10]
    | cons top rest =>
      cases he1 : g1.entries with
      | nil => rw [he, he1] at q10; simp at q10
      | cons top1 rest1 =>
        rw [he, he1, List.map_cons, List.map_cons, List.cons.injEq] at q10
        obtain ⟨hw, hrest⟩ := q10
        have hspan0 := congrArg hp_entry_t.span_id hw
        have hspan : top1.span_id = top.span_id := hspan0
        have hfinal : ∀ (spn : Option SpanTree) (l l1 : List hp_entry_t),
            hp_globals_written
              { g1 with entries := rest1, entry_free_list := l1, spans := spn,
                        stats_count := hp_leave_stats g1 h,
                        func_hash_counters := hp_leave_counters g1 }
            = hp_globals_written
              { g with entries := rest, entry_free_list := l, spans := spn,
                       stats_count := hp_leave_stats g h,
                       func_hash_counters := hp_leave_counters g } := by
          intro spn l l1
          rw [hst, hct]
          cases g with
          | mk enabled ever stats spans st exc entries fl tf tn root ef flags counters ft ff tcb
              scache gr gc cc cw cs =>
          cases g1 with
          | mk enabled1 ever1 stats1 spans1 st1 exc1 entries1 fl1 tf1 tn1 root1 ef1 flags1
              counters1 ft1 ff1 tcb1 scache1 gr1 gc1 cc1 cw1 cs1 =>
          simp only [hp_globals_written, hp_global_t.mk.injEq, and_true, true_and] at hR
          obtain ⟨r1, r2, r3, r4, r5, r6, r7, r8, r9, r10, r11, r12, r13, r14, r15, r16, r17,
            r18, r19, r20, r21, r22⟩ := hR
          subst r1 r2 r3 r4 r5 r6 r8 r9 r10 r11 r12 r13 r14 r15 r16 r17 r18 r19 r20 r21 r22
          simp only [hp_globals_written, hp_global_t.mk.injEq, and_true, true_and]
          exact hrest
        cases hsp : g.spans with
        | some sp0 =>
          have hsp1 : g1.spans = some sp0 := by rw [q3, hsp]
          have hls : hp_leave_spans g1 h sp0 = hp_leave_spans g h sp0 := by
            rw [← hp_leave_spans_written g1, hR, hp_leave_spans_written g]
          rw [END_PROFILING_spec_spans g h top rest sp0 hsp he,
            END_PROFILING_spec_spans g1 h top1 rest1 sp0 hsp1 he1, hls]
          simp only [Option.map_some', Option.some.injEq]
          exact hfinal _ _ _
        | none =>
          have hsp1 : g1.spans = none := by rw [q3, hsp]
          rw [END_PROFILING_no_spans g h top rest hsp he,
            END_PROFILING_no_spans g1 h top1 rest1 hsp1 he1]
          by_cases hc : g.tideways_flags &&& TIDEWAYS_FLAGS_NO_SPANS = 0 ∧ top.span_id ≥ 0
          · have hc1 : g1.tideways_flags &&& TIDEWAYS_FLAGS_NO_SPANS = 0 ∧ top1.span_id ≥ 0 := by
              rw [q1, hspan]; exact hc
            rw [if_pos hc, if_pos hc1]
          · have hc1 : ¬ (g1.tideways_flags &&& TIDEWAYS_FLAGS_NO_SPANS = 0
                ∧ top1.span_id ≥ 0) := by
              rw [q1, hspan]; exact hc
            rw [if_neg hc, if_neg hc1]
            simp only [Option.map_some', Option.some.injEq]
            have := hfinal none (top :: g.entry_free_list) (top1 :: g1.entry_free_list)
            rw [hsp, hsp1]
            exact this
theorem hp_step_written (g g1 : hp_global_t) (fl : List Int) (c c1 : hp_call)
    (hR : hp_globals_written g1 = hp_globals_written g) (hc : hp_call_same c c1) :
    (hp_step g1 fl c1).map (fun r => (hp_globals_written r.1, r.2))
      = (hp_step g fl c).map (fun r => (hp_globals_written r.1, r.2)) := by
  cases c with
  | enter s d h =>
    cases c1 with
    | leave h1 => exact absurd hc id
    | enter s1 d1 h1 =>
      have e1 : s1 = s := hc.1
      have e2 : d1 = d := hc.2.1
      subst e1 e2
      have hb := BEGIN_PROFILING_written g g1 s1 d1 h h1 hR hc
      simp only [hp_step, Option.map_map]
      have hk : ∀ x : Option (hp_global_t × Int),
          x.map ((fun r : hp_global_t × List Int => (hp_globals_written r.1, r.2)) ∘
            (fun r : hp_global_t × Int => (r.1, r.2 :: fl)))
          = (x.map (fun r : hp_global_t × Int => (hp_globals_written r.1, r.2))).map
              (fun r : hp_global_t × Int => (r.1, r.2 :: fl)) := by
        intro x
        cases x <;> rfl
      rw [hk, hk, hb]
  | leave h =>
    cases c1 with
    | enter s1 d1 h1 => exact absurd hc id
    | leave h1 =>
      have e1 : h1 = h := hc
      subst e1
      cases fl with
      | nil => rfl
      | cons flag rest =>
        obtain ⟨_, _, _, _, _, _, _, _, _, q10⟩ := hp_globals_written_fields g g1 hR
        simp only [hp_step]
        by_cases he : g.entries = []
        · have he1 : g1.entries = [] := by
            rw [he, List.map_nil, List.map_eq_nil_iff] at q10
            exact q10
          simp only [he, he1, if_true, Option.map_some', hR]
        · have he1 : ¬ g1.entries = [] := by
            intro h0
            rw [h0, List.map_nil] at q10
            exact he (List.map_eq_nil_iff.mp q10.symm)
          simp only [he, he1, if_false, Option.map_map]
          have he2 := END_PROFILING_written g g1 flag h1 hR
          have hk : ∀ x : Option hp_global_t,
              x.map ((fun r : hp_global_t × List Int => (hp_globals_written r.1, r.2)) ∘
                (fun g0 : hp_global_t => (g0, rest)))
              = (x.map hp_globals_written).map (fun g0 : hp_global_t => (g0, rest)) := by
            intro x
            cases x <;> rfl
          rw [hk, hk, he2]

theorem hp_run_written (calls : List hp_call) :
    ∀ (calls1 : List hp_call) (g g1 : hp_global_t) (fl : List Int),
      hp_globals_written g1 = hp_globals_written g → hp_calls_same calls calls1 →
      (hp_run g1 fl calls1).map (fun r => (hp_globals_written r.1, r.2))
        = (hp_run g fl calls).map (fun r => (hp_globals_written r.1, r.2)) := by
  induction calls with
  | nil =>
    intro calls1 g g1 fl hR hc
    cases calls1 with
    | nil => simp only [hp_run, Option.map_some', hR]
    | cons c1 cs1 => exact absurd hc id
  | cons c cs ih =>
    intro calls1 g g1 fl hR hc
    cases calls1 with
    | nil => exact absurd hc id
    | cons c1 cs1 =>
      obtain ⟨hc1, hcs⟩ := hc
      have hstep := hp_step_written g g1 fl c c1 hR hc1
      simp only [hp_run]
      cases hs : hp_step g fl c with
      | none =>
        rw [hs] at hstep
        cases hs1 : hp_step g1 fl c1 with
        | none => rfl
        | some r1 => rw [hs1] at hstep; simp at hstep
      | some r =>
        rw [hs] at hstep
        cases hs1 : hp_step g1 fl c1 with
        | none => rw [hs1] at hstep; simp at hstep
        | some r1 =>
          rw [hs1] at hstep
          simp only [Option.map_some', Option.some.injEq, Prod.mk.injEq] at hstep
          obtain ⟨hw, hfl⟩ := hstep
          simp only [Option.some_bind]
          rw [hfl]
          exact ih cs1 r.1 r1.1 r.2 hw hcs

/-- C28. For every flags value: take two states that agree except for what
earlier uses have left in the frames (the content of the frame pool, and in
the frames on the stack the fields that the enter of a session with these
flags does not write), and two sequences of call boundaries that agree
except for the content of the memory that `malloc` hands out. Both runs
fail or both return, with the same profile flags and with states that again
agree except for what was left over; in particular the statistics, the span
tree, the span cache, the bucket counters and the written fields of every
frame are the same. -/
theorem hp_leftover_never_read (g g1 : hp_global_t) (fl : List Int)
    (calls calls1 : List hp_call)
    (hR : hp_globals_written g1 = hp_globals_written g)
    (hc : hp_calls_same calls calls1) :
    (hp_run g1 fl calls1).map (fun r => (hp_globals_written r.1, r.2))
      = (hp_run g fl calls).map (fun r => (hp_globals_written r.1, r.2)) ∧
    (∀ r r1, hp_run g fl calls = some r → hp_run g1 fl calls1 = some r1 →
      r1.1.stats_count = r.1.stats_count ∧ r1.1.spans = r.1.spans ∧
      r1.1.span_cache = r.1.span_cache ∧
      r1.1.func_hash_counters = r.1.func_hash_counters ∧
      r1.1.entries.map (hp_entry_written r.1.tideways_flags)
        = r.1.entries.map (hp_entry_written r.1.tideways_flags)) := by
  have hrun := hp_run_written calls calls1 g g1 fl hR hc
  refine ⟨hrun, ?_⟩
  intro r r1 hr hr1
  rw [hr, hr1] at hrun
  simp only [Option.map_some', Option.some.injEq, Prod.mk.injEq] at hrun
  obtain ⟨_, _, _, q4, _, _, _, q8, q9, q10⟩ := hp_globals_written_fields r.1 r1.1 hrun.1
  have q3 := (hp_globals_written_fields r.1 r1.1 hrun.1).2.2.1
  exact ⟨q8, q3, q4, q9, q10⟩

theorem hp_leftover_never_read_witness :
    (hp_run hp_session_pool []
        [.enter "foo".toList (some no_args) (host_at 10), .leave (host_at 20)]).map
        (fun r => (hp_globals_written r.1, r.2))
      = (hp_run hp_session0 []
        [.enter "foo".toList (some no_args)
          { host_at 10 with malloc_entry := { frame_foo with rlvl_hprof := 3, cpu_start := 8 } },
         .leave (host_at 20)]).map
        (fun r => (hp_globals_written r.1, r.2)) :=
  (hp_leftover_never_read hp_session0 hp_session_pool []
    [.enter "foo".toList (some no_args)
      { host_at 10 with malloc_entry := { frame_foo with rlvl_hprof := 3, cpu_start := 8 } },
     .leave (host_at 20)]
    [.enter "foo".toList (some no_args) (host_at 10), .leave (host_at 20)]
    rfl ⟨⟨rfl, rfl, rfl, rfl, rfl, rfl, rfl, rfl, rfl⟩, rfl, trivial⟩).1

end Tideways
